import Mathlib

/-!
# rkt KVM flavor: launch arguments and volume wiring

A shallow embedding of

* `networking/kvm.go` (the `activeNet` accessors),
* `stage1/init/kvm/network.go` (`GetKVMNetArgs`),
* `stage1/init/mount.go` (`newMountUnit`, `podToSystemdHostMountUnits`,
  `appToSystemdMountUnits`, `PodToKvmDiskArgs`),
* `tests/rkt_net_test.go` (`networkTemplateT`, its encoding by `json.Marshal`, and
  `TestNetTemplates`),

followed by the properties proved about them.

A Go `string` is a sequence of bytes.  It is embedded as a Lean `String`, one
character per byte, so `String.length` is the Go `len` and `++` is the Go `+`.

The functions of `mount.go` act on the file system.  They are embedded as
functions from the state of the file system (`os.FS`) to the state they leave
and the `error` they return; the calls of package `os` are modelled on that
state, with the error numbers that decide a branch of the code.  Logging is
not part of the state.  What `mount.go` calls from packages that are not among
the sources is a parameter (`stage1.Env`).
-/

namespace Rkt

/-! ## Go standard library: `net.IP` -/

namespace net

/-- One octet of an address. -/
abbrev Byte := Fin 256

/-- Go `net.IP`: a slice of bytes (4 bytes for IPv4, 16 for IPv6). -/
abbrev IP := List Byte

/-- Go `net.IPMask`: a slice of bytes as well, but a type of its own, with its
own methods. -/
structure IPMask where
  bytes : List Byte
  deriving DecidableEq, Repr

/-- The twelve-byte prefix `v4InV6Prefix` of an IPv4 address stored in 16 bytes. -/
def v4InV6Prefix : List Byte := [0, 0, 0, 0, 0, 0, 0, 0, 0, 0, 0xff, 0xff]

/-- Go `IP.To4`: the 4-byte form of an IPv4 address, `none` (Go `nil`) otherwise. -/
def IP.To4 (ip : IP) : Option (Byte × Byte × Byte × Byte) :=
  match ip with
  | [a, b, c, d] => some (a, b, c, d)
  | [p0, p1, p2, p3, p4, p5, p6, p7, p8, p9, p10, p11, a, b, c, d] =>
    if [p0, p1, p2, p3, p4, p5, p6, p7, p8, p9, p10, p11] = v4InV6Prefix then
      some (a, b, c, d)
    else none
  | _ => none

/-- Go `uitoa`: decimal rendering of an unsigned number. -/
def uitoa (n : Nat) : String := toString n

/-- The sixteen bytes of an IPv6 address as eight 16-bit groups. -/
def groups : List Byte → List Nat
  | hi :: lo :: rest => (hi.val * 256 + lo.val) :: groups rest
  | _ => []

/-- Length of the run of zero groups at the head of the list. -/
def zeroRun : List Nat → Nat
  | 0 :: rest => zeroRun rest + 1
  | _ => 0

/-- The first longest run of zero groups, as `(start, length)`; the scan of
`IP.String` keeps a later run only when it is strictly longer. -/
def longestZeroRun : List Nat → Nat → Nat × Nat → Nat × Nat
  | [], _, best => best
  | g :: rest, i, best =>
    let n := zeroRun (g :: rest)
    longestZeroRun rest (i + 1) (if n > best.2 then (i, n) else best)

/-- Go `appendHex`: lower-case hexadecimal without leading zeros. -/
def appendHex (n : Nat) : String := String.mk (Nat.toDigits 16 n)

/-- The colon-separated rendering of the groups in `gs`. -/
def hexGroups (gs : List Nat) : String := String.intercalate ":" (gs.map appendHex)

/-- Go `IP.String`: `<nil>` for the empty slice, dotted decimal for IPv4 (4 bytes or
IPv4-in-IPv6), `?` for a slice of any other length than 16, and otherwise the
IPv6 text form with the first longest run of at least two zero groups
replaced by `::`. -/
def IP.String (ip : IP) : String :=
  if ip.length = 0 then "<nil>"
  else
    match IP.To4 ip with
    | some (a, b, c, d) =>
      uitoa a.val ++ "." ++ uitoa b.val ++ "." ++ uitoa c.val ++ "." ++ uitoa d.val
    | none =>
      if ip.length ≠ 16 then "?"
      else
        let gs := groups ip
        let run := longestZeroRun gs 0 (0, 0)
        if run.2 ≤ 1 then hexGroups gs
        else hexGroups (gs.take run.1) ++ "::" ++ hexGroups (gs.drop (run.1 + run.2))

/-- Go `hexString`: two lower-case hexadecimal digits for every byte. -/
def hexString (b : List Byte) : String :=
  String.mk (b.map fun tn => [Nat.digitChar (tn.val / 16), Nat.digitChar (tn.val % 16)]).flatten

/-- Go `IPMask.String`: `<nil>` for the empty mask, otherwise the hexadecimal form
of the mask, without punctuation. -/
def IPMask.String (m : IPMask) : String :=
  if m.bytes.length = 0 then "<nil>" else hexString m.bytes

end net

/-! ## `networking/kvm.go`: the active-network view -/

namespace networking

/-- Modelled from the spec: the constant `IfNamePattern` of package `networking`
(not among the sources), the positional guest device name `eth0`, `eth1`, …;
this is `fmt.Sprintf(networking.IfNamePattern, i)`. -/
def IfNamePattern (i : Nat) : String := "eth" ++ toString i

/-- The fields of `NetConf` read by the accessors (`Type_` is the Go field `Type`). -/
structure NetConf where
  Name : String
  Type_ : String
  IPMasq : Bool
  deriving DecidableEq, Repr

/-- CNI `types.Route`: a destination network and a gateway. -/
structure Route where
  Dst : net.IP × net.IPMask
  GW : net.IP
  deriving DecidableEq, Repr

/-- Go `net.IPNet`: an address with its mask. -/
structure IPNet where
  IP : net.IP
  Mask : net.IPMask
  deriving DecidableEq, Repr

/-- CNI `types.IPConfig`: the provisioned IPv4 configuration. -/
structure IPConfig where
  IP : IPNet
  Gateway : net.IP
  Routes : List Route
  deriving DecidableEq, Repr

/-- The runtime part of an active network (`netInfo`). -/
structure NetInfo where
  IfName : String
  IP4 : IPConfig
  deriving DecidableEq, Repr

/-- One provisioned network attachment. -/
structure activeNet where
  conf : NetConf
  runtime : NetInfo
  deriving DecidableEq, Repr

/-- The host link table consulted by `netlink.LinkByName`: the kernel index of
the link of that name, `none` when the lookup fails. -/
abbrev Links := String → Option Int

def activeNet.HostIP (an : activeNet) : net.IP := an.runtime.IP4.Gateway

def activeNet.GuestIP (an : activeNet) : net.IP := an.runtime.IP4.IP.IP

/-- A macvtap device is named by the path `/dev/tapN`, `N` the link index; a
failed lookup is logged and yields the empty name. -/
def activeNet.IfName (links : Links) (an : activeNet) : String :=
  if an.conf.Type_ = "macvlan" then
    match links an.runtime.IfName with
    | none => ""
    | some index => "/dev/tap" ++ toString index
  else an.runtime.IfName

def activeNet.Mask (an : activeNet) : net.IPMask := an.runtime.IP4.IP.Mask

def activeNet.Name (an : activeNet) : String := an.conf.Name

def activeNet.IPMasq (an : activeNet) : Bool := an.conf.IPMasq

def activeNet.Gateway (an : activeNet) : net.IP := an.runtime.IP4.Gateway

def activeNet.Routes (an : activeNet) : List Route := an.runtime.IP4.Routes

def activeNet.IPC (an : activeNet) : IPConfig := an.runtime.IP4

/-- The networking state of a pod: its active networks, in order. -/
structure Networking where
  nets : List activeNet
  deriving DecidableEq, Repr

def Networking.GetActiveNetworks (e : Networking) : List activeNet := e.nets

end networking

/-! ## `stage1/init/kvm/network.go` -/

namespace kvm

/-- The interface `NetDescriber`: what a network exposes to the argument builder.
The methods are pure accessors, so a describer is the record of their results. -/
structure NetDescriber where
  HostIP : net.IP
  GuestIP : net.IP
  Mask : net.IP
  IfName : String
  IPMasq : Bool
  deriving DecidableEq, Repr

/-- The loop `for i, nd := range nds` of `GetKVMNetArgs`, entered at index `i`
with the two slices built so far. -/
def netArgsLoop : Nat → List NetDescriber → List String → List String →
    List String × List String
  | _, [], lkvmArgs, kernelParams => (lkvmArgs, kernelParams)
  | i, nd :: nds, lkvmArgs, kernelParams =>
    let gw : String := if nd.IPMasq then nd.HostIP.String else ""
    let kernelParams := kernelParams ++
      ["ip=" ++ nd.GuestIP.String ++ "::" ++ gw ++ ":" ++ nd.Mask.String ++ ":" ++
        networking.IfNamePattern i ++ ":::"]
    let lkvmArgs := lkvmArgs ++
      ["--network", "mode=tap,tapif=" ++ nd.IfName ++ ",host_ip=" ++ nd.HostIP.String ++
        ",guest_ip=" ++ nd.GuestIP.String]
    netArgsLoop (i + 1) nds lkvmArgs kernelParams

/-- The body of `GetKVMNetArgs` on values of the interface `NetDescriber`: the
hypervisor arguments, the kernel parameters and the error (always `nil`). -/
def netArgs (nds : List NetDescriber) : List String × List String × Option String :=
  let r := netArgsLoop 0 nds [] []
  (r.1, r.2, none)

/-- The same loop as it runs in `GetKVMNetArgs`, where `nds` holds the active
networks themselves (`nds = append(nds, an)`): every call `nd.M()` is the call
of the method `M` of `activeNet`.  `activeNet.Mask` returns a `net.IPMask` and
not the `net.IP` that the interface declares, and nothing converts it, so the
`String` called on the mask is `IPMask.String`. -/
def activeNetArgsLoop (links : networking.Links) :
    Nat → List networking.activeNet → List String → List String → List String × List String
  | _, [], lkvmArgs, kernelParams => (lkvmArgs, kernelParams)
  | i, nd :: nds, lkvmArgs, kernelParams =>
    let gw : String := if nd.IPMasq then nd.HostIP.String else ""
    let kernelParams := kernelParams ++
      ["ip=" ++ nd.GuestIP.String ++ "::" ++ gw ++ ":" ++ net.IPMask.String nd.Mask ++ ":" ++
        networking.IfNamePattern i ++ ":::"]
    let lkvmArgs := lkvmArgs ++
      ["--network", "mode=tap,tapif=" ++ nd.IfName links ++ ",host_ip=" ++ nd.HostIP.String ++
        ",guest_ip=" ++ nd.GuestIP.String]
    activeNetArgsLoop links (i + 1) nds lkvmArgs kernelParams

/-- `GetKVMNetArgs`: additional arguments for `lkvm` and for the kernel, from the
active networks of `n`. -/
def GetKVMNetArgs (links : networking.Links) (n : networking.Networking) :
    List String × List String × Option String :=
  let r := activeNetArgsLoop links 0 n.GetActiveNetworks [] []
  (r.1, r.2, none)

end kvm

/-! ## Splitting a string at a separator -/

namespace strings

/-- The pieces of `s` between the occurrences of `sep` (empty pieces included);
there is always at least one piece. -/
def splitChar (sep : Char) : List Char → List (List Char)
  | [] => [[]]
  | c :: cs =>
    if c = sep then [] :: splitChar sep cs
    else
      match splitChar sep cs with
      | [] => [[c]]
      | e :: es => (c :: e) :: es

/-- The fields of `s` delimited by `sep`, as strings. -/
def fields (sep : Char) (s : String) : List String :=
  (splitChar sep s.data).map String.mk

end strings

/-! ## Go standard library: `path/filepath` -/

namespace filepath

/-- The pieces of a path between its separators `/` (empty pieces included). -/
def splitSlash (p : List Char) : List (List Char) := strings.splitChar '/' p

/-- The elements `Clean` keeps scanning: empty pieces (repeated separators) and
`.` elements are skipped. -/
def elems (p : List Char) : List (List Char) :=
  (splitSlash p).filter fun e => !(e == [] || e == ['.'])

/-- One element processed by `Clean`; `out` holds the elements written so far,
last one first.  A `..` removes the preceding element unless there is none or
it is a `..` itself; then it is dropped in a rooted path and written in a
relative one. -/
def cleanStep (rooted : Bool) (out : List (List Char)) (e : List Char) : List (List Char) :=
  if e = ['.', '.'] then
    match out with
    | top :: rest =>
      if top = ['.', '.'] then (if rooted then out else e :: out) else rest
    | [] => if rooted then [] else [e]
  else e :: out

/-- A path element proper: not empty, without separator, neither `.` nor `..`. -/
def isName (e : List Char) : Prop := e ≠ [] ∧ '/' ∉ e ∧ e ≠ ['.'] ∧ e ≠ ['.', '.']

instance (e : List Char) : Decidable (isName e) := by
  unfold isName
  infer_instance

/-- The characters of `Clean p`. -/
def cleanChars (p : List Char) : List Char :=
  match p with
  | [] => ['.']
  | c :: _ =>
    let rooted : Bool := c = '/'
    let out := ((elems p).foldl (cleanStep rooted) []).reverse
    if rooted then '/' :: ['/'].intercalate out
    else if out = [] then ['.'] else ['/'].intercalate out

/-- Go `filepath.Clean` (Unix): the shortest path name equivalent to `p` by
purely lexical processing. -/
def Clean (p : String) : String := String.mk (cleanChars p.data)

/-- Go `filepath.Join`: the elements from the first non-empty one on are joined
with `/` and the result is cleaned; the empty string when all are empty. -/
def Join : List String → String
  | [] => ""
  | e :: rest => if e = "" then Join rest else Clean ("/".intercalate (e :: rest))

/-- What is left of the elements `es` below the place where they start, last one
first, after the elements `below`; `none` when a `..` among them climbs above
that place. -/
def descend : List (List Char) → List (List Char) → Option (List (List Char))
  | below, [] => some below
  | below, e :: es =>
    if e = ['.', '.'] then
      match below with
      | [] => none
      | _ :: rest => descend rest es
    else descend (e :: below) es

/-- Whether the path `p`, followed from a directory, stays in that directory: no
`..` of `p` climbs above the place where `p` starts. -/
def staysBelow (p : String) : Bool := (descend [] (elems p.data)).isSome

/-- Go `filepath.IsAbs` (Unix): whether the path begins with a separator. -/
def IsAbs (p : String) : Bool := p.data.head? = some '/'

/-- The path `p` is the directory `dir` or lies inside it: both are absolute or
both relative, and the elements of `dir` are the first elements of `p`. -/
def inside (dir p : String) : Prop :=
  IsAbs dir = IsAbs p ∧ elems dir.data <+: elems p.data

instance (dir p : String) : Decidable (inside dir p) := by
  unfold inside
  infer_instance

end filepath

/-! ## Go standard library: the file system seen through package `os` -/

namespace os

/-- The error numbers that occur. -/
inductive Errno where
  | ENOENT
  | EEXIST
  | ENOTDIR
  | EISDIR
  | EIO_
  deriving DecidableEq, Repr

def Errno.Error : Errno → String
  | .ENOENT => "no such file or directory"
  | .EEXIST => "file exists"
  | .ENOTDIR => "not a directory"
  | .EISDIR => "is a directory"
  | .EIO_ => "input/output error"

/-- Go `*os.PathError`. -/
structure PathError where
  Op : String
  Path : String
  Err : Errno
  deriving DecidableEq, Repr

def PathError.Error (e : PathError) : String :=
  e.Op ++ " " ++ e.Path ++ ": " ++ e.Err.Error

/-- The state of the file system: the directories that exist, the regular files
with their content, and the files on which every write fails with an I/O
error. -/
structure FS where
  dirs : List String
  files : List (String × String)
  faulty : List String
  deriving DecidableEq, Repr

/-- The content of the regular file at `path`, if there is one. -/
def FS.readFile (fs : FS) (path : String) : Option String := fs.files.lookup path

def FS.isDir (fs : FS) (path : String) : Bool := decide (path ∈ fs.dirs)

def FS.isFile (fs : FS) (path : String) : Bool := (fs.readFile path).isSome

/-- The path of the directory holding the last element of `path`, as `MkdirAll`
computes it: trailing separators are skipped, then the last element, and
what stands before its separator is returned (`path[0:j-1]`, when `j > 1`). -/
def parent (path : String) : Option String :=
  let r := ((path.data.reverse.dropWhile (· = '/')).dropWhile (· ≠ '/'))
  if r.length > 1 then some (String.mk r.tail.reverse) else none

/-- The chain of parents of `path`, nearest first. -/
def ancestors : Nat → String → List String
  | 0, _ => []
  | fuel + 1, path =>
    match parent path with
    | none => []
    | some q => q :: ancestors fuel q

/-- The paths that `MkdirAll path` has to make when the directories `dirs` exist:
`path` itself when it is not among them, and then each parent up to the first
one that is. -/
inductive Missing (dirs : List String) : String → String → Prop where
  | self {path : String} : path ∉ dirs → Missing dirs path path
  | up {path q d : String} : path ∉ dirs → parent path = some q → Missing dirs q d →
      Missing dirs path d

/-- Go `os.Stat`: whether `path` is a directory (`true`) or a regular file
(`false`); it fails with `ENOTDIR` when an element of the path is a regular
file and with `ENOENT` when nothing is there. -/
def FS.Stat (fs : FS) (path : String) : Except PathError Bool :=
  if fs.isDir path then .ok true
  else if fs.isFile path then .ok false
  else if (ancestors path.length path).any fs.isFile then .error ⟨"stat", path, .ENOTDIR⟩
  else .error ⟨"stat", path, .ENOENT⟩

/-- Go `os.IsNotExist` applied to the error of a `Stat`. -/
def IsNotExist (r : Except PathError Bool) : Bool :=
  match r with
  | .ok _ => false
  | .error e => decide (e.Err = .ENOENT)

/-- Go `os.Mkdir`: creates one directory; the path must not exist and its
parent must be a directory. -/
def FS.Mkdir (fs : FS) (path : String) : Except PathError FS :=
  if fs.isDir path || fs.isFile path then .error ⟨"mkdir", path, .EEXIST⟩
  else
    match parent path with
    | some q =>
      if fs.isDir q then .ok { fs with dirs := fs.dirs ++ [path] }
      else if fs.isFile q then .error ⟨"mkdir", path, .ENOTDIR⟩
      else .error ⟨"mkdir", path, .ENOENT⟩
    | none => .ok { fs with dirs := fs.dirs ++ [path] }

/-- The end of `MkdirAll`, once the parent has been dealt with (`up` is the state
and the error that came back): `Mkdir` of the path itself; when that fails
and the path is a directory after all, there is no error. -/
def mkdirLast (path : String) (up : FS × Option PathError) : FS × Option PathError :=
  match up with
  | (fs1, some err) => (fs1, some err)
  | (fs1, none) =>
    match fs1.Mkdir path with
    | .ok fs2 => (fs2, none)
    | .error err =>
      match fs1.Stat path with
      | .ok true => (fs1, none)
      | _ => (fs1, some err)

/-- Go `os.MkdirAll`, with `fuel` bounding the walk up the parents: nothing to do
when `path` is a directory, `ENOTDIR` when it is a file; otherwise the parent
(if the path has one) is made first and then `path` itself.  The state comes
back with the error. -/
def mkdirAll : Nat → FS → String → FS × Option PathError
  | 0, fs, path =>
    match fs.Stat path with
    | .ok true => (fs, none)
    | .ok false => (fs, some ⟨"mkdir", path, .ENOTDIR⟩)
    | .error _ => mkdirLast path (fs, none)
  | fuel + 1, fs, path =>
    match fs.Stat path with
    | .ok true => (fs, none)
    | .ok false => (fs, some ⟨"mkdir", path, .ENOTDIR⟩)
    | .error _ =>
      match parent path with
      | some q => mkdirLast path (mkdirAll fuel fs q)
      | none => mkdirLast path (fs, none)

/-- Go `os.MkdirAll(path, 0700)`; a parent is strictly shorter than its path, so
`path.length` steps reach the top. -/
def MkdirAll (fs : FS) (path : String) : FS × Option PathError :=
  mkdirAll path.length fs path

/-- Go `os.OpenFile(path, os.O_WRONLY|os.O_CREATE, 0644)`: opens the file for
writing, creating it empty when it is absent; an existing file keeps its
content (no `O_TRUNC`). -/
def FS.OpenFile (fs : FS) (path : String) : Except PathError FS :=
  if fs.isDir path then .error ⟨"open", path, .EISDIR⟩
  else if fs.isFile path then .ok fs
  else if (ancestors path.length path).any fs.isFile then .error ⟨"open", path, .ENOTDIR⟩
  else
    match parent path with
    | some q =>
      if fs.isDir q then .ok { fs with files := fs.files ++ [(path, "")] }
      else .error ⟨"open", path, .ENOENT⟩
    | none => .ok { fs with files := fs.files ++ [(path, "")] }

/-- The bytes of `old` overwritten from offset 0 by `data`. -/
def overwrite (old data : String) : String :=
  data ++ String.mk (old.data.drop data.length)

/-- Go `io.Copy(file, reader)` on a file just opened: the bytes of `data` are
written from offset 0 over the content; no write takes place for empty data,
and a write on a faulty file fails and leaves the content as it was. -/
def FS.Copy (fs : FS) (path : String) (data : String) : Except PathError FS :=
  if data = "" then .ok fs
  else if path ∈ fs.faulty then .error ⟨"write", path, .EIO_⟩
  else
    .ok { fs with files := fs.files.map fun f =>
            if f.1 = path then (f.1, overwrite f.2 data) else f }

end os

/-! ## `stage1/init/mount.go` -/

namespace types

/-- Whether a character is one of `a`–`z`, `0`–`9`. -/
def isLowerAlnum (c : Char) : Bool := c.isLower || c.isDigit

/-- What may follow the first character of a name: lower-case alphanumerics, a
single `-` only between two of them. -/
def acNameTail : List Char → Bool
  | [] => true
  | c :: cs =>
    if isLowerAlnum c then acNameTail cs
    else if c = '-' then
      match cs with
      | [] => false
      | d :: ds => isLowerAlnum d && acNameTail ds
    else false

/-- The names an `ACName` accepts: `^[a-z0-9]+([-][a-z0-9]+)*$`. -/
def validACName (s : String) : Bool :=
  match s.data with
  | [] => false
  | c :: cs => isLowerAlnum c && acNameTail cs

/-- Modelled from the spec: the type `types.ACName` of the appc schema (not among
the sources), the name of a volume, which doubles as the transport tag; a value
of the type is a string that passed the validation of its constructor. -/
structure ACName where
  val : String
  valid : validACName val = true
  deriving DecidableEq

def ACName.String (n : ACName) : String := n.val

/-- The fields of `types.Volume` read by the code. -/
structure Volume where
  Name : ACName
  Kind : String
  Source : String
  ReadOnly : Option Bool
  deriving DecidableEq

/-- The appc type `types.MountPoint`. -/
structure MountPoint where
  Name : ACName
  Path : String
  ReadOnly : Bool
  deriving DecidableEq

/-- The appc type `types.Hash`: an image identifier. -/
structure Hash where
  typ : String
  Val : String
  deriving DecidableEq, Repr

end types

namespace unit

/-- The go-systemd type `unit.UnitOption`. -/
structure UnitOption where
  Section_ : String
  Name : String
  Value : String
  deriving DecidableEq, Repr

def NewUnitOption (sect name value : String) : UnitOption := ⟨sect, name, value⟩

end unit

namespace stage1

open types unit os

/-- The functions of other packages called by `mount.go` that are not among the
sources: `unit.Serialize` (read to the end) and `unit.UnitNamePathEscape` of
go-systemd, `common.RelAppRootfsPath`, `ServiceUnitName`, and the quoting of the
verb `%q` of `fmt`. -/
structure Env where
  Serialize : List UnitOption → String
  UnitNamePathEscape : String → String
  RelAppRootfsPath : Hash → String
  ServiceUnitName : Hash → String
  Quote : String → String

/-- A Go `error` returned by the functions of `mount.go`: a `*os.PathError` handed
on unchanged, or the result of `fmt.Errorf`. -/
inductive GoError where
  | path (e : PathError)
  | errorf (msg : String)
  deriving DecidableEq, Repr

/-- The method `Error()`: the message. -/
def GoError.Error : GoError → String
  | .path e => e.Error
  | .errorf msg => msg

/-- In this place on stage1 rootfs shared volumes will be put. -/
def stage1MntDir : String := "/mnt/"

/-- The options `opts` that `newMountUnit` serializes. -/
def mountUnitOptions (what where_ fsType options requiredBy : String) : List UnitOption :=
  let opts := [
    NewUnitOption "Unit" "Description" ("Mount unit for " ++ where_),
    NewUnitOption "Unit" "DefaultDependencies" "false",
    NewUnitOption "Mount" "What" what,
    NewUnitOption "Mount" "Where" where_,
    NewUnitOption "Mount" "Type" fsType,
    NewUnitOption "Mount" "Options" options]
  if requiredBy ≠ "" then opts ++ [NewUnitOption "Install" "RequiredBy" requiredBy]
  else opts

/-- The file `newMountUnit` writes for the destination `where_`. -/
def unitFile (env : Env) (root where_ : String) : String :=
  let unitsPath := filepath.Join [root, "/usr/lib/systemd/system"]
  let unitName := env.UnitNamePathEscape (where_ ++ ".mount")
  filepath.Join [unitsPath, unitName]

/-- `newMountUnit`: creates a new mount unit in the default systemd location
under `root`.  The state of the file system comes back with the error. -/
def newMountUnit (env : Env) (root what where_ fsType options requiredBy : String)
    (fs : FS) : FS × Option GoError :=
  let opts := mountUnitOptions what where_ fsType options requiredBy
  let unitName := env.UnitNamePathEscape (where_ ++ ".mount")
  match fs.OpenFile (unitFile env root where_) with
  | .error err =>
    (fs, some (.errorf ("failed to create service unit file " ++ env.Quote unitName ++ ": " ++
      err.Error)))
  | .ok fs1 =>
    match fs1.Copy (unitFile env root where_) (env.Serialize opts) with
    | .error err =>
      (fs1, some (.errorf ("failed to write service unit file " ++ env.Quote unitName ++ ": " ++
        err.Error)))
    | .ok fs2 => (fs2, none)

/-- `podToSystemdHostMountUnits`: a directory under `/mnt` for every volume, and a
9p mount unit for the volumes of kind `host`. -/
def podToSystemdHostMountUnits (env : Env) (root : String) :
    List Volume → FS → FS × Option GoError
  | [], fs => (fs, none)
  | vol :: volumes, fs =>
    let name := vol.Name.String
    let mountPoint := filepath.Join [root, stage1MntDir, name]
    match MkdirAll fs mountPoint with
    | (fs1, some err) => (fs1, some (.path err))
    | (fs1, none) =>
      if vol.Kind = "host" then
        match newMountUnit env root name (filepath.Join [stage1MntDir, name]) "9p"
            "trans=virtio" "default.target" fs1 with
        | (fs2, some err) => (fs2, some err)
        | (fs2, none) => podToSystemdHostMountUnits env root volumes fs2
      else podToSystemdHostMountUnits env root volumes fs1

/-- The directory `mountPoint` that `podToSystemdHostMountUnits` makes for the
volume `name`. -/
def volumeDir (root : String) (name : ACName) : String :=
  filepath.Join [root, stage1MntDir, name.String]

/-- The unit file that `podToSystemdHostMountUnits` writes for the volume `name`
when its kind is `host`. -/
def volumeUnitFile (env : Env) (root : String) (name : ACName) : String :=
  unitFile env root (filepath.Join [stage1MntDir, name.String])

/-- The bytes that `podToSystemdHostMountUnits` writes to the unit file of the
volume `name` when its kind is `host`. -/
def volumeUnit (env : Env) (name : ACName) : String :=
  env.Serialize (mountUnitOptions name.String (filepath.Join [stage1MntDir, name.String]) "9p"
    "trans=virtio" "default.target")

/-- The writes of `podToSystemdHostMountUnits` to the file `p`, in order: the
bytes of the units of the volumes of kind `host` whose unit file is `p`. -/
def unitWrites (env : Env) (root : String) (volumes : List Volume) (p : String) : List String :=
  (volumes.filter fun v => v.Kind = "host" ∧ volumeUnitFile env root v.Name = p).map
    fun v => volumeUnit env v.Name

/-- `appToSystemdMountUnits`: a bind mount unit for every mount point of an
application, from the shared directory of the volume to the path inside the
root file system of the application. -/
def appToSystemdMountUnits (env : Env) (root : String) (appId : Hash) :
    List MountPoint → FS → FS × Option GoError
  | [], fs => (fs, none)
  | mountPoint :: mountPoints, fs =>
    let name := mountPoint.Name.String
    let whatPath := filepath.Join [stage1MntDir, name]
    let whatFullPath := filepath.Join [root, whatPath]
    let wherePath := filepath.Join [env.RelAppRootfsPath appId, mountPoint.Path]
    let whereFullPath := filepath.Join [root, wherePath]
    let mountOptions := if mountPoint.ReadOnly then "bind" ++ ",ro" else "bind"
    if IsNotExist (fs.Stat whatFullPath) then
      (fs, some (.errorf ("app requires a volume that is not defined in Pod (try --volume=" ++
        name ++ ",kind=empty)!")))
    else
      let made : FS × Option PathError :=
        if IsNotExist (fs.Stat whereFullPath) then MkdirAll fs whereFullPath else (fs, none)
      match made with
      | (fs1, some err) =>
        (fs1, some (.errorf ("failed to prepare dir for mountPoint " ++ mountPoint.Name.String ++
          ": " ++ err.Error)))
      | (fs1, none) =>
        match newMountUnit env root whatPath wherePath "bind" mountOptions
            (env.ServiceUnitName appId) fs1 with
        | (fs2, some err) => (fs2, some err)
        | (fs2, none) => appToSystemdMountUnits env root appId mountPoints fs2

/-- `PodToKvmDiskArgs`: the `lkvm` arguments that export the volumes of kind
`host` to the guest, and the error (always `nil`). -/
def PodToKvmDiskArgs (volumes : List Volume) : List String × Option GoError :=
  let args := volumes.foldl (fun args vol =>
    let mountTag := vol.Name.String
    if vol.Kind = "host" then args ++ ["--9p=" ++ vol.Source ++ "," ++ mountTag] else args) []
  (args, none)

end stage1

/-! ## Go standard library: `encoding/json` -/

namespace json

/-- One character of a string in the encoding of `Marshal`: quote and backslash
are escaped, so are the control characters, the characters `<`, `>`, `&` (HTML
escaping is on) and the line separators U+2028 and U+2029.  Characters outside
ASCII are the runes of a valid UTF-8 string. -/
def encodeChar (c : Char) : List Char :=
  if c = '\\' ∨ c = '"' then ['\\', c]
  else if c = '\n' then ['\\', 'n']
  else if c = '\r' then ['\\', 'r']
  else if c = '\t' then ['\\', 't']
  else if c.toNat < 0x20 ∨ c = '<' ∨ c = '>' ∨ c = '&' then
    ['\\', 'u', '0', '0', Nat.digitChar (c.toNat / 16), Nat.digitChar (c.toNat % 16)]
  else if c.toNat = 0x2028 ∨ c.toNat = 0x2029 then
    ['\\', 'u', '2', '0', '2', Nat.digitChar (c.toNat % 16)]
  else [c]

/-- The encoding of a Go string: a JSON string. -/
def encodeString (s : String) : String :=
  String.mk ('"' :: (s.data.map encodeChar).flatten ++ ['"'])

/-- The encoding of a Go `bool`. -/
def encodeBool (b : Bool) : String := if b then "true" else "false"

/-- The function `parseTag`: the tag of a field is split into the name before
the first comma and the options after it. -/
def parseTag (tag : String) : String × List String :=
  match strings.fields ',' tag with
  | [] => ("", [])
  | name :: opts => (name, opts)

/-- The function `isValidTag`: a key given in a tag is used when it is not empty
and made of letters, digits (those of ASCII here) and the punctuation listed. -/
def isValidTag (s : String) : Bool :=
  s ≠ "" && s.data.all fun c =>
    c ∈ "!#$%&()*+-./:<=>?@[]^_\x7b|\x7d~ ".data || c.isAlphanum

/-- A field of a struct as the encoder finds it by reflection: the name of the
field, its `json` tag, whether its value is the empty value of its type
(`false`, a nil pointer, a string, slice or map of length zero), and the
encoding of its value. -/
structure Field where
  name : String
  tag : String
  empty : Bool
  value : String

/-- The key under which a field is emitted: the name given in the tag when it is
valid, the name of the field otherwise. -/
def Field.key (f : Field) : String :=
  if isValidTag (parseTag f.tag).1 then (parseTag f.tag).1 else f.name

/-- Whether a field is left out: its tag is `-`, or it has the option
`omitempty` and its value is empty. -/
def Field.omitted (f : Field) : Bool :=
  f.tag = "-" || ("omitempty" ∈ (parseTag f.tag).2 && f.empty)

/-- The encoding of a struct: the fields that are not left out, in the order of
their declaration. -/
def encodeStruct (fields : List Field) : String :=
  "\x7b" ++ ",".intercalate ((fields.filter fun f => !f.omitted).map
    fun f => encodeString f.key ++ ":" ++ f.value) ++ "\x7d"

/-- The encoding of a `map[string]string`, `none` being the nil map: the entries
sorted by key.  The keys of the list are distinct. -/
def encodeMap : Option (List (String × String)) → String
  | none => "null"
  | some m =>
    "\x7b" ++ ",".intercalate ((m.insertionSort fun a b => a.1 ≤ b.1).map
      fun kv => encodeString kv.1 ++ ":" ++ encodeString kv.2) ++ "\x7d"

/-- The encoding of a slice, `none` being the nil slice, from the encodings of
its elements. -/
def encodeSlice : Option (List String) → String
  | none => "null"
  | some xs => "[" ++ ",".intercalate xs ++ "]"

end json

/-! ## `tests/rkt_net_test.go`: network templates -/

namespace tests

/-- The type `ipamTemplateT`. -/
structure ipamTemplateT where
  Type_ : String
  Subnet : String
  Routes : Option (List (Option (List (String × String))))

/-- The type `delegateTemplateT`. -/
structure delegateTemplateT where
  Bridge : String
  IsDefaultGateway : Bool

/-- The type `networkTemplateT`. -/
structure networkTemplateT where
  Name : String
  Type_ : String
  SubnetFile : String
  Master : String
  IpMasq : Bool
  IsGateway : Bool
  Bridge : String
  Ipam : Option ipamTemplateT
  Delegate : Option delegateTemplateT

/-- The fields of an `ipamTemplateT` with their tags. -/
def ipamTemplateT.fields (t : ipamTemplateT) : List json.Field :=
  [⟨"Type", ",omitempty", t.Type_ = "", json.encodeString t.Type_⟩,
   ⟨"Subnet", "subnet,omitempty", t.Subnet = "", json.encodeString t.Subnet⟩,
   ⟨"Routes", "routes,omitempty", (t.Routes.getD []).length = 0,
      json.encodeSlice (t.Routes.map fun rs => rs.map json.encodeMap)⟩]

/-- The fields of a `delegateTemplateT` with their tags. -/
def delegateTemplateT.fields (t : delegateTemplateT) : List json.Field :=
  [⟨"Bridge", "bridge,omitempty", t.Bridge = "", json.encodeString t.Bridge⟩,
   ⟨"IsDefaultGateway", "isDefaultGateway", !t.IsDefaultGateway,
      json.encodeBool t.IsDefaultGateway⟩]

/-- The encoding of a pointer to a struct with the given fields. -/
def encodePtr {α : Type} (fields : α → List json.Field) : Option α → String
  | none => "null"
  | some t => json.encodeStruct (fields t)

/-- The fields of a `networkTemplateT` with their tags. -/
def networkTemplateT.fields (t : networkTemplateT) : List json.Field :=
  [⟨"Name", "name", t.Name = "", json.encodeString t.Name⟩,
   ⟨"Type", "type", t.Type_ = "", json.encodeString t.Type_⟩,
   ⟨"SubnetFile", "subnetFile,omitempty", t.SubnetFile = "", json.encodeString t.SubnetFile⟩,
   ⟨"Master", "master,omitempty", t.Master = "", json.encodeString t.Master⟩,
   ⟨"IpMasq", ",omitempty", !t.IpMasq, json.encodeBool t.IpMasq⟩,
   ⟨"IsGateway", ",omitempty", !t.IsGateway, json.encodeBool t.IsGateway⟩,
   ⟨"Bridge", "bridge,omitempty", t.Bridge = "", json.encodeString t.Bridge⟩,
   ⟨"Ipam", ",omitempty", t.Ipam.isNone, encodePtr ipamTemplateT.fields t.Ipam⟩,
   ⟨"Delegate", ",omitempty", t.Delegate.isNone, encodePtr delegateTemplateT.fields t.Delegate⟩]

/-- Go `json.Marshal(net)` for a `networkTemplateT`: the bytes and the error, which
is `nil` for a value of this type. -/
def Marshal (net : networkTemplateT) : String × Option String :=
  (json.encodeStruct net.fields, none)

/-- The template of `TestNetTemplates`. -/
def ptp0Template : networkTemplateT where
  Name := "ptp0"
  Type_ := "ptp"
  SubnetFile := ""
  Master := ""
  IpMasq := false
  IsGateway := false
  Bridge := ""
  Ipam := some ⟨"host-local", "11.11.3.0/24", some [some [("dst", "0.0.0.0/0")]]⟩
  Delegate := none

/-- The encoding that `TestNetTemplates` expects. -/
def expected : String :=
  "\x7b\"Name\":\"ptp0\",\"Type\":\"ptp\",\"IpMasq\":false,\"IsGateway\":false," ++
  "\"Ipam\":\x7b\"Type\":\"host-local\",\"subnet\":\"11.11.3.0/24\"," ++
  "\"routes\":[\x7b\"dst\":\"0.0.0.0/0\"\x7d]\x7d\x7d"

/-- `TestNetTemplates`: the message of the `t.Fatalf` that ends the test, `none`
when the test passes. -/
def TestNetTemplates : Option String :=
  let net := ptp0Template
  match Marshal net with
  | (_, some err) => some err
  | (b, none) =>
    if b ≠ expected then some ("Template extected:\n" ++ expected ++ "\ngot:\n" ++ b ++ "\n")
    else none

end tests

end Rkt

/-! ## Sample values -/

namespace Rkt

namespace kvm

/-- A masqueraded describer: host 10.0.0.1, guest 10.0.0.5, mask 255.255.255.0. -/
def masqueraded : NetDescriber :=
  ⟨[10, 0, 0, 1], [10, 0, 0, 5], [255, 255, 255, 0], "tap0", true⟩

/-- An active network of type `ptp` with the same addresses, stored as 16-byte
addresses as `net.ParseIP` returns them. -/
def ptpNet : networking.activeNet :=
  ⟨⟨"ptp0", "ptp", true⟩,
    ⟨"eth0", ⟨⟨[0, 0, 0, 0, 0, 0, 0, 0, 0, 0, 255, 255, 10, 0, 0, 5], ⟨[255, 255, 255, 0]⟩⟩,
      [0, 0, 0, 0, 0, 0, 0, 0, 0, 0, 255, 255, 10, 0, 0, 1], []⟩⟩⟩

/-- An active network of type `macvlan`, whose device is a macvtap link of the
host. -/
def macvtapNet : networking.activeNet :=
  ⟨⟨"macvlan0", "macvlan", false⟩,
    ⟨"macvtap0", ⟨⟨[10, 1, 0, 7], ⟨[255, 255, 0, 0]⟩⟩, [10, 1, 0, 1], []⟩⟩⟩

/-- A host on which the link `macvtap0` has index 12 and no other link exists. -/
def hostLinks : networking.Links := fun name => if name = "macvtap0" then some 12 else none

end kvm

namespace stage1

open types unit os

/-- The options from `opts` on, the header of a section written when the
section changes. -/
def serializeFrom : String → List UnitOption → String
  | _, [] => ""
  | sect, o :: opts =>
    (if o.Section_ = sect then "" else "[" ++ o.Section_ ++ "]\n") ++
      o.Name ++ "=" ++ o.Value ++ "\n" ++ serializeFrom o.Section_ opts

/-- A path with its leading separators dropped and the others replaced by
dashes. -/
def dashPath (s : String) : String :=
  String.mk ((s.data.dropWhile (· = '/')).map fun c => if c = '/' then '-' else c)

/-- An environment for the examples: sections of `Name=Value` lines, unit names
as `dashPath` gives them, the root file system of an application at
`/opt/stage2/<id>/rootfs` and its service unit `<id>.service`. -/
def sampleEnv : Env where
  Serialize := serializeFrom ""
  UnitNamePathEscape := dashPath
  RelAppRootfsPath := fun id => "/opt/stage2/" ++ id.Val ++ "/rootfs"
  ServiceUnitName := fun id => id.Val ++ ".service"
  Quote := fun s => "'" ++ s ++ "'"

/-- A volume of kind `host`. -/
def dataVolume : Volume := ⟨⟨"data", by decide⟩, "host", "/srv/data", none⟩

/-- A volume of kind `empty`. -/
def scratchVolume : Volume := ⟨⟨"scratch", by decide⟩, "empty", "", none⟩

/-- The volumes of a pod. -/
def podVolumes : List Volume := [dataVolume, scratchVolume]

/-- A pod root at `/pod` with its systemd unit directory and nothing else. -/
def podRoot : FS := ⟨["/pod", "/pod/usr/lib/systemd/system"], [], []⟩

/-- The pod root after `podToSystemdHostMountUnits` ran for `podVolumes`. -/
def wiredRoot : FS := (podToSystemdHostMountUnits sampleEnv "/pod" podVolumes podRoot).1

/-- The identifier of an application. -/
def sampleApp : Hash := ⟨"sha512", "4f2a"⟩

/-- A read-only mount point for the volume `data`. -/
def dataMount : MountPoint := ⟨dataVolume.Name, "/var/data", true⟩

/-- A writable mount point for the volume `scratch`. -/
def scratchMount : MountPoint := ⟨scratchVolume.Name, "/tmp", false⟩

/-- A mount point for a volume `logs` that the pod does not have. -/
def logsMount : MountPoint := ⟨⟨"logs", by decide⟩, "/var/log", false⟩

/-- The wired pod root with a regular file where `dataMount` is to be mounted
in the application. -/
def fileAtDestination : FS :=
  { wiredRoot with
    dirs := wiredRoot.dirs ++ ["/pod/opt", "/pod/opt/stage2", "/pod/opt/stage2/4f2a",
      "/pod/opt/stage2/4f2a/rootfs", "/pod/opt/stage2/4f2a/rootfs/var"]
    files := wiredRoot.files ++ [("/pod/opt/stage2/4f2a/rootfs/var/data", "not a directory")] }

/-- A pod root where a regular file stands at `/pod/mnt`, so that no shared
directory of a volume exists. -/
def mntIsFile : FS := ⟨["/pod", "/pod/usr/lib/systemd/system"], [("/pod/mnt", "")], []⟩

/-- A pod root whose systemd unit directory is missing. -/
def rootWithoutUnitDir : FS := ⟨["/pod"], [], []⟩

/-- The pod root on a disk where writing the unit of the volume `data` fails. -/
def rootWithFaultyUnit : FS :=
  { podRoot with faulty := ["/pod/usr/lib/systemd/system/mnt-data.mount"] }

/-- A unit of the volume `data` written by an earlier run with longer mount
options. -/
def staleUnit : String :=
  "[Unit]\nDescription=Mount unit for /mnt/data\nDefaultDependencies=false\n" ++
  "[Mount]\nWhat=data\nWhere=/mnt/data\nType=9p\nOptions=trans=virtio,version=9p2000.L\n" ++
  "[Install]\nRequiredBy=default.target\n"

/-- The pod root with the unit file `staleUnit` left for the volume `data`. -/
def staleUnitRoot : FS :=
  { podRoot with files := [("/pod/usr/lib/systemd/system/mnt-data.mount", staleUnit)] }

/-- A mount point for the volume `data` whose path climbs out of the root file
system of the application. -/
def escapingMount : MountPoint := ⟨dataVolume.Name, "../../../../etc", false⟩

/-- A mount point for the volume `data` whose path has a `..` that stays inside
the root file system of the application. -/
def dottedMount : MountPoint := ⟨dataVolume.Name, "/var/../srv/data", true⟩

end stage1

end Rkt

/-! # Properties -/

namespace Rkt

namespace strings

/-- A split has at least one piece. -/
theorem splitChar_ne_nil (sep : Char) (s : List Char) : splitChar sep s ≠ [] := by
  cases s with
  | nil => simp [splitChar]
  | cons c cs =>
    unfold splitChar
    split
    · simp
    · split <;> simp

/-- Splitting distributes over a separator that joins two strings. -/
theorem splitChar_append_sep (sep : Char) (a b : List Char) :
    splitChar sep (a ++ sep :: b) = splitChar sep a ++ splitChar sep b := by
  induction a with
  | nil => simp [splitChar]
  | cons c cs ih =>
    by_cases hc : c = sep
    · simp [splitChar, hc, ih]
    · obtain ⟨e, es, hes⟩ := List.exists_cons_of_ne_nil (splitChar_ne_nil sep cs)
      simp [splitChar, hc, ih, hes]

/-- A string without separator is its only piece. -/
theorem splitChar_of_not_mem (sep : Char) (a : List Char) (h : sep ∉ a) :
    splitChar sep a = [a] := by
  induction a with
  | nil => rfl
  | cons c cs ih =>
    have hc : c ≠ sep := fun e => h (by simp [e])
    have hcs : sep ∉ cs := fun e => h (by simp [e])
    simp [splitChar, hc, ih hcs]

/-- The decimal digits of a number are digits. -/
theorem toDigitsCore_isDigit (fuel n : Nat) (ds : List Char) (h : ∀ c ∈ ds, c.isDigit = true) :
    ∀ c ∈ Nat.toDigitsCore 10 fuel n ds, c.isDigit = true := by
  induction fuel generalizing n ds with
  | zero => simpa [Nat.toDigitsCore] using h
  | succ f ih =>
    have hd : (Nat.digitChar (n % 10)).isDigit = true := by
      have : n % 10 < 10 := Nat.mod_lt _ (by decide)
      generalize n % 10 = k at this
      interval_cases k <;> decide
    have h2 : ∀ c ∈ Nat.digitChar (n % 10) :: ds, c.isDigit = true := by
      intro c hc
      rcases List.mem_cons.mp hc with rfl | hc
      · exact hd
      · exact h c hc
    unfold Nat.toDigitsCore
    simp only
    split
    · exact h2
    · exact ih _ _ h2

/-- The decimal rendering of a natural number consists of digits. -/
theorem toString_nat_isDigit (n : Nat) : ∀ c ∈ (toString n).data, c.isDigit = true := by
  show ∀ c ∈ (Nat.repr n).data, c.isDigit = true
  unfold Nat.repr Nat.toDigits
  exact toDigitsCore_isDigit _ _ _ (by simp)

end strings

namespace kvm

open networking

/-- The loop appends to `lkvmArgs` a flag and a value per describer and to
`kernelParams` one parameter per describer, numbered from `i`. -/
theorem netArgsLoop_eq (nds : List NetDescriber) (i : Nat) (lkvmArgs kernelParams : List String) :
    netArgsLoop i nds lkvmArgs kernelParams =
      (lkvmArgs ++ (nds.map fun nd =>
          ["--network", "mode=tap,tapif=" ++ nd.IfName ++ ",host_ip=" ++ nd.HostIP.String ++
            ",guest_ip=" ++ nd.GuestIP.String]).flatten,
        kernelParams ++ (nds.enumFrom i).map fun p =>
          "ip=" ++ p.2.GuestIP.String ++ "::" ++
            (if p.2.IPMasq then p.2.HostIP.String else "") ++ ":" ++ p.2.Mask.String ++ ":" ++
            IfNamePattern p.1 ++ ":::") := by
  induction nds generalizing i lkvmArgs kernelParams with
  | nil => simp [netArgsLoop]
  | cons nd nds ih =>
    simp only [netArgsLoop, ih, List.map_cons, List.flatten_cons, List.enumFrom_cons,
      List.append_assoc, List.cons_append, List.nil_append, List.singleton_append]

/-- Every kernel parameter is the one built from the describer at its index. -/
theorem netArgs_kernelParams_getElem? (nds : List NetDescriber) (i : Nat) (nd : NetDescriber)
    (h : nds[i]? = some nd) :
    (netArgs nds).2.1[i]? = some ("ip=" ++ nd.GuestIP.String ++ "::" ++
      (if nd.IPMasq then nd.HostIP.String else "") ++ ":" ++ nd.Mask.String ++ ":" ++
      IfNamePattern i ++ ":::") := by
  simp [netArgs, netArgsLoop_eq, List.getElem?_enumFrom, h]

/-- The hypervisor arguments are a flag and a value per describer. -/
theorem netArgs_lkvmArgs (nds : List NetDescriber) :
    (netArgs nds).1 = (nds.map fun nd =>
      ["--network", "mode=tap,tapif=" ++ nd.IfName ++ ",host_ip=" ++ nd.HostIP.String ++
        ",guest_ip=" ++ nd.GuestIP.String]).flatten := by
  simp [netArgs, netArgsLoop_eq]

/-- An IPv4 address, in its 4-byte or its 16-byte form, is rendered in dotted
decimal. -/
theorem IP_String_of_To4 (ip : net.IP) (a b c d : net.Byte)
    (h : net.IP.To4 ip = some (a, b, c, d)) :
    ip.String = net.uitoa a.val ++ "." ++ net.uitoa b.val ++ "." ++ net.uitoa c.val ++ "." ++
      net.uitoa d.val := by
  unfold net.IP.String
  split
  · rename_i h0
    have : ip = [] := List.length_eq_zero.mp h0
    subst this
    simp [net.IP.To4] at h
  · rw [h]

/-- C1: for every sequence of describers, the kernel parameter at index `i` returned
by `GetKVMNetArgs` is `ip=` guest IP `::` gateway `:` mask `:` device pattern of `i`
`:::`, the gateway being the host IP of a masqueraded network and empty otherwise;
a non-masqueraded network at position 1 with guest 10.0.0.9 and mask 255.255.255.0
gives `ip=10.0.0.9:::255.255.255.0:eth1:::` whatever its host IP and its
predecessor are. -/
theorem GetKVMNetArgs_kernelParam :
    (∀ (nds : List NetDescriber) (i : Nat) (nd : NetDescriber), nds[i]? = some nd →
      (netArgs nds).2.1[i]? = some ("ip=" ++ nd.GuestIP.String ++ "::" ++
        (if nd.IPMasq then nd.HostIP.String else "") ++ ":" ++ nd.Mask.String ++ ":" ++
        IfNamePattern i ++ ":::")) ∧
    (∀ (nd0 : NetDescriber) (hostIP : net.IP) (ifName : String),
      (netArgs [nd0, ⟨hostIP, [10, 0, 0, 9], [255, 255, 255, 0], ifName, false⟩]).2.1[1]? =
        some "ip=10.0.0.9:::255.255.255.0:eth1:::") := by
  refine ⟨netArgs_kernelParams_getElem?, ?_⟩
  intro nd0 hostIP ifName
  rw [netArgs_kernelParams_getElem? _ 1
    ⟨hostIP, [10, 0, 0, 9], [255, 255, 255, 0], ifName, false⟩ rfl]
  rfl

/-- The general form of C1 at a masqueraded network in first position. -/
theorem GetKVMNetArgs_kernelParam_witness :
    [masqueraded][0]? = some masqueraded ∧
    (netArgs [masqueraded]).2.1[0]? = some ("ip=" ++ masqueraded.GuestIP.String ++ "::" ++
        (if masqueraded.IPMasq then masqueraded.HostIP.String else "") ++ ":" ++
        masqueraded.Mask.String ++ ":" ++ IfNamePattern 0 ++ ":::") :=
  ⟨rfl, GetKVMNetArgs_kernelParam.1 [masqueraded] 0 masqueraded rfl⟩

/-- The loop on the active networks appends the same hypervisor arguments as the
loop on describers with the same host and guest addresses and interface
names. -/
theorem activeNetArgsLoop_lkvmArgs (links : Links) (ans : List activeNet) (i : Nat)
    (lkvmArgs kernelParams : List String) :
    (activeNetArgsLoop links i ans lkvmArgs kernelParams).1 =
      lkvmArgs ++ (ans.map fun an =>
        ["--network", "mode=tap,tapif=" ++ an.IfName links ++ ",host_ip=" ++ an.HostIP.String ++
          ",guest_ip=" ++ an.GuestIP.String]).flatten := by
  induction ans generalizing i lkvmArgs kernelParams with
  | nil => simp [activeNetArgsLoop]
  | cons an ans ih =>
    simp only [activeNetArgsLoop, ih, List.map_cons, List.flatten_cons, List.append_assoc]

/-- The hypervisor arguments of `GetKVMNetArgs` for the active network at index
`i`. -/
theorem activeNetArgs_lkvmArgs_getElem? (links : Links) (n : Networking) (i : Nat)
    (an : activeNet) (h : n.GetActiveNetworks[i]? = some an) :
    (GetKVMNetArgs links n).1[2 * i]? = some "--network" ∧
    (GetKVMNetArgs links n).1[2 * i + 1]? = some ("mode=tap,tapif=" ++ an.IfName links ++
      ",host_ip=" ++ an.HostIP.String ++ ",guest_ip=" ++ an.GuestIP.String) := by
  unfold GetKVMNetArgs
  simp only [activeNetArgsLoop_lkvmArgs, List.nil_append]
  generalize n.GetActiveNetworks = ans at h
  induction ans generalizing i with
  | nil => simp at h
  | cons an0 ans ih =>
    cases i with
    | zero =>
      simp only [List.getElem?_cons_zero, Option.some.injEq] at h
      subst h
      simp
    | succ j =>
      simp only [List.getElem?_cons_succ] at h
      have := ih j h
      have e1 : 2 * (j + 1) = 2 * j + 1 + 1 := by omega
      rw [e1]
      simpa using this

/-- C2: at the masqueraded active network `ptpNet` (gateway 10.0.0.1, guest address
10.0.0.5, mask 255.255.255.0), alone in its pod, the mask that `activeNet.Mask`
returns is a `net.IPMask`, whose `String` is `ffffff00`; the kernel parameter
that `GetKVMNetArgs` builds from the accessors is
`ip=10.0.0.5::10.0.0.1:ffffff00:eth0:::`, not the one with the mask in dotted
decimal. -/
theorem GetKVMNetArgs_activeNet_mask :
    ptpNet.IPMasq = true ∧
    ptpNet.HostIP.String = "10.0.0.1" ∧
    ptpNet.GuestIP.String = "10.0.0.5" ∧
    ptpNet.Mask = ⟨[255, 255, 255, 0]⟩ ∧
    net.IPMask.String ptpNet.Mask = "ffffff00" ∧
    (GetKVMNetArgs (fun _ => none) ⟨[ptpNet]⟩).2.1 =
      ["ip=10.0.0.5::10.0.0.1:ffffff00:eth0:::"] ∧
    (GetKVMNetArgs (fun _ => none) ⟨[ptpNet]⟩).2.1[0]? ≠
      some "ip=10.0.0.5::10.0.0.1:255.255.255.0:eth0:::" := by
  have hparams : (GetKVMNetArgs (fun _ => none) ⟨[ptpNet]⟩).2.1 =
      ["ip=10.0.0.5::10.0.0.1:ffffff00:eth0:::"] := by
    decide
  refine ⟨rfl, by decide, by decide, rfl, by decide, hparams, ?_⟩
  rw [hparams]
  decide

/-- The number of kernel parameters and of hypervisor argument tokens. -/
theorem netArgs_lengths (nds : List NetDescriber) :
    (netArgs nds).2.1.length = nds.length ∧ (netArgs nds).1.length = 2 * nds.length := by
  constructor
  · simp [netArgs, netArgsLoop_eq]
  · rw [netArgs_lkvmArgs]
    induction nds with
    | nil => rfl
    | cons nd nds ih =>
      simp only [List.map_cons, List.flatten_cons, List.length_append, List.length_cons,
        List.length_nil, ih]
      omega

/-- The tokens at positions `2 * i` and `2 * i + 1` of the hypervisor arguments. -/
theorem netArgs_lkvmArgs_getElem? (nds : List NetDescriber) (i : Nat) (nd : NetDescriber)
    (h : nds[i]? = some nd) :
    (netArgs nds).1[2 * i]? = some "--network" ∧
    (netArgs nds).1[2 * i + 1]? = some ("mode=tap,tapif=" ++ nd.IfName ++ ",host_ip=" ++
      nd.HostIP.String ++ ",guest_ip=" ++ nd.GuestIP.String) := by
  rw [netArgs_lkvmArgs]
  induction nds generalizing i with
  | nil => simp at h
  | cons nd0 nds ih =>
    cases i with
    | zero =>
      simp only [List.getElem?_cons_zero, Option.some.injEq] at h
      subst h
      simp
    | succ j =>
      simp only [List.getElem?_cons_succ] at h
      have := ih j h
      have e1 : 2 * (j + 1) = 2 * j + 1 + 1 := by omega
      rw [e1]
      simpa using this

/-- C3, as stated, fails: for one describer the hypervisor argument list returned by
`GetKVMNetArgs` has two entries (the flag and its value), not one, while the
kernel parameter list has one. -/
theorem GetKVMNetArgs_lengths_counterexample :
    ¬ ((netArgs [masqueraded]).2.1.length = [masqueraded].length ∧
       (netArgs [masqueraded]).1.length = [masqueraded].length) ∧
    (netArgs [masqueraded]).1 =
      ["--network", "mode=tap,tapif=tap0,host_ip=10.0.0.1,guest_ip=10.0.0.5"] := by
  decide

/-- C3 (amended): for `N` describers the kernel parameter list has exactly `N`
entries and the hypervisor argument list exactly `2 * N`; the kernel parameter
at index `i` and the pair of hypervisor tokens at `2 * i`, `2 * i + 1` are the
ones derived from the describer at index `i`. -/
theorem GetKVMNetArgs_aligned (nds : List NetDescriber) :
    (netArgs nds).2.1.length = nds.length ∧
    (netArgs nds).1.length = 2 * nds.length ∧
    ∀ (i : Nat) (nd : NetDescriber), nds[i]? = some nd →
      (netArgs nds).2.1[i]? = some ("ip=" ++ nd.GuestIP.String ++ "::" ++
        (if nd.IPMasq then nd.HostIP.String else "") ++ ":" ++ nd.Mask.String ++ ":" ++
        IfNamePattern i ++ ":::") ∧
      (netArgs nds).1[2 * i]? = some "--network" ∧
      (netArgs nds).1[2 * i + 1]? = some ("mode=tap,tapif=" ++ nd.IfName ++ ",host_ip=" ++
        nd.HostIP.String ++ ",guest_ip=" ++ nd.GuestIP.String) :=
  ⟨(netArgs_lengths nds).1, (netArgs_lengths nds).2, fun i nd h =>
    ⟨netArgs_kernelParams_getElem? nds i nd h, netArgs_lkvmArgs_getElem? nds i nd h⟩⟩

/-- C3 (amended) at a single masqueraded describer. -/
theorem GetKVMNetArgs_aligned_witness :
    [masqueraded][0]? = some masqueraded ∧
    (netArgs [masqueraded]).2.1[0]? = some "ip=10.0.0.5::10.0.0.1:255.255.255.0:eth0:::" ∧
    (netArgs [masqueraded]).1[2 * 0]? = some "--network" ∧
    (netArgs [masqueraded]).1[2 * 0 + 1]? =
      some "mode=tap,tapif=tap0,host_ip=10.0.0.1,guest_ip=10.0.0.5" :=
  ⟨rfl, (GetKVMNetArgs_aligned [masqueraded]).2.2 0 masqueraded rfl⟩

/-- C4: the hypervisor arguments returned by `GetKVMNetArgs` are, in input order and
with nothing else, the flag `--network` followed by the value
`mode=tap,tapif=` interface name `,host_ip=` host IP `,guest_ip=` guest IP for each
describer, the interface name being the one of the describer. -/
theorem GetKVMNetArgs_lkvmArgs (nds : List NetDescriber) :
    (netArgs nds).1 = (nds.map fun nd =>
      ["--network", "mode=tap,tapif=" ++ nd.IfName ++ ",host_ip=" ++ nd.HostIP.String ++
        ",guest_ip=" ++ nd.GuestIP.String]).flatten :=
  netArgs_lkvmArgs nds

/-- The device pattern contains no colon. -/
theorem IfNamePattern_no_colon (i : Nat) : ':' ∉ (IfNamePattern i).data := by
  intro h
  simp only [IfNamePattern, String.data_append, List.mem_append] at h
  rcases h with h | h
  · revert h
    decide
  · have := strings.toString_nat_isDigit i _ h
    revert this
    decide

/-- The colon-delimited fields of the text of a kernel parameter after `ip=`. -/
theorem fields_kernelParam (g gw m dev : String) (hg : ':' ∉ g.data) (hgw : ':' ∉ gw.data)
    (hm : ':' ∉ m.data) (hdev : ':' ∉ dev.data) :
    strings.fields ':' (g ++ "::" ++ gw ++ ":" ++ m ++ ":" ++ dev ++ ":::") =
      [g, "", gw, m, dev, "", "", ""] := by
  have e : (g ++ "::" ++ gw ++ ":" ++ m ++ ":" ++ dev ++ ":::").data =
      g.data ++ ':' :: ([] ++ ':' :: (gw.data ++ ':' :: (m.data ++ ':' :: (dev.data ++ ':' ::
        ([] ++ ':' :: ([] ++ ':' :: [])))))) := by
    simp only [String.data_append, List.append_assoc]
    rfl
  unfold strings.fields
  rw [e]
  simp only [strings.splitChar_append_sep, strings.splitChar_of_not_mem _ _ hg,
    strings.splitChar_of_not_mem _ _ hgw, strings.splitChar_of_not_mem _ _ hm,
    strings.splitChar_of_not_mem _ _ hdev, strings.splitChar]
  rfl

/-- C5, as stated, fails: for the masqueraded describer at index 0 the text after
`ip=` has eight colon-delimited fields, not seven, and in the documented order
(client-ip, server-ip, gw-ip, netmask, hostname, device, autoconf, dns) the
hostname field holds `eth0` and the device field is empty. -/
theorem GetKVMNetArgs_fields_counterexample :
    (netArgs [masqueraded]).2.1 = ["ip=" ++ "10.0.0.5::10.0.0.1:255.255.255.0:eth0:::"] ∧
    strings.fields ':' "10.0.0.5::10.0.0.1:255.255.255.0:eth0:::" =
      ["10.0.0.5", "", "10.0.0.1", "255.255.255.0", "eth0", "", "", ""] ∧
    ¬ ((strings.fields ':' "10.0.0.5::10.0.0.1:255.255.255.0:eth0:::").length = 7 ∧
       (strings.fields ':' "10.0.0.5::10.0.0.1:255.255.255.0:eth0:::")[4]? = some "" ∧
       (strings.fields ':' "10.0.0.5::10.0.0.1:255.255.255.0:eth0:::")[5]? =
         some (IfNamePattern 0)) := by
  decide

/-- C5 (amended): for a describer whose guest, host and mask strings contain no
colon, the kernel parameter at its index `i` is `ip=` followed by a text of
exactly eight colon-delimited fields; client-ip is the guest IP, server-ip is
empty, gw-ip is the gateway, netmask is the mask, autoconf and dns0 are empty, and
of the hostname and device fields one holds the device pattern of `i` and the
other is empty. -/
theorem GetKVMNetArgs_fields (nds : List NetDescriber) (i : Nat) (nd : NetDescriber)
    (h : nds[i]? = some nd) (hguest : ':' ∉ nd.GuestIP.String.data)
    (hhost : ':' ∉ nd.HostIP.String.data) (hmask : ':' ∉ nd.Mask.String.data) :
    ∃ text : String, (netArgs nds).2.1[i]? = some ("ip=" ++ text) ∧
      (strings.fields ':' text).length = 8 ∧
      (strings.fields ':' text)[0]? = some nd.GuestIP.String ∧
      (strings.fields ':' text)[1]? = some "" ∧
      (strings.fields ':' text)[2]? = some (if nd.IPMasq then nd.HostIP.String else "") ∧
      (strings.fields ':' text)[3]? = some nd.Mask.String ∧
      (strings.fields ':' text)[6]? = some "" ∧
      (strings.fields ':' text)[7]? = some "" ∧
      (((strings.fields ':' text)[4]? = some "" ∧
          (strings.fields ':' text)[5]? = some (IfNamePattern i)) ∨
        ((strings.fields ':' text)[4]? = some (IfNamePattern i) ∧
          (strings.fields ':' text)[5]? = some "")) := by
  have hgw : ':' ∉ (if nd.IPMasq then nd.HostIP.String else "").data := by
    split
    · exact hhost
    · simp
  refine ⟨nd.GuestIP.String ++ "::" ++ (if nd.IPMasq then nd.HostIP.String else "") ++ ":" ++
    nd.Mask.String ++ ":" ++ IfNamePattern i ++ ":::", ?_, ?_⟩
  · rw [netArgs_kernelParams_getElem? nds i nd h]
    simp only [String.append_assoc]
  · rw [fields_kernelParam _ _ _ _ hguest hgw hmask (IfNamePattern_no_colon i)]
    simp

/-- C5 (amended) at the masqueraded describer, alone. -/
theorem GetKVMNetArgs_fields_witness :
    ∃ text : String, (netArgs [masqueraded]).2.1[0]? = some ("ip=" ++ text) ∧
      (strings.fields ':' text).length = 8 ∧
      (strings.fields ':' text)[0]? = some "10.0.0.5" ∧
      (strings.fields ':' text)[1]? = some "" ∧
      (strings.fields ':' text)[2]? = some "10.0.0.1" ∧
      (strings.fields ':' text)[3]? = some "255.255.255.0" ∧
      (strings.fields ':' text)[6]? = some "" ∧
      (strings.fields ':' text)[7]? = some "" ∧
      (((strings.fields ':' text)[4]? = some "" ∧
          (strings.fields ':' text)[5]? = some (IfNamePattern 0)) ∨
        ((strings.fields ':' text)[4]? = some (IfNamePattern 0) ∧
          (strings.fields ':' text)[5]? = some "")) :=
  GetKVMNetArgs_fields [masqueraded] 0 masqueraded rfl (by decide) (by decide) (by decide)

end kvm

namespace types

/-- The characters after the first one of a valid name are lower-case
alphanumerics or dashes. -/
theorem acNameTail_chars (cs : List Char) (h : acNameTail cs = true) :
    ∀ c ∈ cs, isLowerAlnum c = true ∨ c = '-' := by
  suffices H : ∀ (n : Nat) (cs : List Char), cs.length ≤ n → acNameTail cs = true →
      ∀ c ∈ cs, isLowerAlnum c = true ∨ c = '-' from H cs.length cs (Nat.le_refl _) h
  intro n
  induction n with
  | zero =>
    intro cs hl _ c hc
    have : cs = [] := List.length_eq_zero.mp (Nat.le_zero.mp hl)
    subst this
    simp at hc
  | succ n ih =>
    intro cs hl h x hx
    cases cs with
    | nil => simp at hx
    | cons c cs =>
      unfold acNameTail at h
      by_cases hc : isLowerAlnum c = true
      · rw [if_pos hc] at h
        rcases List.mem_cons.mp hx with rfl | hx
        · exact Or.inl hc
        · exact ih cs (by simpa using hl) h x hx
      · rw [if_neg hc] at h
        by_cases hd : c = '-'
        · rw [if_pos hd] at h
          cases cs with
          | nil => simp at h
          | cons d ds =>
            simp only [Bool.and_eq_true] at h
            rcases List.mem_cons.mp hx with rfl | hx
            · exact Or.inr hd
            · rcases List.mem_cons.mp hx with rfl | hx
              · exact Or.inl h.1
              · refine ih ds ?_ h.2 x hx
                simp only [List.length_cons] at hl
                omega
        · rw [if_neg hd] at h
          simp at h

/-- A valid name is not empty and consists of lower-case alphanumerics and
dashes. -/
theorem ACName.chars (n : ACName) :
    n.val.data ≠ [] ∧ ∀ c ∈ n.val.data, isLowerAlnum c = true ∨ c = '-' := by
  have h := n.valid
  unfold validACName at h
  split at h
  · simp at h
  · rename_i c cs hcs
    simp only [Bool.and_eq_true] at h
    rw [hcs]
    refine ⟨by simp, fun x hx => ?_⟩
    rcases List.mem_cons.mp hx with rfl | hx
    · exact Or.inl h.1
    · exact acNameTail_chars cs h.2 x hx

/-- A valid name contains no comma. -/
theorem ACName.no_comma (n : ACName) : ',' ∉ n.String.data := by
  intro h
  rcases n.chars.2 _ h with h | h
  · revert h; decide
  · revert h; decide

/-- A valid name is a proper path element. -/
theorem ACName.isName (n : ACName) : filepath.isName n.String.data := by
  obtain ⟨h1, h2⟩ := n.chars
  have hs : '/' ∉ n.val.data := by
    intro h
    rcases h2 _ h with h | h
    · revert h; decide
    · revert h; decide
  have hd : '.' ∉ n.val.data := by
    intro h
    rcases h2 _ h with h | h
    · revert h; decide
    · revert h; decide
  refine ⟨h1, hs, ?_, ?_⟩
  · intro e
    apply hd
    show '.' ∈ n.val.data
    have : n.val.data = ['.'] := e
    rw [this]; simp
  · intro e
    apply hd
    have : n.val.data = ['.', '.'] := e
    rw [this]; simp

end types
namespace filepath

open strings

/-- The elements of two paths joined by a separator. -/
theorem elems_append_sep (a b : List Char) : elems (a ++ '/' :: b) = elems a ++ elems b := by
  simp [elems, splitSlash, splitChar_append_sep]

/-- A proper element is the only element of itself. -/
theorem elems_name (e : List Char) (h : isName e) : elems e = [e] := by
  obtain ⟨h1, h2, h3, _⟩ := h
  simp [elems, splitSlash, splitChar_of_not_mem _ _ h2, h1, h3]

/-- A proper element is written after the elements before it. -/
theorem cleanStep_name (rooted : Bool) (out : List (List Char)) (e : List Char)
    (h : isName e) : cleanStep rooted out e = e :: out := by
  unfold cleanStep
  rw [if_neg h.2.2.2]

/-- `Clean` of a path continued by a separator and more depends on the
continuation only through its elements. -/
theorem cleanChars_congr (a x y : List Char) (ha : a ≠ []) (h : elems x = elems y) :
    cleanChars (a ++ '/' :: x) = cleanChars (a ++ '/' :: y) := by
  cases a with
  | nil => exact absurd rfl ha
  | cons c cs =>
    have e1 : elems (c :: cs ++ '/' :: x) = elems (c :: cs ++ '/' :: y) := by
      rw [elems_append_sep, elems_append_sep, h]
    simp only [List.cons_append] at e1 ⊢
    unfold cleanChars
    simp only [e1]

/-- Joining `/mnt/` and a proper element gives the path `/mnt/` element. -/
theorem Join_mnt (n : String) (h : isName n.data) :
    Join ["/mnt/", n] = "/mnt/" ++ n := by
  have h0 : ("/mnt/" : String) ≠ "" := by decide
  have e : ("/".intercalate ["/mnt/", n]).data =
      [] ++ '/' :: (['m', 'n', 't'] ++ '/' :: ([] ++ '/' :: n.data)) := by
    simp [String.intercalate, String.intercalate.go, String.data_append]
  have hm : isName ['m', 'n', 't'] := by decide
  unfold Join
  rw [if_neg h0]
  apply String.ext
  unfold Clean
  rw [e]
  show cleanChars ('/' :: (['m', 'n', 't'] ++ '/' :: ([] ++ '/' :: n.data))) = _
  unfold cleanChars
  have e2 : elems ('/' :: (['m', 'n', 't'] ++ '/' :: ([] ++ '/' :: n.data))) =
      [['m', 'n', 't'], n.data] := by
    have : '/' :: (['m', 'n', 't'] ++ '/' :: ([] ++ '/' :: n.data)) =
        [] ++ '/' :: (['m', 'n', 't'] ++ '/' :: ([] ++ '/' :: n.data)) := rfl
    rw [this, elems_append_sep, elems_append_sep, elems_append_sep, elems_name _ h,
      elems_name _ hm]
    rfl
  simp only [e2, List.foldl_cons, List.foldl_nil, cleanStep_name _ _ _ h,
    cleanStep_name _ _ _ hm]
  simp [List.intercalate, String.data_append]

/-- The stage1 directory of a volume, computed in one `Join` from the root or in
two, is the same path. -/
theorem Join_root_mnt (root n : String) (h : isName n.data) :
    Join [root, "/mnt/", n] = Join [root, Join ["/mnt/", n]] := by
  have hm : isName ['m', 'n', 't'] := by decide
  have ex : elems ("/mnt/" ++ "/" ++ n).data = [['m', 'n', 't'], n.data] := by
    have : ("/mnt/" ++ "/" ++ n).data =
        [] ++ '/' :: (['m', 'n', 't'] ++ '/' :: ([] ++ '/' :: n.data)) := by
      simp [String.data_append]
    rw [this, elems_append_sep, elems_append_sep, elems_append_sep, elems_name _ h,
      elems_name _ hm]
    rfl
  have ey : elems ("/mnt/" ++ n).data = [['m', 'n', 't'], n.data] := by
    have : ("/mnt/" ++ n).data = [] ++ '/' :: (['m', 'n', 't'] ++ '/' :: n.data) := by
      simp [String.data_append]
    rw [this, elems_append_sep, elems_append_sep, elems_name _ h, elems_name _ hm]
    rfl
  rw [Join_mnt n h]
  by_cases hr : root = ""
  · subst hr
    have h1 : Join ["", "/mnt/", n] = Join ["/mnt/", n] := by
      simp [Join]
    have h0 : ("/mnt/" ++ n : String) ≠ "" := by
      intro e
      have := congrArg String.data e
      simp [String.data_append] at this
    have h2 : Join ["", "/mnt/" ++ n] = Clean ("/mnt/" ++ n) := by
      show (if ("" : String) = "" then Join ["/mnt/" ++ n] else _) = _
      rw [if_pos rfl]
      show (if ("/mnt/" ++ n : String) = "" then _ else _) = _
      rw [if_neg h0]
      rfl
    rw [h1, h2, Join_mnt n h]
    apply String.ext
    unfold Clean
    have : ("/mnt/" ++ n).data = '/' :: (['m', 'n', 't'] ++ '/' :: n.data) := by
      simp [String.data_append]
    have ey2 := ey
    rw [this] at ey2 ⊢
    unfold cleanChars
    simp only [ey2, List.foldl_cons, List.foldl_nil, cleanStep_name _ _ _ h,
      cleanStep_name _ _ _ hm]
    simp [List.intercalate]
  · have hd : root.data ≠ [] := by
      intro e
      apply hr
      apply String.ext
      exact e
    have l : Join [root, "/mnt/", n] = Clean (root ++ "/" ++ ("/mnt/" ++ "/" ++ n)) := by
      show (if root = "" then _ else _) = _
      rw [if_neg hr]
      congr 1
      apply String.ext
      simp [String.intercalate, String.intercalate.go, String.data_append]
    have r : Join [root, "/mnt/" ++ n] = Clean (root ++ "/" ++ ("/mnt/" ++ n)) := by
      show (if root = "" then _ else _) = _
      rw [if_neg hr]
      congr 1
    rw [l, r]
    apply String.ext
    unfold Clean
    have d1 : (root ++ "/" ++ ("/mnt/" ++ "/" ++ n)).data =
        root.data ++ '/' :: ("/mnt/" ++ "/" ++ n).data := by
      simp [String.data_append]
    have d2 : (root ++ "/" ++ ("/mnt/" ++ n)).data = root.data ++ '/' :: ("/mnt/" ++ n).data := by
      simp [String.data_append]
    rw [d1, d2]
    exact cleanChars_congr _ _ _ hd (ex.trans ey.symm)

/-- The last piece of elements joined by separators, the last of which is
without separator, is that element. -/
theorem getLast?_splitChar_intercalate (xs : List (List Char)) (e : List Char)
    (h : '/' ∉ e) :
    (splitChar '/' (['/'].intercalate (xs ++ [e]))).getLast? = some e := by
  induction xs with
  | nil => simp [List.intercalate, splitChar_of_not_mem _ _ h]
  | cons x xs ih =>
    have hne : xs ++ [e] ≠ [] := by simp
    obtain ⟨y, ys, hy⟩ := List.exists_cons_of_ne_nil hne
    have e1 : ['/'].intercalate (x :: xs ++ [e]) = x ++ '/' :: ['/'].intercalate (xs ++ [e]) := by
      rw [List.cons_append, hy]
      simp [List.intercalate, List.intersperse]
    rw [e1, splitChar_append_sep, List.getLast?_append, ih]
    rfl

/-- The last piece of a path joined from anything and a proper element is that
element. -/
theorem getLast?_splitSlash_Join (u e : String) (h : isName e.data) :
    (splitSlash (Join [u, e]).data).getLast? = some e.data := by
  have he : e ≠ "" := by
    intro x
    exact h.1 (by rw [x])
  by_cases hu : u = ""
  · subst hu
    have h2 : Join ["", e] = Clean e := by
      show (if ("" : String) = "" then Join [e] else _) = _
      rw [if_pos rfl]
      show (if e = "" then _ else _) = _
      rw [if_neg he]
      rfl
    rw [h2]
    unfold Clean
    have hc : cleanChars e.data = e.data := by
      obtain ⟨c, cs, hcs⟩ := List.exists_cons_of_ne_nil h.1
      have hr : c ≠ '/' := by
        intro x
        apply h.2.1
        rw [hcs, x]
        simp
      have hel := elems_name _ h
      rw [hcs] at hel
      have hst := cleanStep_name false [] _ h
      rw [hcs] at hst ⊢
      unfold cleanChars
      simp [hr, hel, hst, List.intercalate]
    show (splitSlash (cleanChars e.data)).getLast? = _
    rw [hc]
    simp [splitSlash, splitChar_of_not_mem _ _ h.2.1]
  · have hd : u.data ≠ [] := by
      intro e
      apply hu
      apply String.ext
      exact e
    obtain ⟨c, cs, hcs⟩ := List.exists_cons_of_ne_nil hd
    have l : Join [u, e] = Clean (u ++ "/" ++ e) := by
      show (if u = "" then _ else _) = _
      rw [if_neg hu]
      rfl
    rw [l]
    unfold Clean
    have d1 : (u ++ "/" ++ e).data = c :: (cs ++ '/' :: e.data) := by
      simp [String.data_append, hcs]
    show (splitSlash (cleanChars (u ++ "/" ++ e).data)).getLast? = _
    rw [d1]
    have hel : elems (c :: (cs ++ '/' :: e.data)) = elems (c :: cs) ++ [e.data] := by
      rw [← List.cons_append, elems_append_sep, elems_name _ h]
    unfold cleanChars
    simp only [hel, List.foldl_append, List.foldl_cons, List.foldl_nil, cleanStep_name _ _ _ h,
      List.reverse_cons]
    split
    · show (splitChar '/' ([] ++ '/' :: _)).getLast? = _
      rw [splitChar_append_sep, List.getLast?_append, getLast?_splitChar_intercalate _ _ h.2.1]
      rfl
    · rw [if_neg (by simp)]
      exact getLast?_splitChar_intercalate _ _ h.2.1

end filepath

namespace os

/-- Overwriting the empty content gives the data. -/
theorem overwrite_empty_old (data : String) : overwrite "" data = data := by
  show data ++ String.mk (([] : List Char).drop data.length) = data
  simp only [List.drop_nil]
  exact String.append_empty data

/-- Writing nothing leaves the content. -/
theorem overwrite_empty_data (old : String) : overwrite old "" = old := by
  show "" ++ String.mk (old.data.drop 0) = old
  simp

/-- Overwriting a content by itself leaves it. -/
theorem overwrite_self (data : String) : overwrite data data = data := by
  show data ++ String.mk (data.data.drop data.length) = data
  have : data.data.drop data.length = [] := List.drop_of_length_le (Nat.le_refl _)
  rw [this]
  exact String.append_empty data

/-- Looking up in a list extended at the end. -/
theorem lookup_append_singleton (files : List (String × String)) (p q c : String) :
    (files ++ [(p, c)]).lookup q =
      match files.lookup q with
      | some d => some d
      | none => if q = p then some c else none := by
  induction files with
  | nil =>
    by_cases h : q = p
    · simp [List.lookup, h]
    · have hb : (q == p) = false := by simpa using h
      simp [List.lookup, h, hb]
  | cons f fs ih =>
    obtain ⟨k, v⟩ := f
    by_cases h : q = k
    · simp [List.lookup, h]
    · have hb : (q == k) = false := by simpa using h
      show List.lookup q ((k, v) :: (fs ++ [(p, c)])) = _
      simp only [List.lookup, hb, ih]

/-- Looking up after the content of one file was replaced. -/
theorem lookup_map_update (files : List (String × String)) (p q : String)
    (f : String → String) :
    (files.map fun x => if x.1 = p then (x.1, f x.2) else x).lookup q =
      if q = p then (files.lookup q).map f else files.lookup q := by
  induction files with
  | nil => simp [List.lookup]
  | cons x xs ih =>
    obtain ⟨k, v⟩ := x
    by_cases hk : k = p
    · have e : (List.map (fun x => if x.1 = p then (x.1, f x.2) else x) ((k, v) :: xs)) =
          (k, f v) :: List.map (fun x => if x.1 = p then (x.1, f x.2) else x) xs := by
        simp [hk]
      rw [e]
      by_cases h : q = k
      · have hb : (q == k) = true := by simpa using h
        have hq : q = p := h.trans hk
        simp only [List.lookup, hb, hq, if_true, Option.map]
        subst hk
        subst h
        simp [List.lookup]
      · have hb : (q == k) = false := by simpa using h
        simp only [List.lookup, hb, ih]
    · have e : (List.map (fun x => if x.1 = p then (x.1, f x.2) else x) ((k, v) :: xs)) =
          (k, v) :: List.map (fun x => if x.1 = p then (x.1, f x.2) else x) xs := by
        simp [hk]
      rw [e]
      by_cases h : q = k
      · have hb : (q == k) = true := by simpa using h
        have hq : ¬ q = p := fun e => hk (h ▸ e)
        simp only [List.lookup, hb, hq, if_false]
      · have hb : (q == k) = false := by simpa using h
        simp only [List.lookup, hb, ih]


/-- A successful `Stat` that reports a directory found one. -/
theorem Stat_ok_true (fs : FS) (p : String) (h : fs.Stat p = .ok true) : p ∈ fs.dirs := by
  unfold FS.Stat at h
  by_cases hd : fs.isDir p = true
  · simpa [FS.isDir] using hd
  · rw [if_neg hd] at h
    by_cases hf : fs.isFile p = true
    · rw [if_pos hf] at h
      simp at h
    · rw [if_neg hf] at h
      split at h <;> simp at h

/-- A directory is reported as such by `Stat`. -/
theorem Stat_of_mem_dirs (fs : FS) (p : String) (h : p ∈ fs.dirs) : fs.Stat p = .ok true := by
  unfold FS.Stat
  have : fs.isDir p = true := by simpa [FS.isDir] using h
  simp [this]

/-- What a successful `Mkdir` does. -/
theorem Mkdir_ok (fs fs' : FS) (p : String) (h : fs.Mkdir p = .ok fs') :
    fs' = { fs with dirs := fs.dirs ++ [p] } := by
  unfold FS.Mkdir at h
  split at h
  · simp at h
  · split at h
    · split at h
      · simpa using h.symm
      · split at h <;> simp at h
    · simpa using h.symm

/-- The last step of `MkdirAll` keeps the files, only adds directories, and
leaves the path a directory when there is no error. -/
theorem mkdirLast_spec (p : String) (up : FS × Option PathError) :
    (mkdirLast p up).1.files = up.1.files ∧ (mkdirLast p up).1.faulty = up.1.faulty ∧
    (∀ d ∈ up.1.dirs, d ∈ (mkdirLast p up).1.dirs) ∧
    ((mkdirLast p up).2 = none → p ∈ (mkdirLast p up).1.dirs) := by
  obtain ⟨fs1, e⟩ := up
  cases e with
  | some err => exact ⟨rfl, rfl, fun d hd => hd, fun h => by simp [mkdirLast] at h⟩
  | none =>
    unfold mkdirLast
    simp only
    split
    · rename_i fs2 h2
      have := Mkdir_ok _ _ _ h2
      subst this
      exact ⟨rfl, rfl, fun d hd => by simp [hd], fun _ => by simp⟩
    · split
      · rename_i h3
        exact ⟨rfl, rfl, fun d hd => hd, fun _ => Stat_ok_true fs1 p h3⟩
      · exact ⟨rfl, rfl, fun d hd => hd, fun h => by simp at h⟩

/-- `MkdirAll` never touches a file, only adds directories, and on success the
path is a directory. -/
theorem mkdirAll_spec (fuel : Nat) (fs : FS) (p : String) :
    (mkdirAll fuel fs p).1.files = fs.files ∧ (mkdirAll fuel fs p).1.faulty = fs.faulty ∧
    (∀ d ∈ fs.dirs, d ∈ (mkdirAll fuel fs p).1.dirs) ∧
    ((mkdirAll fuel fs p).2 = none → p ∈ (mkdirAll fuel fs p).1.dirs) := by
  induction fuel generalizing fs p with
  | zero =>
    unfold mkdirAll
    split
    · rename_i h
      exact ⟨rfl, rfl, fun d hd => hd, fun _ => Stat_ok_true fs p h⟩
    · exact ⟨rfl, rfl, fun d hd => hd, fun h => by simp at h⟩
    · exact mkdirLast_spec p (fs, none)
  | succ n ih =>
    unfold mkdirAll
    split
    · rename_i h
      exact ⟨rfl, rfl, fun d hd => hd, fun _ => Stat_ok_true fs p h⟩
    · exact ⟨rfl, rfl, fun d hd => hd, fun h => by simp at h⟩
    · split
      · rename_i q hq
        obtain ⟨i1, i2, i3, _⟩ := ih fs q
        obtain ⟨j1, j2, j3, j4⟩ := mkdirLast_spec p (mkdirAll n fs q)
        exact ⟨j1.trans i1, j2.trans i2, fun d hd => j3 d (i3 d hd), j4⟩
      · exact mkdirLast_spec p (fs, none)

/-- A parent is strictly shorter than its path. -/
theorem parent_length_lt (p q : String) (h : parent p = some q) : q.length < p.length := by
  unfold parent at h
  simp only at h
  split at h
  · rename_i hr
    simp only [Option.some.injEq] at h
    subst h
    have h1 := (List.dropWhile_sublist (fun c => decide (c ≠ '/'))
      (l := p.data.reverse.dropWhile (fun c => decide (c = '/')))).length_le
    have h2 := (List.dropWhile_sublist (fun c => decide (c = '/'))
      (l := p.data.reverse)).length_le
    show (List.reverse _).length < p.data.length
    simp only [List.length_reverse, List.length_tail] at h2 ⊢
    omega
  · simp at h

/-- The empty path has no parent. -/
theorem parent_of_length_zero (p : String) (h : p.length = 0) : parent p = none := by
  have : p.data = [] := List.length_eq_zero.mp h
  unfold parent
  simp [this]

/-- The walk of `MkdirAll` up the parents ends within `path.length` steps: more
fuel changes nothing. -/
theorem mkdirAll_fuel (f1 f2 : Nat) (fs : FS) (p : String) (h1 : p.length ≤ f1)
    (h2 : p.length ≤ f2) : mkdirAll f1 fs p = mkdirAll f2 fs p := by
  induction f1 generalizing f2 fs p with
  | zero =>
    have hp := parent_of_length_zero p (Nat.le_zero.mp h1)
    cases f2 with
    | zero => rfl
    | succ f2 =>
      unfold mkdirAll
      rw [hp]
  | succ f1 ih =>
    cases f2 with
    | zero =>
      have hp := parent_of_length_zero p (Nat.le_zero.mp h2)
      unfold mkdirAll
      rw [hp]
    | succ f2 =>
      unfold mkdirAll
      cases hq : parent p with
      | none => rfl
      | some q =>
        have hl := parent_length_lt p q hq
        have e := ih f2 fs q (by omega) (by omega)
        simp only [e]

/-- `MkdirAll` keeps the files. -/
theorem MkdirAll_files (fs : FS) (p : String) : (MkdirAll fs p).1.files = fs.files :=
  (mkdirAll_spec _ fs p).1

/-- `MkdirAll` keeps the faulty files. -/
theorem MkdirAll_faulty (fs : FS) (p : String) : (MkdirAll fs p).1.faulty = fs.faulty :=
  (mkdirAll_spec _ fs p).2.1

/-- `MkdirAll` keeps the directories there are. -/
theorem MkdirAll_dirs_mono (fs : FS) (p d : String) (h : d ∈ fs.dirs) :
    d ∈ (MkdirAll fs p).1.dirs :=
  (mkdirAll_spec _ fs p).2.2.1 d h

/-- After a successful `MkdirAll` the path is a directory. -/
theorem MkdirAll_ok (fs : FS) (p : String) (h : (MkdirAll fs p).2 = none) :
    p ∈ (MkdirAll fs p).1.dirs :=
  (mkdirAll_spec _ fs p).2.2.2 h

/-- What a successful `OpenFile` does: the file exists afterwards, with the
content it had, or empty; nothing else changes. -/
theorem OpenFile_ok (fs fs1 : FS) (p : String) (h : fs.OpenFile p = .ok fs1) :
    fs1.dirs = fs.dirs ∧ fs1.faulty = fs.faulty ∧
    ∀ q, fs1.readFile q = if q = p then some ((fs.readFile p).getD "") else fs.readFile q := by
  unfold FS.OpenFile at h
  have created : ¬ fs.isFile p = true →
      ∀ q, ({ fs with files := fs.files ++ [(p, "")] } : FS).readFile q =
        if q = p then some ((fs.readFile p).getD "") else fs.readFile q := by
    intro hf q
    have hn : fs.files.lookup p = none := by
      cases hl : fs.files.lookup p with
      | none => rfl
      | some c => exact absurd (by simp [FS.isFile, FS.readFile, hl]) hf
    simp only [FS.readFile, lookup_append_singleton]
    by_cases hq : q = p
    · subst hq
      simp [hn]
    · simp only [hq, if_false]
      cases List.lookup q fs.files <;> rfl
  split at h
  · simp at h
  · split at h
    · rename_i hf
      simp only [Except.ok.injEq] at h
      subst h
      refine ⟨rfl, rfl, fun q => ?_⟩
      by_cases hq : q = p
      · subst hq
        simp only [if_true]
        simp only [FS.isFile, Option.isSome_iff_exists] at hf
        obtain ⟨c, hc⟩ := hf
        simp [hc]
      · simp [hq]
    · rename_i hf
      split at h
      · simp at h
      · split at h
        · split at h
          · simp only [Except.ok.injEq] at h
            subst h
            exact ⟨rfl, rfl, created hf⟩
          · simp at h
        · simp only [Except.ok.injEq] at h
          subst h
          exact ⟨rfl, rfl, created hf⟩

/-- What a successful `Copy` does: the content of the file is overwritten from
offset 0; nothing else changes. -/
theorem Copy_ok (fs fs2 : FS) (p data : String) (h : fs.Copy p data = .ok fs2) :
    fs2.dirs = fs.dirs ∧ fs2.faulty = fs.faulty ∧
    ∀ q, fs2.readFile q =
      if q = p then (fs.readFile q).map (fun old => overwrite old data) else fs.readFile q := by
  unfold FS.Copy at h
  split at h
  · rename_i hd
    simp only [Except.ok.injEq] at h
    subst h
    subst hd
    refine ⟨rfl, rfl, fun q => ?_⟩
    split
    · cases fs.readFile q <;> simp [overwrite_empty_data]
    · rfl
  · split at h
    · simp at h
    · simp only [Except.ok.injEq] at h
      subst h
      exact ⟨rfl, rfl, fun q => lookup_map_update fs.files p q (fun old => overwrite old data)⟩

end os

namespace stage1

open os types unit

/-- What `newMountUnit` does to the file system: the directories stay, every
file but the unit file stays, and on success the unit file holds the
serialization written over its former content. -/
theorem newMountUnit_spec (env : Env) (root what where_ fsType options requiredBy : String)
    (fs : FS) :
    (newMountUnit env root what where_ fsType options requiredBy fs).1.dirs = fs.dirs ∧
    (newMountUnit env root what where_ fsType options requiredBy fs).1.faulty = fs.faulty ∧
    (∀ q, q ≠ unitFile env root where_ →
      (newMountUnit env root what where_ fsType options requiredBy fs).1.readFile q =
        fs.readFile q) ∧
    ((newMountUnit env root what where_ fsType options requiredBy fs).2 = none →
      (newMountUnit env root what where_ fsType options requiredBy fs).1.readFile
          (unitFile env root where_) =
        some (overwrite ((fs.readFile (unitFile env root where_)).getD "")
          (env.Serialize (mountUnitOptions what where_ fsType options requiredBy)))) := by
  unfold newMountUnit
  simp only
  cases ho : fs.OpenFile (unitFile env root where_) with
  | error err => exact ⟨rfl, rfl, fun _ _ => rfl, fun h => by simp at h⟩
  | ok fs1 =>
    obtain ⟨o1, o2, o3⟩ := OpenFile_ok _ _ _ ho
    simp only
    cases hc : fs1.Copy (unitFile env root where_)
        (env.Serialize (mountUnitOptions what where_ fsType options requiredBy)) with
    | error err =>
      refine ⟨o1, o2, fun q hq => ?_, fun h => by simp at h⟩
      simp only
      rw [o3 q, if_neg hq]
    | ok fs2 =>
      obtain ⟨c1, c2, c3⟩ := Copy_ok _ _ _ _ hc
      refine ⟨c1.trans o1, c2.trans o2, fun q hq => ?_, fun _ => ?_⟩
      · simp only
        rw [c3 q, if_neg hq, o3 q, if_neg hq]
      · simp only
        rw [c3, if_pos rfl, o3, if_pos rfl]
        rfl

end stage1

namespace stage1

open os types unit

/-- The disk arguments are the tokens of the volumes of kind `host`, in order. -/
theorem PodToKvmDiskArgs_args (volumes : List Volume) :
    (PodToKvmDiskArgs volumes).1 =
      (volumes.filter fun v => v.Kind = "host").map fun v =>
        "--9p=" ++ v.Source ++ "," ++ v.Name.String := by
  have H : ∀ (vs : List Volume) (acc : List String),
      vs.foldl (fun args vol =>
        if vol.Kind = "host" then args ++ ["--9p=" ++ vol.Source ++ "," ++ vol.Name.String]
        else args) acc =
      acc ++ (vs.filter fun v => v.Kind = "host").map fun v =>
        "--9p=" ++ v.Source ++ "," ++ v.Name.String := by
    intro vs
    induction vs with
    | nil => simp
    | cons v vs ih =>
      intro acc
      by_cases hk : v.Kind = "host"
      · simp [List.foldl_cons, ih, hk, List.filter_cons]
      · simp [List.foldl_cons, ih, hk, List.filter_cons]
  show (volumes.foldl _ []) = _
  rw [H volumes []]
  rfl

/-- Two disk tokens of volumes with valid names are equal only for equal names. -/
theorem diskToken_inj (s1 s2 : String) (n1 n2 : ACName)
    (h : "--9p=" ++ s1 ++ "," ++ n1.String = "--9p=" ++ s2 ++ "," ++ n2.String) : n1 = n2 := by
  have hd := congrArg String.data h
  simp only [String.data_append] at hd
  have e1 : ("--9p=".data ++ s1.data ++ ",".data ++ n1.String.data) =
      ("--9p=".data ++ s1.data) ++ ',' :: n1.String.data := by simp
  have e2 : ("--9p=".data ++ s2.data ++ ",".data ++ n2.String.data) =
      ("--9p=".data ++ s2.data) ++ ',' :: n2.String.data := by simp
  rw [e1, e2] at hd
  have hs := congrArg (fun l => (strings.splitChar ',' l).getLast?) hd
  simp only [strings.splitChar_append_sep, List.getLast?_append,
    strings.splitChar_of_not_mem _ _ n1.no_comma,
    strings.splitChar_of_not_mem _ _ n2.no_comma] at hs
  have hn : n1.String.data = n2.String.data := by simpa using hs
  have hv : n1.val = n2.val := String.ext hn
  cases n1
  cases n2
  simp only at hv
  subst hv
  rfl

/-- C6: `PodToKvmDiskArgs` returns exactly the list, in volume order, of
`--9p=` source `,` name over the volumes whose kind is `host`; a volume of any
other kind contributes nothing, and the error is `nil`. -/
theorem PodToKvmDiskArgs_spec (volumes : List Volume) :
    PodToKvmDiskArgs volumes =
      ((volumes.filter fun v => v.Kind = "host").map fun v =>
        "--9p=" ++ v.Source ++ "," ++ v.Name.String, none) := by
  have h := PodToKvmDiskArgs_args volumes
  have h2 : (PodToKvmDiskArgs volumes).2 = none := rfl
  exact Prod.ext h h2

/-- C7: in a volume list with pairwise distinct names that contains a volume of
kind `host` named `V` with source `S`, the disk arguments contain the token
`--9p=S,V` exactly once. -/
theorem PodToKvmDiskArgs_token_once (volumes : List Volume) (v : Volume)
    (hnodup : (volumes.map fun w => w.Name).Nodup) (hv : v ∈ volumes)
    (hk : v.Kind = "host") :
    (PodToKvmDiskArgs volumes).1.count ("--9p=" ++ v.Source ++ "," ++ v.Name.String) = 1 := by
  rw [PodToKvmDiskArgs_args]
  have hnd : (volumes.filter fun v => v.Kind = "host").Nodup :=
    (List.Nodup.of_map _ hnodup).filter _
  have hinj : ∀ x ∈ volumes.filter (fun v => v.Kind = "host"),
      ∀ y ∈ volumes.filter (fun v => v.Kind = "host"),
      "--9p=" ++ x.Source ++ "," ++ x.Name.String = "--9p=" ++ y.Source ++ "," ++ y.Name.String →
      x = y := by
    intro x hx y hy hxy
    have hn := diskToken_inj _ _ _ _ hxy
    exact List.inj_on_of_nodup_map hnodup (List.mem_of_mem_filter hx)
      (List.mem_of_mem_filter hy) hn
  have hmap := List.Nodup.map_on hinj hnd
  apply List.count_eq_one_of_mem hmap
  apply List.mem_map_of_mem
  exact List.mem_filter.mpr ⟨hv, by simpa using hk⟩

/-- C7 at the sample pod: the token of the volume `data` occurs once. -/
theorem PodToKvmDiskArgs_token_once_witness :
    (podVolumes.map fun w => w.Name).Nodup ∧ dataVolume ∈ podVolumes ∧
    dataVolume.Kind = "host" ∧
    (PodToKvmDiskArgs podVolumes).1.count "--9p=/srv/data,data" = 1 :=
  ⟨by decide, by decide, rfl,
    PodToKvmDiskArgs_token_once podVolumes dataVolume (by decide) (by decide) rfl⟩

end stage1

namespace stage1

open os types unit

/-- One turn of the loop of `podToSystemdHostMountUnits`. -/
theorem podToSystemdHostMountUnits_cons (env : Env) (root : String) (vol : Volume)
    (volumes : List Volume) (fs : FS) :
    podToSystemdHostMountUnits env root (vol :: volumes) fs =
      match MkdirAll fs (volumeDir root vol.Name) with
      | (fs1, some err) => (fs1, some (.path err))
      | (fs1, none) =>
        if vol.Kind = "host" then
          match newMountUnit env root vol.Name.String
              (filepath.Join [stage1MntDir, vol.Name.String]) "9p" "trans=virtio"
              "default.target" fs1 with
          | (fs2, some err) => (fs2, some err)
          | (fs2, none) => podToSystemdHostMountUnits env root volumes fs2
        else podToSystemdHostMountUnits env root volumes fs1 := by
  rfl

/-- The effect of `podToSystemdHostMountUnits` on the file system: directories
are only added, no file but a unit file of a `host` volume changes, and after
a run without error every volume has its directory and a unit file written
all along with the same bytes holds these bytes. -/
theorem podToSystemdHostMountUnits_inv (env : Env) (root : String) (volumes : List Volume)
    (fs : FS) :
    (podToSystemdHostMountUnits env root volumes fs).1.faulty = fs.faulty ∧
    (∀ d ∈ fs.dirs, d ∈ (podToSystemdHostMountUnits env root volumes fs).1.dirs) ∧
    (∀ p, (∀ v ∈ volumes, v.Kind = "host" → p ≠ volumeUnitFile env root v.Name) →
      (podToSystemdHostMountUnits env root volumes fs).1.readFile p = fs.readFile p) ∧
    ((podToSystemdHostMountUnits env root volumes fs).2 = none →
      (∀ v ∈ volumes,
        volumeDir root v.Name ∈ (podToSystemdHostMountUnits env root volumes fs).1.dirs) ∧
      ∀ (p data : String),
        (∀ w ∈ volumes, w.Kind = "host" → volumeUnitFile env root w.Name = p →
          volumeUnit env w.Name = data) →
        (fs.readFile p = some data →
          (podToSystemdHostMountUnits env root volumes fs).1.readFile p = some data) ∧
        (fs.readFile p = none →
          (∃ w ∈ volumes, w.Kind = "host" ∧ volumeUnitFile env root w.Name = p) →
          (podToSystemdHostMountUnits env root volumes fs).1.readFile p = some data)) := by
  induction volumes generalizing fs with
  | nil =>
    refine ⟨rfl, fun d hd => hd, fun p _ => rfl, fun _ => ⟨by simp, fun p data _ => ⟨fun h => h, ?_⟩⟩⟩
    intro _ h
    simp at h
  | cons vol volumes ih =>
    rw [podToSystemdHostMountUnits_cons]
    have m1 := MkdirAll_files fs (volumeDir root vol.Name)
    have m2 := MkdirAll_faulty fs (volumeDir root vol.Name)
    have m3 := MkdirAll_dirs_mono fs (volumeDir root vol.Name)
    have m4 := MkdirAll_ok fs (volumeDir root vol.Name)
    rcases hm : MkdirAll fs (volumeDir root vol.Name) with ⟨fs1, e⟩
    rw [hm] at m1 m2 m3 m4
    simp only at m1 m2 m3 m4
    have mr : ∀ q, fs1.readFile q = fs.readFile q := fun q => by
      simp only [FS.readFile, m1]
    cases e with
    | some err =>
      exact ⟨m2, m3, fun p _ => mr p, fun h => by simp at h⟩
    | none =>
      have hdir := m4 rfl
      simp only
      by_cases hk : vol.Kind = "host"
      · rw [if_pos hk]
        obtain ⟨n1, n2, n3, n4⟩ := newMountUnit_spec env root vol.Name.String
          (filepath.Join [stage1MntDir, vol.Name.String]) "9p" "trans=virtio" "default.target" fs1
        rcases hn : newMountUnit env root vol.Name.String
          (filepath.Join [stage1MntDir, vol.Name.String]) "9p" "trans=virtio"
          "default.target" fs1 with ⟨fs2, e2⟩
        rw [hn] at n1 n2 n3 n4
        simp only at n1 n2 n3 n4
        have frame2 : ∀ p, (∀ v ∈ vol :: volumes, v.Kind = "host" →
            p ≠ volumeUnitFile env root v.Name) → fs2.readFile p = fs.readFile p := by
          intro p hp
          rw [n3 p (hp vol (by simp) hk), mr]
        cases e2 with
        | some err =>
          exact ⟨n2.trans m2, fun d hd => n1 ▸ m3 d hd, frame2, fun h => by simp at h⟩
        | none =>
          simp only
          obtain ⟨i1, i2, i3, i4⟩ := ih fs2
          refine ⟨i1.trans (n2.trans m2), fun d hd => i2 d (n1 ▸ m3 d hd), ?_, ?_⟩
          · intro p hp
            rw [i3 p (fun v hv => hp v (List.mem_cons_of_mem _ hv))]
            exact frame2 p hp
          · intro hok
            obtain ⟨j1, j2⟩ := i4 hok
            refine ⟨?_, ?_⟩
            · intro v hv
              rcases List.mem_cons.mp hv with rfl | hv
              · exact i2 _ (n1 ▸ hdir)
              · exact j1 v hv
            · intro p data hdata
              have hdata' : ∀ w ∈ volumes, w.Kind = "host" → volumeUnitFile env root w.Name = p →
                  volumeUnit env w.Name = data :=
                fun w hw => hdata w (List.mem_cons_of_mem _ hw)
              obtain ⟨k1, k2⟩ := j2 p data hdata'
              have written := n4 rfl
              by_cases hp : volumeUnitFile env root vol.Name = p
              · have hD : volumeUnit env vol.Name = data := hdata vol (by simp) hk hp
                have hfs2 : ∀ old, fs.readFile p = old → (old = none ∨ old = some data) →
                    fs2.readFile p = some data := by
                  intro old ho hcases
                  have w2 : fs2.readFile p = some (overwrite ((fs1.readFile p).getD "") data) := by
                    rw [← hp, ← hD]
                    exact written
                  rw [w2, mr, ho]
                  rcases hcases with h | h
                  · rw [h]
                    simp [overwrite_empty_old]
                  · rw [h]
                    simp [overwrite_self]
                exact ⟨fun h => k1 (hfs2 _ h (Or.inr rfl)), fun h _ => k1 (hfs2 _ h (Or.inl rfl))⟩
              · have hsame : fs2.readFile p = fs.readFile p := by
                  rw [n3 p (fun e => hp e.symm), mr]
                refine ⟨fun h => k1 (hsame.trans h), fun h hex => k2 (hsame.trans h) ?_⟩
                obtain ⟨w, hw, hwk, hwp⟩ := hex
                rcases List.mem_cons.mp hw with rfl | hw
                · exact absurd hwp hp
                · exact ⟨w, hw, hwk, hwp⟩
      · rw [if_neg hk]
        obtain ⟨i1, i2, i3, i4⟩ := ih fs1
        refine ⟨i1.trans m2, fun d hd => i2 d (m3 d hd), ?_, ?_⟩
        · intro p hp
          rw [i3 p (fun v hv => hp v (List.mem_cons_of_mem _ hv)), mr]
        · intro hok
          obtain ⟨j1, j2⟩ := i4 hok
          refine ⟨?_, ?_⟩
          · intro v hv
            rcases List.mem_cons.mp hv with rfl | hv
            · exact i2 _ hdir
            · exact j1 v hv
          · intro p data hdata
            obtain ⟨k1, k2⟩ := j2 p data (fun w hw => hdata w (List.mem_cons_of_mem _ hw))
            refine ⟨fun h => k1 ((mr p).trans h), fun h hex => k2 ((mr p).trans h) ?_⟩
            obtain ⟨w, hw, hwk, hwp⟩ := hex
            rcases List.mem_cons.mp hw with rfl | hw
            · exact absurd hwk hk
            · exact ⟨w, hw, hwk, hwp⟩

end stage1

namespace stage1

open os types unit

/-- The destination of the 9p unit of a volume is `/mnt/` name. -/
theorem Join_stage1MntDir (name : ACName) :
    filepath.Join [stage1MntDir, name.String] = "/mnt/" ++ name.String :=
  filepath.Join_mnt _ name.isName

/-- Unit files are equal only when the escaped unit names are, provided these
are proper path elements. -/
theorem unitFile_inj (env : Env) (root w1 w2 : String)
    (h1 : filepath.isName (env.UnitNamePathEscape (w1 ++ ".mount")).data)
    (h2 : filepath.isName (env.UnitNamePathEscape (w2 ++ ".mount")).data)
    (h : unitFile env root w1 = unitFile env root w2) :
    env.UnitNamePathEscape (w1 ++ ".mount") = env.UnitNamePathEscape (w2 ++ ".mount") := by
  have e1 := filepath.getLast?_splitSlash_Join
    (filepath.Join [root, "/usr/lib/systemd/system"]) _ h1
  have e2 := filepath.getLast?_splitSlash_Join
    (filepath.Join [root, "/usr/lib/systemd/system"]) _ h2
  have h' : filepath.Join [filepath.Join [root, "/usr/lib/systemd/system"],
      env.UnitNamePathEscape (w1 ++ ".mount")] =
      filepath.Join [filepath.Join [root, "/usr/lib/systemd/system"],
        env.UnitNamePathEscape (w2 ++ ".mount")] := h
  rw [h', e2] at e1
  exact String.ext (Option.some.inj e1).symm

/-- The bytes written to the unit file of a volume of kind `host`. -/
theorem volumeUnit_eq (env : Env) (name : ACName) :
    volumeUnit env name = env.Serialize [
      NewUnitOption "Unit" "Description" ("Mount unit for /mnt/" ++ name.String),
      NewUnitOption "Unit" "DefaultDependencies" "false",
      NewUnitOption "Mount" "What" name.String,
      NewUnitOption "Mount" "Where" ("/mnt/" ++ name.String),
      NewUnitOption "Mount" "Type" "9p",
      NewUnitOption "Mount" "Options" "trans=virtio",
      NewUnitOption "Install" "RequiredBy" "default.target"] := by
  unfold volumeUnit mountUnitOptions
  rw [Join_stage1MntDir]
  rfl

/-- The unit files after a run without error of `podToSystemdHostMountUnits` on
volumes with distinct names, none of which had a unit file, when the escaping
gives each of them a unit name of its own: every volume of kind `host` has its
unit file with its bytes, a volume of another kind has none, distinct volumes
have distinct unit files, and every other file is as it was. -/
theorem hostUnits_spec (env : Env) (root : String) (volumes : List Volume) (fs fs' : FS)
    (hnodup : (volumes.map fun v => v.Name).Nodup)
    (hname : ∀ v ∈ volumes, filepath.isName
      (env.UnitNamePathEscape ("/mnt/" ++ v.Name.String ++ ".mount")).data)
    (hinj : ∀ v ∈ volumes, ∀ w ∈ volumes,
      env.UnitNamePathEscape ("/mnt/" ++ v.Name.String ++ ".mount") =
        env.UnitNamePathEscape ("/mnt/" ++ w.Name.String ++ ".mount") → v.Name = w.Name)
    (hnone : ∀ v ∈ volumes, fs.readFile (unitFile env root ("/mnt/" ++ v.Name.String)) = none)
    (hok : podToSystemdHostMountUnits env root volumes fs = (fs', none)) :
    (∀ v ∈ volumes, v.Kind = "host" →
      fs'.readFile (unitFile env root ("/mnt/" ++ v.Name.String)) =
        some (volumeUnit env v.Name)) ∧
    (∀ v ∈ volumes, ∀ w ∈ volumes, v.Name ≠ w.Name →
      unitFile env root ("/mnt/" ++ v.Name.String) ≠
        unitFile env root ("/mnt/" ++ w.Name.String)) ∧
    (∀ v ∈ volumes, v.Kind ≠ "host" →
      fs'.readFile (unitFile env root ("/mnt/" ++ v.Name.String)) = none) ∧
    (∀ p, (∀ v ∈ volumes, v.Kind = "host" → p ≠ unitFile env root ("/mnt/" ++ v.Name.String)) →
      fs'.readFile p = fs.readFile p) := by
  have hfile : ∀ n : ACName, volumeUnitFile env root n = unitFile env root ("/mnt/" ++ n.String) :=
    fun n => by unfold volumeUnitFile; rw [Join_stage1MntDir]
  have hdiff : ∀ v ∈ volumes, ∀ w ∈ volumes,
      unitFile env root ("/mnt/" ++ v.Name.String) =
        unitFile env root ("/mnt/" ++ w.Name.String) → v.Name = w.Name :=
    fun v hv w hw h => hinj v hv w hw (unitFile_inj env root _ _ (hname v hv) (hname w hw) h)
  obtain ⟨_, _, i3, i4⟩ := podToSystemdHostMountUnits_inv env root volumes fs
  rw [hok] at i3 i4
  simp only at i3 i4
  obtain ⟨_, j2⟩ := i4 trivial
  have frame : ∀ p, (∀ v ∈ volumes, v.Kind = "host" →
      p ≠ unitFile env root ("/mnt/" ++ v.Name.String)) → fs'.readFile p = fs.readFile p :=
    fun p hp => i3 p (fun v hv hk => by rw [hfile]; exact hp v hv hk)
  refine ⟨?_, fun v hv w hw hne h => hne (hdiff v hv w hw h), ?_, frame⟩
  · intro v hv hk
    refine (j2 _ (volumeUnit env v.Name) ?_).2 (hnone v hv) ⟨v, hv, hk, hfile _⟩
    intro w hw _ hwp
    rw [hfile] at hwp
    rw [hdiff w hw v hv hwp]
  · intro v hv hk
    rw [frame _ ?_]
    · exact hnone v hv
    · intro w hw hwk h
      have hn := hdiff v hv w hw h
      have : v = w := List.inj_on_of_nodup_map hnodup hv hw hn
      subst this
      exact hk hwk

/-- C8: after `podToSystemdHostMountUnits` succeeds on volumes with pairwise distinct
names, none of which had a unit file under the pod root, and with an escaping
that gives each volume a unit name of its own, there is for every volume `V`
of kind `host` a unit file holding `What=V`, `Where=/mnt/V`, `Type=9p`,
`Options=trans=virtio` and `RequiredBy=default.target`; distinct volumes have
distinct unit files, a volume of another kind has no unit file, and no other
file was written. -/
theorem podToSystemdHostMountUnits_units (env : Env) (root : String) (volumes : List Volume)
    (fs fs' : FS) (hnodup : (volumes.map fun v => v.Name).Nodup)
    (hname : ∀ v ∈ volumes, filepath.isName
      (env.UnitNamePathEscape ("/mnt/" ++ v.Name.String ++ ".mount")).data)
    (hinj : ∀ v ∈ volumes, ∀ w ∈ volumes,
      env.UnitNamePathEscape ("/mnt/" ++ v.Name.String ++ ".mount") =
        env.UnitNamePathEscape ("/mnt/" ++ w.Name.String ++ ".mount") → v.Name = w.Name)
    (hnone : ∀ v ∈ volumes, fs.readFile (unitFile env root ("/mnt/" ++ v.Name.String)) = none)
    (hok : podToSystemdHostMountUnits env root volumes fs = (fs', none)) :
    (∀ v ∈ volumes, v.Kind = "host" →
      fs'.readFile (unitFile env root ("/mnt/" ++ v.Name.String)) =
        some (env.Serialize [
          NewUnitOption "Unit" "Description" ("Mount unit for /mnt/" ++ v.Name.String),
          NewUnitOption "Unit" "DefaultDependencies" "false",
          NewUnitOption "Mount" "What" v.Name.String,
          NewUnitOption "Mount" "Where" ("/mnt/" ++ v.Name.String),
          NewUnitOption "Mount" "Type" "9p",
          NewUnitOption "Mount" "Options" "trans=virtio",
          NewUnitOption "Install" "RequiredBy" "default.target"])) ∧
    (∀ v ∈ volumes, ∀ w ∈ volumes, v.Name ≠ w.Name →
      unitFile env root ("/mnt/" ++ v.Name.String) ≠
        unitFile env root ("/mnt/" ++ w.Name.String)) ∧
    (∀ v ∈ volumes, v.Kind ≠ "host" →
      fs'.readFile (unitFile env root ("/mnt/" ++ v.Name.String)) = none) ∧
    (∀ p, (∀ v ∈ volumes, v.Kind = "host" → p ≠ unitFile env root ("/mnt/" ++ v.Name.String)) →
      fs'.readFile p = fs.readFile p) := by
  obtain ⟨h1, h2, h3, h4⟩ := hostUnits_spec env root volumes fs fs' hnodup hname hinj hnone hok
  refine ⟨fun v hv hk => ?_, h2, h3, h4⟩
  rw [h1 v hv hk, volumeUnit_eq]

set_option maxRecDepth 10000 in
/-- C8 at the sample pod: the unit of the `host` volume `data` is written, the
`empty` volume `scratch` has none. -/
theorem podToSystemdHostMountUnits_units_witness :
    (podToSystemdHostMountUnits sampleEnv "/pod" podVolumes podRoot).1.readFile
        "/pod/usr/lib/systemd/system/mnt-data.mount" =
      some ("[Unit]\nDescription=Mount unit for /mnt/data\nDefaultDependencies=false\n" ++
        "[Mount]\nWhat=data\nWhere=/mnt/data\nType=9p\nOptions=trans=virtio\n" ++
        "[Install]\nRequiredBy=default.target\n") ∧
    (podToSystemdHostMountUnits sampleEnv "/pod" podVolumes podRoot).1.readFile
        "/pod/usr/lib/systemd/system/mnt-scratch.mount" = none :=
  have h := podToSystemdHostMountUnits_units sampleEnv "/pod" podVolumes podRoot
    (podToSystemdHostMountUnits sampleEnv "/pod" podVolumes podRoot).1
    (by decide) (by decide) (by decide) (by decide) (by decide)
  ⟨h.1 dataVolume (by decide) rfl, h.2.2.1 scratchVolume (by decide) (by decide)⟩

/-- A volume whose disk token is among the disk arguments is of kind `host`,
when names are pairwise distinct. -/
theorem host_of_diskToken_mem (volumes : List Volume) (v : Volume)
    (hnodup : (volumes.map fun w => w.Name).Nodup) (hv : v ∈ volumes)
    (h : "--9p=" ++ v.Source ++ "," ++ v.Name.String ∈ (PodToKvmDiskArgs volumes).1) :
    v.Kind = "host" := by
  rw [PodToKvmDiskArgs_args] at h
  obtain ⟨w, hw, hwv⟩ := List.mem_map.mp h
  obtain ⟨hw1, hw2⟩ := List.mem_filter.mp hw
  have hn := diskToken_inj _ _ _ _ hwv
  have : w = v := List.inj_on_of_nodup_map hnodup hw1 hv hn
  subst this
  simpa using hw2

/-- C9: for volumes with pairwise distinct names (and, to observe the units, a run of
`podToSystemdHostMountUnits` without error from a root without unit files for
them, the escaping giving each a unit name of its own), the volumes whose
`--9p` token is among the disk arguments are exactly those whose 9p unit file
is written.  For such a volume, with `tag` the text after the comma of the
token: the unit written is the serialization of the options listed, whose
only `What` is `tag` and whose only `Where` is `/mnt/` followed by `tag`, a path
whose last element is `tag`; and `tag` is the name of the volume. -/
theorem diskArgs_match_hostUnits (env : Env) (root : String) (volumes : List Volume)
    (fs fs' : FS) (hnodup : (volumes.map fun v => v.Name).Nodup)
    (hname : ∀ v ∈ volumes, filepath.isName
      (env.UnitNamePathEscape ("/mnt/" ++ v.Name.String ++ ".mount")).data)
    (hinj : ∀ v ∈ volumes, ∀ w ∈ volumes,
      env.UnitNamePathEscape ("/mnt/" ++ v.Name.String ++ ".mount") =
        env.UnitNamePathEscape ("/mnt/" ++ w.Name.String ++ ".mount") → v.Name = w.Name)
    (hnone : ∀ v ∈ volumes, fs.readFile (unitFile env root ("/mnt/" ++ v.Name.String)) = none)
    (hok : podToSystemdHostMountUnits env root volumes fs = (fs', none)) :
    ∀ v ∈ volumes,
      ("--9p=" ++ v.Source ++ "," ++ v.Name.String ∈ (PodToKvmDiskArgs volumes).1 ↔
        (fs'.readFile (unitFile env root ("/mnt/" ++ v.Name.String))).isSome = true) ∧
      ("--9p=" ++ v.Source ++ "," ++ v.Name.String ∈ (PodToKvmDiskArgs volumes).1 →
        ∃ (tag : String) (opts : List UnitOption),
          (strings.fields ',' ("--9p=" ++ v.Source ++ "," ++ v.Name.String)).getLast? =
            some tag ∧
          tag = v.Name.String ∧
          fs'.readFile (unitFile env root ("/mnt/" ++ v.Name.String)) =
            some (env.Serialize opts) ∧
          opts = [
            NewUnitOption "Unit" "Description" ("Mount unit for /mnt/" ++ tag),
            NewUnitOption "Unit" "DefaultDependencies" "false",
            NewUnitOption "Mount" "What" tag,
            NewUnitOption "Mount" "Where" ("/mnt/" ++ tag),
            NewUnitOption "Mount" "Type" "9p",
            NewUnitOption "Mount" "Options" "trans=virtio",
            NewUnitOption "Install" "RequiredBy" "default.target"] ∧
          (∀ o ∈ opts, o.Name = "What" → o.Value = tag) ∧
          (∀ o ∈ opts, o.Name = "Where" →
            (strings.fields '/' o.Value).getLast? = some tag)) := by
  obtain ⟨h1, _, h3, _⟩ := hostUnits_spec env root volumes fs fs' hnodup hname hinj hnone hok
  intro v hv
  have hmem : v.Kind = "host" →
      "--9p=" ++ v.Source ++ "," ++ v.Name.String ∈ (PodToKvmDiskArgs volumes).1 := by
    intro hk
    rw [PodToKvmDiskArgs_args]
    exact List.mem_map.mpr ⟨v, List.mem_filter.mpr ⟨hv, by simpa using hk⟩, rfl⟩
  have hlast : (strings.fields '/' ("/mnt/" ++ v.Name.String)).getLast? =
      some v.Name.String := by
    have e : ("/mnt/" ++ v.Name.String).data =
        ['/', 'm', 'n', 't'] ++ '/' :: v.Name.String.data := by
      simp [String.data_append]
    unfold strings.fields
    rw [e, strings.splitChar_append_sep, strings.splitChar_of_not_mem _ _ v.Name.isName.2.1]
    simp
  refine ⟨⟨fun h => ?_, fun h => ?_⟩, fun h => ⟨v.Name.String, _, ?_, rfl, ?_, rfl, ?_, ?_⟩⟩
  · rw [h1 v hv (host_of_diskToken_mem volumes v hnodup hv h)]
    rfl
  · by_cases hk : v.Kind = "host"
    · exact hmem hk
    · rw [h3 v hv hk] at h
      simp at h
  · have e : ("--9p=" ++ v.Source ++ "," ++ v.Name.String).data =
        ("--9p=" ++ v.Source).data ++ ',' :: v.Name.String.data := by
      simp [String.data_append]
    unfold strings.fields
    rw [e, strings.splitChar_append_sep, strings.splitChar_of_not_mem _ _ v.Name.no_comma]
    simp
  · rw [h1 v hv (host_of_diskToken_mem volumes v hnodup hv h), volumeUnit_eq]
  · intro o ho hn
    simp only [List.mem_cons, List.mem_singleton, List.not_mem_nil, or_false] at ho
    rcases ho with h | h | h | h | h | h | h <;> subst h <;>
      first
        | rfl
        | simp [NewUnitOption] at hn
  · intro o ho hn
    simp only [List.mem_cons, List.mem_singleton, List.not_mem_nil, or_false] at ho
    rcases ho with h | h | h | h | h | h | h <;> subst h <;>
      first
        | exact hlast
        | simp [NewUnitOption] at hn

set_option maxRecDepth 10000 in
/-- C9 at the sample pod: the `host` volume `data` has its token and its unit, with
the tag `data` as the `What` of the unit and as the last element of its
`Where`. -/
theorem diskArgs_match_hostUnits_witness :
    ("--9p=/srv/data,data" ∈ (PodToKvmDiskArgs podVolumes).1 ↔
      ((podToSystemdHostMountUnits sampleEnv "/pod" podVolumes podRoot).1.readFile
        "/pod/usr/lib/systemd/system/mnt-data.mount").isSome = true) ∧
    ("--9p=/srv/data,data" ∈ (PodToKvmDiskArgs podVolumes).1 →
      ∃ (tag : String) (opts : List UnitOption),
        (strings.fields ',' "--9p=/srv/data,data").getLast? = some tag ∧
        tag = "data" ∧
        (podToSystemdHostMountUnits sampleEnv "/pod" podVolumes podRoot).1.readFile
            "/pod/usr/lib/systemd/system/mnt-data.mount" =
          some (sampleEnv.Serialize opts) ∧
        opts = [
          NewUnitOption "Unit" "Description" ("Mount unit for /mnt/" ++ tag),
          NewUnitOption "Unit" "DefaultDependencies" "false",
          NewUnitOption "Mount" "What" tag,
          NewUnitOption "Mount" "Where" ("/mnt/" ++ tag),
          NewUnitOption "Mount" "Type" "9p",
          NewUnitOption "Mount" "Options" "trans=virtio",
          NewUnitOption "Install" "RequiredBy" "default.target"] ∧
        (∀ o ∈ opts, o.Name = "What" → o.Value = tag) ∧
        (∀ o ∈ opts, o.Name = "Where" → (strings.fields '/' o.Value).getLast? = some tag)) :=
  diskArgs_match_hostUnits sampleEnv "/pod" podVolumes podRoot
    (podToSystemdHostMountUnits sampleEnv "/pod" podVolumes podRoot).1
    (by decide) (by decide) (by decide) (by decide) (by decide) dataVolume (by decide)

/-- The errors of `newMountUnit` are those it formats itself. -/
theorem newMountUnit_error (env : Env) (root what where_ fsType options requiredBy : String)
    (fs : FS) (err : GoError)
    (h : (newMountUnit env root what where_ fsType options requiredBy fs).2 = some err) :
    ∃ msg, err = .errorf ("failed to " ++ msg) := by
  unfold newMountUnit at h
  simp only at h
  split at h
  · simp only [Option.some.injEq] at h
    exact ⟨_, by rw [← h]; simp only [String.append_assoc]; rfl⟩
  · split at h
    · simp only [Option.some.injEq] at h
      exact ⟨_, by rw [← h]; simp only [String.append_assoc]; rfl⟩
    · simp at h

/-- No message that starts with `failed to` is the message about a volume that
is not defined. -/
theorem failed_ne_missing (msg name : String) :
    "failed to " ++ msg ≠
      "app requires a volume that is not defined in Pod (try --volume=" ++ name ++
        ",kind=empty)!" := by
  intro h
  have e1 : ("failed to " ++ msg).data = 'f' :: ("ailed to " ++ msg).data := rfl
  have e2 : ("app requires a volume that is not defined in Pod (try --volume=" ++ name ++
      ",kind=empty)!").data =
      'a' :: ("pp requires a volume that is not defined in Pod (try --volume=" ++ name ++
        ",kind=empty)!").data := rfl
  have h2 := congrArg String.data h
  rw [e1, e2] at h2
  exact absurd (List.cons.inj h2).1 (by decide)

/-- One turn of the loop of `appToSystemdMountUnits`. -/
theorem appToSystemdMountUnits_cons (env : Env) (root : String) (appId : Hash)
    (mountPoint : MountPoint) (mountPoints : List MountPoint) (fs : FS) :
    appToSystemdMountUnits env root appId (mountPoint :: mountPoints) fs =
      if IsNotExist (fs.Stat (filepath.Join [root,
          filepath.Join [stage1MntDir, mountPoint.Name.String]])) then
        (fs, some (.errorf ("app requires a volume that is not defined in Pod (try --volume=" ++
          mountPoint.Name.String ++ ",kind=empty)!")))
      else
        match (if IsNotExist (fs.Stat (filepath.Join [root,
            filepath.Join [env.RelAppRootfsPath appId, mountPoint.Path]])) then
          MkdirAll fs (filepath.Join [root,
            filepath.Join [env.RelAppRootfsPath appId, mountPoint.Path]])
          else (fs, none)) with
        | (fs1, some err) =>
          (fs1, some (.errorf ("failed to prepare dir for mountPoint " ++
            mountPoint.Name.String ++ ": " ++ err.Error)))
        | (fs1, none) =>
          match newMountUnit env root (filepath.Join [stage1MntDir, mountPoint.Name.String])
              (filepath.Join [env.RelAppRootfsPath appId, mountPoint.Path]) "bind"
              (if mountPoint.ReadOnly then "bind" ++ ",ro" else "bind")
              (env.ServiceUnitName appId) fs1 with
          | (fs2, some err) => (fs2, some err)
          | (fs2, none) => appToSystemdMountUnits env root appId mountPoints fs2 := by
  rfl

/-- When the shared directory of every mount point exists, `appToSystemdMountUnits`
does not return the error about a volume that is not defined. -/
theorem appToSystemdMountUnits_no_missing (env : Env) (root : String) (appId : Hash)
    (mountPoints : List MountPoint) (fs : FS)
    (h : ∀ mp ∈ mountPoints,
      filepath.Join [root, filepath.Join [stage1MntDir, mp.Name.String]] ∈ fs.dirs)
    (name : String) :
    (appToSystemdMountUnits env root appId mountPoints fs).2 ≠
      some (.errorf ("app requires a volume that is not defined in Pod (try --volume=" ++
        name ++ ",kind=empty)!")) := by
  induction mountPoints generalizing fs with
  | nil => simp [appToSystemdMountUnits]
  | cons mp mps ih =>
    rw [appToSystemdMountUnits_cons]
    have hs := Stat_of_mem_dirs fs _ (h mp (by simp))
    rw [hs]
    have hfalse : IsNotExist (Except.ok true : Except PathError Bool) = false := rfl
    rw [hfalse]
    simp only [Bool.false_eq_true, if_false]
    have hmade : ∀ d ∈ fs.dirs, d ∈ (if IsNotExist (fs.Stat (filepath.Join [root,
          filepath.Join [env.RelAppRootfsPath appId, mp.Path]])) then
        MkdirAll fs (filepath.Join [root,
          filepath.Join [env.RelAppRootfsPath appId, mp.Path]])
        else (fs, none)).1.dirs := by
      intro d hd
      split
      · exact MkdirAll_dirs_mono fs _ d hd
      · exact hd
    rcases hm : (if IsNotExist (fs.Stat (filepath.Join [root,
          filepath.Join [env.RelAppRootfsPath appId, mp.Path]])) then
        MkdirAll fs (filepath.Join [root,
          filepath.Join [env.RelAppRootfsPath appId, mp.Path]])
        else (fs, none)) with ⟨fs1, e⟩
    rw [hm] at hmade
    simp only at hmade
    cases e with
    | some err =>
      simp only
      intro hc
      have := GoError.errorf.inj (Option.some.inj hc)
      rw [String.append_assoc, String.append_assoc, String.append_assoc] at this
      exact failed_ne_missing _ _ this
    | none =>
      simp only
      obtain ⟨n1, _, _, _⟩ := newMountUnit_spec env root
        (filepath.Join [stage1MntDir, mp.Name.String])
        (filepath.Join [env.RelAppRootfsPath appId, mp.Path]) "bind"
        (if mp.ReadOnly then "bind" ++ ",ro" else "bind") (env.ServiceUnitName appId) fs1
      have nerr := newMountUnit_error env root
        (filepath.Join [stage1MntDir, mp.Name.String])
        (filepath.Join [env.RelAppRootfsPath appId, mp.Path]) "bind"
        (if mp.ReadOnly then "bind" ++ ",ro" else "bind") (env.ServiceUnitName appId) fs1
      rcases hn : newMountUnit env root (filepath.Join [stage1MntDir, mp.Name.String])
        (filepath.Join [env.RelAppRootfsPath appId, mp.Path]) "bind"
        (if mp.ReadOnly then "bind" ++ ",ro" else "bind") (env.ServiceUnitName appId) fs1
        with ⟨fs2, e2⟩
      rw [hn] at n1 nerr
      simp only at n1 nerr
      cases e2 with
      | some err =>
        simp only
        obtain ⟨msg, hmsg⟩ := nerr err rfl
        intro hc
        rw [hmsg] at hc
        exact failed_ne_missing _ _ (GoError.errorf.inj (Option.some.inj hc))
      | none =>
        simp only
        apply ih
        intro mp' hmp'
        rw [n1]
        exact hmade _ (h mp' (List.mem_cons_of_mem _ hmp'))

/-- C10: after `podToSystemdHostMountUnits` succeeds, the directory `<root>/mnt/<name>`
exists for every volume, of whatever kind, and `appToSystemdMountUnits` on the
same root and the resulting state, for mount points that all name one of
these volumes, does not return the error about a volume that is not defined. -/
theorem podToSystemdHostMountUnits_dirs (env : Env) (root : String) (volumes : List Volume)
    (fs fs' : FS) (hok : podToSystemdHostMountUnits env root volumes fs = (fs', none)) :
    (∀ v ∈ volumes, fs'.isDir (filepath.Join [root, "/mnt/", v.Name.String]) = true) ∧
    ∀ (appId : Hash) (mountPoints : List MountPoint),
      (∀ mp ∈ mountPoints, ∃ v ∈ volumes, v.Name = mp.Name) →
      ∀ name : String, (appToSystemdMountUnits env root appId mountPoints fs').2 ≠
        some (.errorf ("app requires a volume that is not defined in Pod (try --volume=" ++
          name ++ ",kind=empty)!")) := by
  obtain ⟨_, _, _, i4⟩ := podToSystemdHostMountUnits_inv env root volumes fs
  rw [hok] at i4
  obtain ⟨j1, _⟩ := i4 rfl
  have hdir : ∀ v ∈ volumes, filepath.Join [root, "/mnt/", v.Name.String] ∈ fs'.dirs := j1
  refine ⟨fun v hv => by simpa [FS.isDir] using hdir v hv, ?_⟩
  intro appId mountPoints hmp name
  apply appToSystemdMountUnits_no_missing
  intro mp hmem
  obtain ⟨v, hv, hname⟩ := hmp mp hmem
  rw [← hname]
  have := filepath.Join_root_mnt root v.Name.String v.Name.isName
  show filepath.Join [root, filepath.Join ["/mnt/", v.Name.String]] ∈ fs'.dirs
  rw [← this]
  exact hdir v hv

set_option maxRecDepth 10000 in
/-- C10 at the sample pod and an application that mounts both volumes. -/
theorem podToSystemdHostMountUnits_dirs_witness :
    (podToSystemdHostMountUnits sampleEnv "/pod" podVolumes podRoot).1.isDir
        "/pod/mnt/scratch" = true ∧
    (appToSystemdMountUnits sampleEnv "/pod" ⟨"sha512", "4f2a"⟩
        [⟨dataVolume.Name, "/var/data", true⟩, ⟨scratchVolume.Name, "/tmp", false⟩]
        (podToSystemdHostMountUnits sampleEnv "/pod" podVolumes podRoot).1).2 ≠
      some (.errorf ("app requires a volume that is not defined in Pod (try --volume=" ++
        "scratch" ++ ",kind=empty)!")) :=
  have h := podToSystemdHostMountUnits_dirs sampleEnv "/pod" podVolumes podRoot
    (podToSystemdHostMountUnits sampleEnv "/pod" podVolumes podRoot).1 (by decide)
  ⟨h.1 scratchVolume (by decide),
    h.2 ⟨"sha512", "4f2a"⟩
      [⟨dataVolume.Name, "/var/data", true⟩, ⟨scratchVolume.Name, "/tmp", false⟩]
      (by decide) "scratch"⟩

end stage1

namespace kvm

open networking

/-- C17: `GetKVMNetArgs` returns a `nil` error for every input; a describer at index `i`
whose interface name is empty still gives the network argument, with an empty
`tapif` value, and so does an active network of type `macvlan` whose host link
lookup failed. -/
theorem GetKVMNetArgs_no_error :
    (∀ (links : Links) (n : Networking), (GetKVMNetArgs links n).2.2 = none) ∧
    (∀ nds : List NetDescriber, (netArgs nds).2.2 = none) ∧
    (∀ (nds : List NetDescriber) (i : Nat) (nd : NetDescriber), nds[i]? = some nd →
      nd.IfName = "" →
      (netArgs nds).1[2 * i]? = some "--network" ∧
      (netArgs nds).1[2 * i + 1]? = some ("mode=tap,tapif=" ++ ",host_ip=" ++
        nd.HostIP.String ++ ",guest_ip=" ++ nd.GuestIP.String)) ∧
    (∀ (links : Links) (n : Networking) (i : Nat) (an : activeNet),
      n.GetActiveNetworks[i]? = some an → an.conf.Type_ = "macvlan" →
      links an.runtime.IfName = none →
      (GetKVMNetArgs links n).1[2 * i + 1]? = some ("mode=tap,tapif=" ++ ",host_ip=" ++
        an.HostIP.String ++ ",guest_ip=" ++ an.GuestIP.String)) := by
  refine ⟨fun _ _ => rfl, fun _ => rfl, ?_, ?_⟩
  · intro nds i nd h hname
    have := netArgs_lkvmArgs_getElem? nds i nd h
    rw [hname] at this
    refine ⟨this.1, ?_⟩
    rw [this.2]
    simp [String.append_assoc]
  · intro links n i an h htype hlink
    rw [(activeNetArgs_lkvmArgs_getElem? links n i an h).2]
    have hif : an.IfName links = "" := by
      simp [activeNet.IfName, htype, hlink]
    rw [hif]
    simp [String.append_assoc]

/-- C17 at the network `macvtapNet` on a host without links. -/
theorem GetKVMNetArgs_no_error_witness :
    (GetKVMNetArgs (fun _ => none) ⟨[macvtapNet]⟩).2.2 = none ∧
    (GetKVMNetArgs (fun _ => none) ⟨[macvtapNet]⟩).1[2 * 0 + 1]? =
      some "mode=tap,tapif=,host_ip=10.1.0.1,guest_ip=10.1.0.7" :=
  ⟨GetKVMNetArgs_no_error.1 _ _,
    GetKVMNetArgs_no_error.2.2.2 (fun _ => none) ⟨[macvtapNet]⟩ 0 macvtapNet rfl rfl rfl⟩

/-- C18: `activeNet.IfName` returns the runtime interface name unchanged when the
configured type is not `macvlan`; when it is and the host link of that name has
index `k`, it returns `/dev/tap` followed by `k` in decimal; and when the lookup
fails it returns the empty string (the result is a string, no error is
returned). -/
theorem activeNet_IfName_spec (links : Links) (an : activeNet) :
    (an.conf.Type_ ≠ "macvlan" → an.IfName links = an.runtime.IfName) ∧
    (∀ k : Nat, an.conf.Type_ = "macvlan" → links an.runtime.IfName = some (k : Int) →
      an.IfName links = "/dev/tap" ++ toString k ∧
      ∀ c ∈ (toString k).data, c.isDigit = true) ∧
    (∀ k : Int, an.conf.Type_ = "macvlan" → links an.runtime.IfName = some k →
      an.IfName links = "/dev/tap" ++ toString k) ∧
    (an.conf.Type_ = "macvlan" → links an.runtime.IfName = none → an.IfName links = "") := by
  refine ⟨fun h => ?_, fun k h hl => ⟨?_, strings.toString_nat_isDigit k⟩, fun k h hl => ?_,
    fun h hl => ?_⟩
  · simp [activeNet.IfName, h]
  · simp only [activeNet.IfName, h, if_true, hl]
    rfl
  · simp [activeNet.IfName, h, hl]
  · simp [activeNet.IfName, h, hl]

/-- C18 at the network `macvtapNet`: index 12 gives `/dev/tap12`, no link gives the
empty name; the network `ptpNet` keeps its name `eth0`. -/
theorem activeNet_IfName_spec_witness :
    macvtapNet.IfName hostLinks = "/dev/tap12" ∧
    macvtapNet.IfName (fun _ => none) = "" ∧
    ptpNet.IfName hostLinks = "eth0" :=
  ⟨((activeNet_IfName_spec hostLinks macvtapNet).2.1 12 rfl rfl).1,
    (activeNet_IfName_spec (fun _ => none) macvtapNet).2.2.2 rfl rfl,
    (activeNet_IfName_spec hostLinks ptpNet).1 (by decide)⟩

end kvm

namespace stage1

open os types unit

/-- C19: for every call of `newMountUnit` the options serialized are, in this order,
`[Unit] Description = Mount unit for <where>`, `[Unit] DefaultDependencies = false`,
`[Mount] What`, `Where`, `Type`, `Options` as given, followed by
`[Install] RequiredBy = requiredBy` exactly when `requiredBy` is not empty; a call
that returns no error has written their serialization to the unit file, from
offset 0 over its former content. -/
theorem newMountUnit_options (env : Env) (root what where_ fsType options requiredBy : String)
    (fs : FS) :
    mountUnitOptions what where_ fsType options requiredBy =
      [NewUnitOption "Unit" "Description" ("Mount unit for " ++ where_),
        NewUnitOption "Unit" "DefaultDependencies" "false",
        NewUnitOption "Mount" "What" what,
        NewUnitOption "Mount" "Where" where_,
        NewUnitOption "Mount" "Type" fsType,
        NewUnitOption "Mount" "Options" options] ++
      (if requiredBy = "" then [] else [NewUnitOption "Install" "RequiredBy" requiredBy]) ∧
    ((newMountUnit env root what where_ fsType options requiredBy fs).2 = none →
      (newMountUnit env root what where_ fsType options requiredBy fs).1.readFile
          (unitFile env root where_) =
        some (overwrite ((fs.readFile (unitFile env root where_)).getD "")
          (env.Serialize ([NewUnitOption "Unit" "Description" ("Mount unit for " ++ where_),
            NewUnitOption "Unit" "DefaultDependencies" "false",
            NewUnitOption "Mount" "What" what,
            NewUnitOption "Mount" "Where" where_,
            NewUnitOption "Mount" "Type" fsType,
            NewUnitOption "Mount" "Options" options] ++
          (if requiredBy = "" then [] else
            [NewUnitOption "Install" "RequiredBy" requiredBy]))))) := by
  have e : mountUnitOptions what where_ fsType options requiredBy =
      [NewUnitOption "Unit" "Description" ("Mount unit for " ++ where_),
        NewUnitOption "Unit" "DefaultDependencies" "false",
        NewUnitOption "Mount" "What" what,
        NewUnitOption "Mount" "Where" where_,
        NewUnitOption "Mount" "Type" fsType,
        NewUnitOption "Mount" "Options" options] ++
      (if requiredBy = "" then [] else [NewUnitOption "Install" "RequiredBy" requiredBy]) := by
    unfold mountUnitOptions
    by_cases h : requiredBy = ""
    · simp [h]
    · simp [h]
  refine ⟨e, fun h => ?_⟩
  rw [← e]
  exact (newMountUnit_spec env root what where_ fsType options requiredBy fs).2.2.2 h

set_option maxRecDepth 10000 in
/-- C19 at a call with and a call without `requiredBy` on the sample pod root. -/
theorem newMountUnit_options_witness :
    (newMountUnit sampleEnv "/pod" "data" "/mnt/data" "9p" "trans=virtio" "default.target"
        podRoot).1.readFile "/pod/usr/lib/systemd/system/mnt-data.mount" =
      some ("[Unit]\nDescription=Mount unit for /mnt/data\nDefaultDependencies=false\n" ++
        "[Mount]\nWhat=data\nWhere=/mnt/data\nType=9p\nOptions=trans=virtio\n" ++
        "[Install]\nRequiredBy=default.target\n") ∧
    (newMountUnit sampleEnv "/pod" "data" "/mnt/data" "9p" "trans=virtio" ""
        podRoot).1.readFile "/pod/usr/lib/systemd/system/mnt-data.mount" =
      some ("[Unit]\nDescription=Mount unit for /mnt/data\nDefaultDependencies=false\n" ++
        "[Mount]\nWhat=data\nWhere=/mnt/data\nType=9p\nOptions=trans=virtio\n") :=
  ⟨(newMountUnit_options sampleEnv "/pod" "data" "/mnt/data" "9p" "trans=virtio"
      "default.target" podRoot).2 (by decide),
    (newMountUnit_options sampleEnv "/pod" "data" "/mnt/data" "9p" "trans=virtio" ""
      podRoot).2 (by decide)⟩

end stage1

namespace stage1

open os types unit

/-- `podToSystemdHostMountUnits` on a list in two parts: the second part runs on
the state the first left, unless the first returned an error, which is then
the result. -/
theorem podToSystemdHostMountUnits_append (env : Env) (root : String)
    (pre post : List Volume) (fs : FS) :
    podToSystemdHostMountUnits env root (pre ++ post) fs =
      match podToSystemdHostMountUnits env root pre fs with
      | (fs1, none) => podToSystemdHostMountUnits env root post fs1
      | (fs1, some err) => (fs1, some err) := by
  induction pre generalizing fs with
  | nil => rfl
  | cons v pre ih =>
    rw [List.cons_append, podToSystemdHostMountUnits_cons, podToSystemdHostMountUnits_cons]
    rcases MkdirAll fs (volumeDir root v.Name) with ⟨fs1, e⟩
    cases e with
    | some err => rfl
    | none =>
      simp only
      by_cases hk : v.Kind = "host"
      · simp only [hk, if_true]
        rcases newMountUnit env root v.Name.String
          (filepath.Join [stage1MntDir, v.Name.String]) "9p" "trans=virtio"
          "default.target" fs1 with ⟨fs2, e2⟩
        cases e2 with
        | some err => rfl
        | none => exact ih fs2
      · simp only [hk, if_false]
        exact ih fs1

/-- `appToSystemdMountUnits` on a list in two parts. -/
theorem appToSystemdMountUnits_append (env : Env) (root : String) (appId : Hash)
    (pre post : List MountPoint) (fs : FS) :
    appToSystemdMountUnits env root appId (pre ++ post) fs =
      match appToSystemdMountUnits env root appId pre fs with
      | (fs1, none) => appToSystemdMountUnits env root appId post fs1
      | (fs1, some err) => (fs1, some err) := by
  induction pre generalizing fs with
  | nil => rfl
  | cons mp pre ih =>
    rw [List.cons_append, appToSystemdMountUnits_cons, appToSystemdMountUnits_cons]
    split
    · rfl
    · rcases (if IsNotExist (fs.Stat (filepath.Join [root,
          filepath.Join [env.RelAppRootfsPath appId, mp.Path]])) then
        MkdirAll fs (filepath.Join [root,
          filepath.Join [env.RelAppRootfsPath appId, mp.Path]])
        else (fs, none)) with ⟨fs1, e⟩
      cases e with
      | some err => rfl
      | none =>
        simp only
        rcases newMountUnit env root (filepath.Join [stage1MntDir, mp.Name.String])
          (filepath.Join [env.RelAppRootfsPath appId, mp.Path]) "bind"
          (if mp.ReadOnly then "bind" ++ ",ro" else "bind") (env.ServiceUnitName appId) fs1
          with ⟨fs2, e2⟩
        cases e2 with
        | some err => rfl
        | none => exact ih fs2

/-- `Stat` reports that nothing is there when the path is neither a directory nor
a file and no parent of it is a file. -/
theorem IsNotExist_Stat (fs : FS) (p : String) (hd : fs.isDir p = false)
    (hf : fs.isFile p = false)
    (ha : ∀ a ∈ ancestors p.length p, fs.isFile a = false) :
    IsNotExist (fs.Stat p) = true := by
  unfold FS.Stat
  have hany : (ancestors p.length p).any fs.isFile = false := by
    rw [List.any_eq_false]
    intro a h
    simp [ha a h]
  simp [hd, hf, hany, IsNotExist]

/-- `Stat` reports that nothing is there exactly when the path is neither a
directory nor a file and no parent of it is a file. -/
theorem IsNotExist_Stat_iff (fs : FS) (p : String) :
    IsNotExist (fs.Stat p) = true ↔
      fs.isDir p = false ∧ fs.isFile p = false ∧
      ∀ a ∈ ancestors p.length p, fs.isFile a = false := by
  constructor
  · intro h
    unfold FS.Stat at h
    by_cases hd : fs.isDir p = true
    · simp [hd, IsNotExist] at h
    · by_cases hf : fs.isFile p = true
      · simp [hd, hf, IsNotExist] at h
      · by_cases ha : (ancestors p.length p).any fs.isFile = true
        · simp [hd, hf, ha, IsNotExist] at h
        · refine ⟨by simpa using hd, by simpa using hf, fun a hm => ?_⟩
          have hany : (ancestors p.length p).any fs.isFile = false := by simpa using ha
          rw [List.any_eq_false] at hany
          simpa using hany a hm
  · intro h
    exact IsNotExist_Stat fs p h.1 h.2.1 h.2.2

/-- A mount point whose shared directory is missing stops `appToSystemdMountUnits`
with the error that names the volume, the state untouched. -/
theorem appToSystemdMountUnits_missing (env : Env) (root : String) (appId : Hash)
    (mp : MountPoint) (post : List MountPoint) (fs : FS)
    (h : IsNotExist (fs.Stat (filepath.Join [root, "/mnt/" ++ mp.Name.String])) = true) :
    appToSystemdMountUnits env root appId (mp :: post) fs =
      (fs, some (.errorf ("app requires a volume that is not defined in Pod (try --volume=" ++
        mp.Name.String ++ ",kind=empty)!"))) := by
  rw [appToSystemdMountUnits_cons, Join_stage1MntDir, if_pos h]

set_option maxRecDepth 100000 in
/-- C12: on the pod root `mntIsFile`, where `/pod/mnt` is a regular file, the source
directory `/pod/mnt/data` of the mount point `dataMount` does not exist and
cannot be reached; `os.Stat` fails there with `ENOTDIR`, which
`os.IsNotExist` does not accept, and `appToSystemdMountUnits` returns no error:
it makes the destination directory and writes the unit of the mount point. -/
theorem appToSystemdMountUnits_source_not_dir :
    mntIsFile.isDir "/pod/mnt/data" = false ∧
    mntIsFile.isFile "/pod/mnt/data" = false ∧
    mntIsFile.Stat "/pod/mnt/data" = .error ⟨"stat", "/pod/mnt/data", .ENOTDIR⟩ ∧
    IsNotExist (mntIsFile.Stat "/pod/mnt/data") = false ∧
    (appToSystemdMountUnits sampleEnv "/pod" sampleApp [dataMount] mntIsFile).2 = none ∧
    (appToSystemdMountUnits sampleEnv "/pod" sampleApp [dataMount] mntIsFile).1.isDir
      "/pod/opt/stage2/4f2a/rootfs/var/data" = true ∧
    (appToSystemdMountUnits sampleEnv "/pod" sampleApp [dataMount] mntIsFile).1.readFile
        "/pod/usr/lib/systemd/system/opt-stage2-4f2a-rootfs-var-data.mount" =
      some ("[Unit]\nDescription=Mount unit for /opt/stage2/4f2a/rootfs/var/data\n" ++
        "DefaultDependencies=false\n[Mount]\nWhat=/mnt/data\n" ++
        "Where=/opt/stage2/4f2a/rootfs/var/data\nType=bind\nOptions=bind,ro\n" ++
        "[Install]\nRequiredBy=4f2a.service\n") ∧
    (appToSystemdMountUnits sampleEnv "/pod" sampleApp [dataMount] mntIsFile).1.isDir
      "/pod/mnt/data" = false :=
  ⟨by decide, by decide, by rfl, by decide, by decide, by decide, by decide, by decide⟩

end stage1

namespace stage1

open os types unit

/-- `appToSystemdMountUnits` changes no file but the unit files of its mount
points, and removes no directory. -/
theorem appToSystemdMountUnits_frame (env : Env) (root : String) (appId : Hash)
    (mountPoints : List MountPoint) (fs : FS) :
    (∀ d ∈ fs.dirs, d ∈ (appToSystemdMountUnits env root appId mountPoints fs).1.dirs) ∧
    (∀ q, (∀ m ∈ mountPoints,
        q ≠ unitFile env root (filepath.Join [env.RelAppRootfsPath appId, m.Path])) →
      (appToSystemdMountUnits env root appId mountPoints fs).1.readFile q = fs.readFile q) := by
  induction mountPoints generalizing fs with
  | nil => exact ⟨fun d hd => hd, fun q _ => rfl⟩
  | cons mp mps ih =>
    rw [appToSystemdMountUnits_cons]
    split
    · exact ⟨fun d hd => hd, fun q _ => rfl⟩
    · have hmade : (∀ d ∈ fs.dirs, d ∈ (if IsNotExist (fs.Stat (filepath.Join [root,
            filepath.Join [env.RelAppRootfsPath appId, mp.Path]])) then
          MkdirAll fs (filepath.Join [root,
            filepath.Join [env.RelAppRootfsPath appId, mp.Path]])
          else (fs, none)).1.dirs) ∧
          (if IsNotExist (fs.Stat (filepath.Join [root,
            filepath.Join [env.RelAppRootfsPath appId, mp.Path]])) then
          MkdirAll fs (filepath.Join [root,
            filepath.Join [env.RelAppRootfsPath appId, mp.Path]])
          else (fs, none)).1.files = fs.files := by
        split
        · exact ⟨fun d hd => MkdirAll_dirs_mono fs _ d hd, MkdirAll_files fs _⟩
        · exact ⟨fun d hd => hd, rfl⟩
      rcases hm : (if IsNotExist (fs.Stat (filepath.Join [root,
            filepath.Join [env.RelAppRootfsPath appId, mp.Path]])) then
          MkdirAll fs (filepath.Join [root,
            filepath.Join [env.RelAppRootfsPath appId, mp.Path]])
          else (fs, none)) with ⟨fs1, e⟩
      rw [hm] at hmade
      obtain ⟨hm1, hm2⟩ := hmade
      simp only at hm1 hm2
      have mr : ∀ q, fs1.readFile q = fs.readFile q := fun q => by
        simp only [FS.readFile, hm2]
      cases e with
      | some err => exact ⟨hm1, fun q _ => mr q⟩
      | none =>
        simp only
        obtain ⟨n1, _, n3, _⟩ := newMountUnit_spec env root
          (filepath.Join [stage1MntDir, mp.Name.String])
          (filepath.Join [env.RelAppRootfsPath appId, mp.Path]) "bind"
          (if mp.ReadOnly then "bind" ++ ",ro" else "bind") (env.ServiceUnitName appId) fs1
        rcases hn : newMountUnit env root (filepath.Join [stage1MntDir, mp.Name.String])
          (filepath.Join [env.RelAppRootfsPath appId, mp.Path]) "bind"
          (if mp.ReadOnly then "bind" ++ ",ro" else "bind") (env.ServiceUnitName appId) fs1
          with ⟨fs2, e2⟩
        rw [hn] at n1 n3
        simp only at n1 n3
        have frame2 : ∀ q, (∀ m ∈ mp :: mps,
            q ≠ unitFile env root (filepath.Join [env.RelAppRootfsPath appId, m.Path])) →
            fs2.readFile q = fs.readFile q := by
          intro q hq
          rw [n3 q (hq mp (by simp)), mr]
        cases e2 with
        | some err => exact ⟨fun d hd => n1 ▸ hm1 d hd, frame2⟩
        | none =>
          simp only
          obtain ⟨i1, i2⟩ := ih fs2
          refine ⟨fun d hd => i1 d (n1 ▸ hm1 d hd), fun q hq => ?_⟩
          rw [i2 q (fun m hm => hq m (List.mem_cons_of_mem _ hm))]
          exact frame2 q hq

/-- C11, as stated, fails: the sample application declares the mount of `data` before
the mount of the undefined volume `logs`; `appToSystemdMountUnits` returns the
configuration error, but the unit of the first mount, which was not there
before, has been written and stays. -/
theorem appToSystemdMountUnits_artifacts_counterexample :
    wiredRoot.isDir "/pod/mnt/logs" = false ∧
    (appToSystemdMountUnits sampleEnv "/pod" sampleApp [dataMount, logsMount] wiredRoot).2 =
      some (.errorf
        "app requires a volume that is not defined in Pod (try --volume=logs,kind=empty)!") ∧
    wiredRoot.readFile
      "/pod/usr/lib/systemd/system/opt-stage2-4f2a-rootfs-var-data.mount" = none ∧
    ((appToSystemdMountUnits sampleEnv "/pod" sampleApp [dataMount, logsMount]
        wiredRoot).1.readFile
      "/pod/usr/lib/systemd/system/opt-stage2-4f2a-rootfs-var-data.mount").isSome = true := by
  decide

end stage1

namespace stage1

open os types unit

/-- `newMountUnit` when the unit file cannot be opened. -/
theorem newMountUnit_open_error (env : Env) (root what where_ fsType options requiredBy : String)
    (fs : FS) (e : PathError) (h : fs.OpenFile (unitFile env root where_) = .error e) :
    newMountUnit env root what where_ fsType options requiredBy fs =
      (fs, some (.errorf ("failed to create service unit file " ++
        env.Quote (env.UnitNamePathEscape (where_ ++ ".mount")) ++ ": " ++ e.Error))) := by
  unfold newMountUnit
  simp only [h]

/-- `newMountUnit` when the unit file is opened and cannot be written. -/
theorem newMountUnit_write_error (env : Env) (root what where_ fsType options requiredBy : String)
    (fs fs1 : FS) (e : PathError) (ho : fs.OpenFile (unitFile env root where_) = .ok fs1)
    (hc : fs1.Copy (unitFile env root where_)
      (env.Serialize (mountUnitOptions what where_ fsType options requiredBy)) = .error e) :
    newMountUnit env root what where_ fsType options requiredBy fs =
      (fs1, some (.errorf ("failed to write service unit file " ++
        env.Quote (env.UnitNamePathEscape (where_ ++ ".mount")) ++ ": " ++ e.Error))) := by
  unfold newMountUnit
  simp only [ho, hc]

/-- C16: when opening or writing the unit file fails inside `newMountUnit`, the error
returned has the message `failed to create` (or `write`) `service unit file`
followed by the escaped unit name as the verb `%q` renders it, `: ` and the
message of the I/O error; `podToSystemdHostMountUnits` and
`appToSystemdMountUnits` return the error of `newMountUnit` with the state it
left, whatever volumes or mount points come later. -/
theorem newMountUnit_failure_propagates (env : Env) (root : String) :
    (∀ (what where_ fsType options requiredBy : String) (fs : FS) (e : PathError),
      fs.OpenFile (unitFile env root where_) = .error e →
      ∃ err, newMountUnit env root what where_ fsType options requiredBy fs = (fs, some err) ∧
        err.Error = "failed to create service unit file " ++
          env.Quote (env.UnitNamePathEscape (where_ ++ ".mount")) ++ ": " ++ e.Error) ∧
    (∀ (what where_ fsType options requiredBy : String) (fs fs1 : FS) (e : PathError),
      fs.OpenFile (unitFile env root where_) = .ok fs1 →
      fs1.Copy (unitFile env root where_)
        (env.Serialize (mountUnitOptions what where_ fsType options requiredBy)) = .error e →
      ∃ err, newMountUnit env root what where_ fsType options requiredBy fs = (fs1, some err) ∧
        err.Error = "failed to write service unit file " ++
          env.Quote (env.UnitNamePathEscape (where_ ++ ".mount")) ++ ": " ++ e.Error) ∧
    (∀ (pre post : List Volume) (vol : Volume) (fs fs1 fs2 fs3 : FS) (err : GoError),
      podToSystemdHostMountUnits env root pre fs = (fs1, none) →
      MkdirAll fs1 (filepath.Join [root, "/mnt/", vol.Name.String]) = (fs2, none) →
      vol.Kind = "host" →
      newMountUnit env root vol.Name.String ("/mnt/" ++ vol.Name.String) "9p" "trans=virtio"
        "default.target" fs2 = (fs3, some err) →
      podToSystemdHostMountUnits env root (pre ++ vol :: post) fs = (fs3, some err)) ∧
    (∀ (appId : Hash) (pre post : List MountPoint) (mp : MountPoint) (fs fs1 fs2 fs3 : FS)
      (err : GoError),
      appToSystemdMountUnits env root appId pre fs = (fs1, none) →
      IsNotExist (fs1.Stat (filepath.Join [root, "/mnt/" ++ mp.Name.String])) = false →
      (if IsNotExist (fs1.Stat (filepath.Join [root,
          filepath.Join [env.RelAppRootfsPath appId, mp.Path]])) then
        MkdirAll fs1 (filepath.Join [root,
          filepath.Join [env.RelAppRootfsPath appId, mp.Path]])
        else (fs1, none)) = (fs2, none) →
      newMountUnit env root ("/mnt/" ++ mp.Name.String)
        (filepath.Join [env.RelAppRootfsPath appId, mp.Path]) "bind"
        (if mp.ReadOnly then "bind,ro" else "bind") (env.ServiceUnitName appId) fs2 =
          (fs3, some err) →
      appToSystemdMountUnits env root appId (pre ++ mp :: post) fs = (fs3, some err)) := by
  refine ⟨?_, ?_, ?_, ?_⟩
  · intro what where_ fsType options requiredBy fs e h
    exact ⟨_, newMountUnit_open_error env root what where_ fsType options requiredBy fs e h, rfl⟩
  · intro what where_ fsType options requiredBy fs fs1 e ho hc
    exact ⟨_, newMountUnit_write_error env root what where_ fsType options requiredBy fs fs1 e
      ho hc, rfl⟩
  · intro pre post vol fs fs1 fs2 fs3 err hpre hmk hk hn
    rw [podToSystemdHostMountUnits_append, hpre]
    simp only
    rw [podToSystemdHostMountUnits_cons]
    have hmk' : MkdirAll fs1 (volumeDir root vol.Name) = (fs2, none) := hmk
    rw [hmk']
    simp only [hk, if_true]
    rw [Join_stage1MntDir, hn]
  · intro appId pre post mp fs fs1 fs2 fs3 err hpre hsrc hmade hn
    rw [appToSystemdMountUnits_append, hpre]
    simp only
    rw [appToSystemdMountUnits_cons, Join_stage1MntDir, hsrc]
    simp only [Bool.false_eq_true, if_false]
    rw [hmade]
    simp only
    have hopt : (if mp.ReadOnly = true then "bind" ++ ",ro" else "bind") =
        (if mp.ReadOnly = true then "bind,ro" else "bind") := by
      split <;> rfl
    rw [hopt, hn]

set_option maxRecDepth 10000 in
/-- C16 on a pod root without unit directory, where opening the unit of `data`
fails, and on a disk where writing it fails: the error comes back and the
volume `scratch` behind has got no directory. -/
theorem newMountUnit_failure_propagates_witness :
    (podToSystemdHostMountUnits sampleEnv "/pod" ([] ++ dataVolume :: [scratchVolume])
        rootWithoutUnitDir).2 =
      some (.errorf ("failed to create service unit file 'mnt-data.mount': " ++
        "open /pod/usr/lib/systemd/system/mnt-data.mount: no such file or directory")) ∧
    (podToSystemdHostMountUnits sampleEnv "/pod" ([] ++ dataVolume :: [scratchVolume])
        rootWithoutUnitDir).1.isDir "/pod/mnt/scratch" = false ∧
    (podToSystemdHostMountUnits sampleEnv "/pod" ([] ++ dataVolume :: [scratchVolume])
        rootWithFaultyUnit).2 =
      some (.errorf ("failed to write service unit file 'mnt-data.mount': " ++
        "write /pod/usr/lib/systemd/system/mnt-data.mount: input/output error")) :=
  have h1 := (newMountUnit_failure_propagates sampleEnv "/pod").2.2.1 [] [scratchVolume]
    dataVolume rootWithoutUnitDir rootWithoutUnitDir
    (MkdirAll rootWithoutUnitDir "/pod/mnt/data").1
    (MkdirAll rootWithoutUnitDir "/pod/mnt/data").1
    (.errorf ("failed to create service unit file 'mnt-data.mount': " ++
      "open /pod/usr/lib/systemd/system/mnt-data.mount: no such file or directory"))
    rfl (by decide) rfl (by decide)
  have h2 := (newMountUnit_failure_propagates sampleEnv "/pod").2.2.1 [] [scratchVolume]
    dataVolume rootWithFaultyUnit rootWithFaultyUnit
    (MkdirAll rootWithFaultyUnit "/pod/mnt/data").1
    (newMountUnit sampleEnv "/pod" "data" "/mnt/data" "9p" "trans=virtio" "default.target"
      (MkdirAll rootWithFaultyUnit "/pod/mnt/data").1).1
    (.errorf ("failed to write service unit file 'mnt-data.mount': " ++
      "write /pod/usr/lib/systemd/system/mnt-data.mount: input/output error"))
    rfl (by decide) rfl (by decide)
  ⟨by rw [h1], by rw [h1]; decide, by rw [h2]⟩

end stage1

namespace stage1

open os types unit

/-- What the turn of one mount point does when it ends without error: the unit
file holds the serialization of its options written over the former content,
and the destination is a directory when `Stat` had found one or had found
nothing. -/
theorem appToSystemdMountUnits_step (env : Env) (root : String) (appId : Hash)
    (mp : MountPoint) (fs1 fs2 : FS)
    (h : appToSystemdMountUnits env root appId [mp] fs1 = (fs2, none)) :
    fs2.readFile (unitFile env root (filepath.Join [env.RelAppRootfsPath appId, mp.Path])) =
      some (overwrite
        ((fs1.readFile (unitFile env root
          (filepath.Join [env.RelAppRootfsPath appId, mp.Path]))).getD "")
        (env.Serialize (mountUnitOptions ("/mnt/" ++ mp.Name.String)
          (filepath.Join [env.RelAppRootfsPath appId, mp.Path]) "bind"
          (if mp.ReadOnly then "bind,ro" else "bind") (env.ServiceUnitName appId)))) ∧
    (IsNotExist (fs1.Stat (filepath.Join [root,
        filepath.Join [env.RelAppRootfsPath appId, mp.Path]])) = true ∨
      fs1.isDir (filepath.Join [root,
        filepath.Join [env.RelAppRootfsPath appId, mp.Path]]) = true →
      fs2.isDir (filepath.Join [root,
        filepath.Join [env.RelAppRootfsPath appId, mp.Path]]) = true) := by
  rw [appToSystemdMountUnits_cons, Join_stage1MntDir] at h
  have hopt : (if mp.ReadOnly = true then "bind" ++ ",ro" else "bind") =
      (if mp.ReadOnly = true then "bind,ro" else "bind") := by
    split <;> rfl
  rw [hopt] at h
  split at h
  · simp at h
  · have hmade : (if IsNotExist (fs1.Stat (filepath.Join [root,
          filepath.Join [env.RelAppRootfsPath appId, mp.Path]])) then
        MkdirAll fs1 (filepath.Join [root,
          filepath.Join [env.RelAppRootfsPath appId, mp.Path]])
        else (fs1, none)).1.files = fs1.files ∧
        ((if IsNotExist (fs1.Stat (filepath.Join [root,
          filepath.Join [env.RelAppRootfsPath appId, mp.Path]])) then
        MkdirAll fs1 (filepath.Join [root,
          filepath.Join [env.RelAppRootfsPath appId, mp.Path]])
        else (fs1, none)).2 = none →
        (IsNotExist (fs1.Stat (filepath.Join [root,
          filepath.Join [env.RelAppRootfsPath appId, mp.Path]])) = true ∨
        fs1.isDir (filepath.Join [root,
          filepath.Join [env.RelAppRootfsPath appId, mp.Path]]) = true) →
        (filepath.Join [root, filepath.Join [env.RelAppRootfsPath appId, mp.Path]]) ∈
          (if IsNotExist (fs1.Stat (filepath.Join [root,
          filepath.Join [env.RelAppRootfsPath appId, mp.Path]])) then
        MkdirAll fs1 (filepath.Join [root,
          filepath.Join [env.RelAppRootfsPath appId, mp.Path]])
        else (fs1, none)).1.dirs) := by
      split
      · exact ⟨MkdirAll_files fs1 _, fun hok _ => MkdirAll_ok fs1 _ hok⟩
      · rename_i hne
        refine ⟨rfl, fun _ hcase => ?_⟩
        rcases hcase with hc | hc
        · exact absurd hc hne
        · simpa [FS.isDir] using hc
    rcases hm : (if IsNotExist (fs1.Stat (filepath.Join [root,
          filepath.Join [env.RelAppRootfsPath appId, mp.Path]])) then
        MkdirAll fs1 (filepath.Join [root,
          filepath.Join [env.RelAppRootfsPath appId, mp.Path]])
        else (fs1, none)) with ⟨fsm, e⟩
    rw [hm] at h hmade
    obtain ⟨hm1, hm2⟩ := hmade
    simp only at hm1 hm2
    cases e with
    | some err => simp at h
    | none =>
      simp only at h
      obtain ⟨n1, _, _, n4⟩ := newMountUnit_spec env root ("/mnt/" ++ mp.Name.String)
        (filepath.Join [env.RelAppRootfsPath appId, mp.Path]) "bind"
        (if mp.ReadOnly then "bind,ro" else "bind") (env.ServiceUnitName appId) fsm
      rcases hn : newMountUnit env root ("/mnt/" ++ mp.Name.String)
        (filepath.Join [env.RelAppRootfsPath appId, mp.Path]) "bind"
        (if mp.ReadOnly then "bind,ro" else "bind") (env.ServiceUnitName appId) fsm
        with ⟨fsn, e2⟩
      rw [hn] at h n1 n4
      simp only at n1 n4
      cases e2 with
      | some err => simp at h
      | none =>
        simp only at h
        have hfs : fsn = fs2 := (Prod.mk.inj h).1
        subst hfs
        refine ⟨?_, fun hcase => ?_⟩
        · rw [n4 rfl]
          simp only [FS.readFile, hm1]
        · have := hm2 rfl hcase
          simpa [FS.isDir, n1] using this

/-- C13: for a mount point wired by `appToSystemdMountUnits` (its turn ended without
error), the unit written holds the option `Options` of section `Mount` once, with
the value `bind,ro` when the mount point is read-only and `bind` when it is not. -/
theorem appToSystemdMountUnits_options (env : Env) (root : String) (appId : Hash)
    (pre : List MountPoint) (mp : MountPoint) (fs fs1 fs2 : FS)
    (hpre : appToSystemdMountUnits env root appId pre fs = (fs1, none))
    (hmp : appToSystemdMountUnits env root appId (pre ++ [mp]) fs = (fs2, none)) :
    ∃ opts : List UnitOption,
      opts = mountUnitOptions ("/mnt/" ++ mp.Name.String)
        (filepath.Join [env.RelAppRootfsPath appId, mp.Path]) "bind"
        (if mp.ReadOnly then "bind,ro" else "bind") (env.ServiceUnitName appId) ∧
      fs2.readFile (unitFile env root (filepath.Join [env.RelAppRootfsPath appId, mp.Path])) =
        some (overwrite
          ((fs1.readFile (unitFile env root
            (filepath.Join [env.RelAppRootfsPath appId, mp.Path]))).getD "")
          (env.Serialize opts)) ∧
      (opts.filter fun o => o.Name = "Options") =
        [NewUnitOption "Mount" "Options" (if mp.ReadOnly then "bind,ro" else "bind")] ∧
      (mp.ReadOnly = true → NewUnitOption "Mount" "Options" "bind,ro" ∈ opts) ∧
      (mp.ReadOnly = false → NewUnitOption "Mount" "Options" "bind" ∈ opts) := by
  rw [appToSystemdMountUnits_append, hpre] at hmp
  obtain ⟨h1, _⟩ := appToSystemdMountUnits_step env root appId mp fs1 fs2 hmp
  refine ⟨_, rfl, h1, ?_, ?_, ?_⟩
  · unfold mountUnitOptions
    by_cases hr : env.ServiceUnitName appId = ""
    · simp [hr, NewUnitOption, List.filter]
    · simp [hr, NewUnitOption, List.filter]
  · intro hro
    unfold mountUnitOptions
    by_cases hr : env.ServiceUnitName appId = ""
    · simp [hro, hr]
    · simp [hro, hr]
  · intro hro
    unfold mountUnitOptions
    by_cases hr : env.ServiceUnitName appId = ""
    · simp [hro, hr]
    · simp [hro, hr]

set_option maxRecDepth 10000 in
/-- C13 at the sample application: the read-only mount of `data` gets `bind,ro`. -/
theorem appToSystemdMountUnits_options_witness :
    ∃ opts : List UnitOption,
      opts = mountUnitOptions ("/mnt/" ++ "data") "/opt/stage2/4f2a/rootfs/var/data" "bind"
        "bind,ro" "4f2a.service" ∧
      (appToSystemdMountUnits sampleEnv "/pod" sampleApp ([] ++ [dataMount]) wiredRoot).1.readFile
          "/pod/usr/lib/systemd/system/opt-stage2-4f2a-rootfs-var-data.mount" =
        some (overwrite "" (sampleEnv.Serialize opts)) ∧
      (opts.filter fun o => o.Name = "Options") = [NewUnitOption "Mount" "Options" "bind,ro"] ∧
      (dataMount.ReadOnly = true → NewUnitOption "Mount" "Options" "bind,ro" ∈ opts) ∧
      (dataMount.ReadOnly = false → NewUnitOption "Mount" "Options" "bind" ∈ opts) :=
  appToSystemdMountUnits_options sampleEnv "/pod" sampleApp [] dataMount wiredRoot wiredRoot
    (appToSystemdMountUnits sampleEnv "/pod" sampleApp ([] ++ [dataMount]) wiredRoot).1
    rfl (by decide)

/-- C14, as stated, fails: in the state `fileAtDestination` a regular file stands
where `dataMount` is to be mounted; `appToSystemdMountUnits` wires the mount
point without error and the destination is not a directory afterwards. -/
theorem appToSystemdMountUnits_destination_counterexample :
    (appToSystemdMountUnits sampleEnv "/pod" sampleApp [dataMount] fileAtDestination).2 = none ∧
    ((appToSystemdMountUnits sampleEnv "/pod" sampleApp [dataMount]
        fileAtDestination).1.readFile
      "/pod/usr/lib/systemd/system/opt-stage2-4f2a-rootfs-var-data.mount").isSome = true ∧
    (appToSystemdMountUnits sampleEnv "/pod" sampleApp [dataMount] fileAtDestination).1.isDir
      "/pod/opt/stage2/4f2a/rootfs/var/data" = false ∧
    (appToSystemdMountUnits sampleEnv "/pod" sampleApp [dataMount] fileAtDestination).1.isFile
      "/pod/opt/stage2/4f2a/rootfs/var/data" = true := by
  decide

/-- C14 (amended): for a mount point wired by `appToSystemdMountUnits` without error,
of an application whose service unit name is not empty, the unit written has
`What=/mnt/<name>`, `Where=` the relative root file system of the application
joined with the path of the mount point, `Type=bind` and `RequiredBy=` the
service unit of the application; and the destination `<root>/<Where>` is a
directory afterwards when it was one before, or when `os.Stat` reported before
that it does not exist (`os.IsNotExist` holds of its error: nothing is at the
path and no parent of it is a regular file), in which case it is made. -/
theorem appToSystemdMountUnits_unit (env : Env) (root : String) (appId : Hash)
    (pre : List MountPoint) (mp : MountPoint) (fs fs1 fs2 : FS)
    (hsvc : env.ServiceUnitName appId ≠ "")
    (hpre : appToSystemdMountUnits env root appId pre fs = (fs1, none))
    (hmp : appToSystemdMountUnits env root appId (pre ++ [mp]) fs = (fs2, none)) :
    fs2.readFile (unitFile env root (filepath.Join [env.RelAppRootfsPath appId, mp.Path])) =
      some (overwrite
        ((fs1.readFile (unitFile env root
          (filepath.Join [env.RelAppRootfsPath appId, mp.Path]))).getD "")
        (env.Serialize [
          NewUnitOption "Unit" "Description" ("Mount unit for " ++
            filepath.Join [env.RelAppRootfsPath appId, mp.Path]),
          NewUnitOption "Unit" "DefaultDependencies" "false",
          NewUnitOption "Mount" "What" ("/mnt/" ++ mp.Name.String),
          NewUnitOption "Mount" "Where" (filepath.Join [env.RelAppRootfsPath appId, mp.Path]),
          NewUnitOption "Mount" "Type" "bind",
          NewUnitOption "Mount" "Options" (if mp.ReadOnly then "bind,ro" else "bind"),
          NewUnitOption "Install" "RequiredBy" (env.ServiceUnitName appId)])) ∧
    (fs1.isDir (filepath.Join [root,
        filepath.Join [env.RelAppRootfsPath appId, mp.Path]]) = true →
      fs2.isDir (filepath.Join [root,
        filepath.Join [env.RelAppRootfsPath appId, mp.Path]]) = true) ∧
    (IsNotExist (fs1.Stat (filepath.Join [root,
        filepath.Join [env.RelAppRootfsPath appId, mp.Path]])) = true →
      fs2.isDir (filepath.Join [root,
        filepath.Join [env.RelAppRootfsPath appId, mp.Path]]) = true) ∧
    (IsNotExist (fs1.Stat (filepath.Join [root,
        filepath.Join [env.RelAppRootfsPath appId, mp.Path]])) = true ↔
      fs1.isDir (filepath.Join [root,
        filepath.Join [env.RelAppRootfsPath appId, mp.Path]]) = false ∧
      fs1.isFile (filepath.Join [root,
        filepath.Join [env.RelAppRootfsPath appId, mp.Path]]) = false ∧
      ∀ a ∈ ancestors (filepath.Join [root,
          filepath.Join [env.RelAppRootfsPath appId, mp.Path]]).length
        (filepath.Join [root, filepath.Join [env.RelAppRootfsPath appId, mp.Path]]),
        fs1.isFile a = false) := by
  rw [appToSystemdMountUnits_append, hpre] at hmp
  obtain ⟨h1, h2⟩ := appToSystemdMountUnits_step env root appId mp fs1 fs2 hmp
  refine ⟨?_, fun hd => h2 (Or.inr hd), fun hn => h2 (Or.inl hn), IsNotExist_Stat_iff _ _⟩
  rw [h1]
  unfold mountUnitOptions
  simp [hsvc]

set_option maxRecDepth 10000 in
/-- C14 (amended) at the sample application: the unit of the mount of `data`, and
its destination, made by the function. -/
theorem appToSystemdMountUnits_unit_witness :
    (appToSystemdMountUnits sampleEnv "/pod" sampleApp ([] ++ [dataMount]) wiredRoot).1.readFile
        "/pod/usr/lib/systemd/system/opt-stage2-4f2a-rootfs-var-data.mount" =
      some ("[Unit]\nDescription=Mount unit for /opt/stage2/4f2a/rootfs/var/data\n" ++
        "DefaultDependencies=false\n[Mount]\nWhat=/mnt/data\n" ++
        "Where=/opt/stage2/4f2a/rootfs/var/data\nType=bind\nOptions=bind,ro\n" ++
        "[Install]\nRequiredBy=4f2a.service\n") ∧
    (appToSystemdMountUnits sampleEnv "/pod" sampleApp ([] ++ [dataMount]) wiredRoot).1.isDir
      "/pod/opt/stage2/4f2a/rootfs/var/data" = true :=
  have h := appToSystemdMountUnits_unit sampleEnv "/pod" sampleApp [] dataMount wiredRoot
    wiredRoot (appToSystemdMountUnits sampleEnv "/pod" sampleApp ([] ++ [dataMount]) wiredRoot).1
    (by decide) rfl (by decide)
  ⟨h.1, h.2.2.1 (by decide)⟩

end stage1

namespace os

/-- Two writes from offset 0, one after the other, are one write of the first
data overwritten by the second. -/
theorem overwrite_overwrite (x d m : String) :
    overwrite (overwrite x d) m = overwrite x (overwrite d m) := by
  apply String.ext
  simp only [overwrite, String.data_append, String.length, List.drop_append_eq_append_drop,
    List.length_append, List.length_drop, List.drop_drop, List.append_assoc]
  congr 2
  congr 1
  omega

/-- Writing the same data twice is writing it once. -/
theorem overwrite_idem (x d : String) : overwrite (overwrite x d) d = overwrite x d := by
  rw [overwrite_overwrite, overwrite_self]

/-- A sequence of writes from offset 0 is one write of what the sequence makes of
the empty file. -/
theorem foldl_overwrite (x : String) (ds : List String) :
    ds.foldl overwrite x = overwrite x (ds.foldl overwrite "") := by
  induction ds generalizing x with
  | nil => simp [overwrite_empty_data]
  | cons d ds ih =>
    simp only [List.foldl_cons]
    rw [ih (overwrite x d), ih (overwrite "" d), overwrite_empty_old, overwrite_overwrite]

/-- Repeating a sequence of writes changes nothing. -/
theorem foldl_overwrite_idem (x : String) (ds : List String) :
    ds.foldl overwrite (ds.foldl overwrite x) = ds.foldl overwrite x := by
  rw [foldl_overwrite (ds.foldl overwrite x), foldl_overwrite x, overwrite_idem]

/-- A sequence of writes of the same data is one write of it. -/
theorem foldl_overwrite_const (x d : String) (ds : List String) (hne : ds ≠ [])
    (h : ∀ e ∈ ds, e = d) : ds.foldl overwrite x = overwrite x d := by
  induction ds generalizing x with
  | nil => exact absurd rfl hne
  | cons e ds ih =>
    have he : e = d := h e (by simp)
    subst he
    simp only [List.foldl_cons]
    by_cases hds : ds = []
    · subst hds
      rfl
    · rw [ih (overwrite x e) hds (fun a ha => h a (List.mem_cons_of_mem _ ha)), overwrite_idem]

/-- A path that `Stat` did not find is not a directory. -/
theorem Stat_error_not_mem (fs : FS) (p : String) (e : PathError) (h : fs.Stat p = .error e) :
    p ∉ fs.dirs := by
  intro hp
  rw [Stat_of_mem_dirs fs p hp] at h
  simp at h

/-- `Mkdir` makes a directory only where nothing is and under a directory. -/
theorem Mkdir_ok_cond (fs fs' : FS) (p : String) (h : fs.Mkdir p = .ok fs') :
    p ∉ fs.dirs ∧ fs.isFile p = false ∧ ∀ q, parent p = some q → q ∈ fs.dirs := by
  unfold FS.Mkdir at h
  split at h
  · simp at h
  · rename_i hex
    simp only [Bool.or_eq_true, not_or, Bool.not_eq_true] at hex
    refine ⟨by simpa [FS.isDir] using hex.1, hex.2, fun q hq => ?_⟩
    rw [hq] at h
    simp only at h
    split at h
    · rename_i hd
      simpa [FS.isDir] using hd
    · split at h <;> simp at h

/-- The directories after the last step of `MkdirAll`: those before and, at
most, the path, which was then neither a directory nor a file and whose parent
was a directory. -/
theorem mkdirLast_new (p : String) (up : FS × Option PathError) :
    ∀ d ∈ (mkdirLast p up).1.dirs, d ∈ up.1.dirs ∨
      (d = p ∧ p ∉ up.1.dirs ∧ up.1.isFile p = false ∧
        ∀ q, parent p = some q → q ∈ up.1.dirs) := by
  obtain ⟨fs1, e⟩ := up
  cases e with
  | some err => exact fun d hd => Or.inl hd
  | none =>
    unfold mkdirLast
    simp only
    split
    · rename_i fs2 h2
      have hc := Mkdir_ok_cond _ _ _ h2
      have := Mkdir_ok _ _ _ h2
      subst this
      intro d hd
      simp only [List.mem_append, List.mem_singleton] at hd
      rcases hd with hd | hd
      · exact Or.inl hd
      · exact Or.inr ⟨hd, hc⟩
    · split <;> exact fun d hd => Or.inl hd

/-- The directories after `MkdirAll`: those before and paths that were missing on
the way from the path up, none of which was a file; and a directory made has
its parent among the directories. -/
theorem mkdirAll_new (fuel : Nat) (fs : FS) (p : String) :
    (∀ d ∈ (mkdirAll fuel fs p).1.dirs, d ∈ fs.dirs ∨
      (Missing fs.dirs p d ∧ fs.isFile d = false)) ∧
    (∀ d ∈ (mkdirAll fuel fs p).1.dirs, d ∉ fs.dirs →
      ∀ q, parent d = some q → q ∈ (mkdirAll fuel fs p).1.dirs) := by
  have last : ∀ (e : PathError), fs.Stat p = .error e →
      (∀ d ∈ (mkdirLast p (fs, none)).1.dirs, d ∈ fs.dirs ∨
        (Missing fs.dirs p d ∧ fs.isFile d = false)) ∧
      (∀ d ∈ (mkdirLast p (fs, none)).1.dirs, d ∉ fs.dirs →
        ∀ q, parent d = some q → q ∈ (mkdirLast p (fs, none)).1.dirs) := by
    intro e he
    have hn := mkdirLast_new p (fs, none)
    have hmono := (mkdirLast_spec p (fs, none)).2.2.1
    refine ⟨fun d hd => ?_, fun d hd hnd q hq => ?_⟩
    · rcases hn d hd with h | ⟨rfl, h1, h2, _⟩
      · exact Or.inl h
      · exact Or.inr ⟨Missing.self h1, h2⟩
    · rcases hn d hd with h | ⟨rfl, _, _, h3⟩
      · exact absurd h hnd
      · exact hmono q (h3 q hq)
  induction fuel generalizing fs p with
  | zero =>
    unfold mkdirAll
    split
    · exact ⟨fun d hd => Or.inl hd, fun d hd hnd => absurd hd hnd⟩
    · exact ⟨fun d hd => Or.inl hd, fun d hd hnd => absurd hd hnd⟩
    · rename_i e he
      exact last e he
  | succ n ih =>
    unfold mkdirAll
    split
    · exact ⟨fun d hd => Or.inl hd, fun d hd hnd => absurd hd hnd⟩
    · exact ⟨fun d hd => Or.inl hd, fun d hd hnd => absurd hd hnd⟩
    · rename_i e he
      have hp : p ∉ fs.dirs := Stat_error_not_mem fs p e he
      split
      · rename_i q hq
        obtain ⟨i1, i2⟩ := ih fs q (fun e he => by
          -- the statement for the last step at `q`
          have hn := mkdirLast_new q (fs, none)
          have hmono := (mkdirLast_spec q (fs, none)).2.2.1
          refine ⟨fun d hd => ?_, fun d hd hnd q' hq' => ?_⟩
          · rcases hn d hd with h | ⟨rfl, h1, h2, _⟩
            · exact Or.inl h
            · exact Or.inr ⟨Missing.self h1, h2⟩
          · rcases hn d hd with h | ⟨rfl, _, _, h3⟩
            · exact absurd h hnd
            · exact hmono q' (h3 q' hq'))
        have hn := mkdirLast_new p (mkdirAll n fs q)
        have hmono := (mkdirLast_spec p (mkdirAll n fs q)).2.2.1
        have hfiles := (mkdirAll_spec n fs q).1
        have hsub := (mkdirAll_spec n fs q).2.2.1
        refine ⟨fun d hd => ?_, fun d hd hnd q' hq' => ?_⟩
        · rcases hn d hd with h | ⟨rfl, h1, h2, _⟩
          · rcases i1 d h with h | ⟨hm, hf⟩
            · exact Or.inl h
            · exact Or.inr ⟨Missing.up hp hq hm, hf⟩
          · refine Or.inr ⟨Missing.self hp, ?_⟩
            simpa [FS.isFile, FS.readFile, hfiles] using h2
        · rcases hn d hd with h | ⟨rfl, _, _, h3⟩
          · exact hmono q' (i2 d h hnd q' hq')
          · exact hmono q' (h3 q' hq')
      · exact last e he

/-- `MkdirAll` of a directory that exists does nothing. -/
theorem MkdirAll_of_mem (fs : FS) (p : String) (h : p ∈ fs.dirs) : MkdirAll fs p = (fs, none) := by
  have hs := Stat_of_mem_dirs fs p h
  unfold MkdirAll
  cases p.length with
  | zero => unfold mkdirAll; rw [hs]
  | succ n => unfold mkdirAll; rw [hs]

/-- A path missing when more directories exist is missing when fewer do. -/
theorem Missing_mono (S T : List String) (hST : ∀ x ∈ S, x ∈ T) (p d : String)
    (h : Missing T p d) : Missing S p d := by
  induction h with
  | self hp => exact Missing.self (fun hs => hp (hST _ hs))
  | up hp hq _ ih => exact Missing.up (fun hs => hp (hST _ hs)) hq ih

/-- When every directory made since has its parent among the directories, a
path that was missing above a directory of now is a directory now. -/
theorem mem_of_Missing (S T : List String)
    (huc : ∀ d ∈ T, d ∉ S → ∀ q, parent d = some q → q ∈ T) (p d : String) (hp : p ∈ T)
    (h : Missing S p d) : d ∈ T := by
  induction h with
  | self _ => exact hp
  | up hnp hq _ ih => exact ih (huc _ hp hnp _ hq)

end os

namespace stage1

open os types unit

/-- A call of `newMountUnit` without error found no directory at the unit file
and could write to it. -/
theorem newMountUnit_ok_cond (env : Env) (root what where_ fsType options requiredBy : String)
    (fs : FS) (h : (newMountUnit env root what where_ fsType options requiredBy fs).2 = none) :
    unitFile env root where_ ∉ fs.dirs ∧
    (env.Serialize (mountUnitOptions what where_ fsType options requiredBy) = "" ∨
      unitFile env root where_ ∉ fs.faulty) := by
  unfold newMountUnit at h
  simp only at h
  cases ho : fs.OpenFile (unitFile env root where_) with
  | error e => rw [ho] at h; simp at h
  | ok fs1 =>
    rw [ho] at h
    simp only at h
    have hfault := (OpenFile_ok _ _ _ ho).2.1
    constructor
    · intro hd
      unfold FS.OpenFile at ho
      have : fs.isDir (unitFile env root where_) = true := by simpa [FS.isDir] using hd
      rw [if_pos this] at ho
      simp at ho
    · cases hc : fs1.Copy (unitFile env root where_)
          (env.Serialize (mountUnitOptions what where_ fsType options requiredBy)) with
      | error e => rw [hc] at h; simp at h
      | ok fs2 =>
        unfold FS.Copy at hc
        by_cases hd : env.Serialize (mountUnitOptions what where_ fsType options requiredBy) = ""
        · exact Or.inl hd
        · rw [if_neg hd] at hc
          by_cases hf : unitFile env root where_ ∈ fs1.faulty
          · rw [if_pos hf] at hc
            simp at hc
          · exact Or.inr (hfault ▸ hf)

/-- A call of `newMountUnit` on a unit file that exists, is no directory and can
be written returns no error. -/
theorem newMountUnit_ok_of (env : Env) (root what where_ fsType options requiredBy : String)
    (fs : FS) (hd : unitFile env root where_ ∉ fs.dirs)
    (hf : fs.isFile (unitFile env root where_) = true)
    (hw : env.Serialize (mountUnitOptions what where_ fsType options requiredBy) = "" ∨
      unitFile env root where_ ∉ fs.faulty) :
    (newMountUnit env root what where_ fsType options requiredBy fs).2 = none := by
  have ho : fs.OpenFile (unitFile env root where_) = .ok fs := by
    unfold FS.OpenFile
    have : fs.isDir (unitFile env root where_) = false := by simpa [FS.isDir] using hd
    simp [this, hf]
  unfold newMountUnit
  simp only [ho]
  unfold FS.Copy
  rcases hw with hw | hw
  · simp [hw]
  · by_cases hdata : env.Serialize (mountUnitOptions what where_ fsType options requiredBy) = ""
    · simp [hdata]
    · simp [hdata, hw]

/-- A file stays a file through `newMountUnit`. -/
theorem newMountUnit_isFile (env : Env) (root what where_ fsType options requiredBy : String)
    (fs : FS) (q : String) (hq : fs.isFile q = true)
    (hok : (newMountUnit env root what where_ fsType options requiredBy fs).2 = none) :
    (newMountUnit env root what where_ fsType options requiredBy fs).1.isFile q = true := by
  obtain ⟨_, _, n3, n4⟩ := newMountUnit_spec env root what where_ fsType options requiredBy fs
  by_cases h : q = unitFile env root where_
  · subst h
    simp [FS.isFile, n4 hok]
  · simp only [FS.isFile, n3 q h]
    exact hq

/-- The unit writes of a list that starts with a volume. -/
theorem unitWrites_cons (env : Env) (root : String) (v : Volume) (volumes : List Volume)
    (p : String) :
    unitWrites env root (v :: volumes) p =
      if v.Kind = "host" ∧ volumeUnitFile env root v.Name = p then
        volumeUnit env v.Name :: unitWrites env root volumes p
      else unitWrites env root volumes p := by
  unfold unitWrites
  by_cases h : v.Kind = "host" ∧ volumeUnitFile env root v.Name = p
  · simp [List.filter_cons, h]
  · rw [if_neg h, List.filter_cons]
    simp [h]

/-- The content of every file after a run of `podToSystemdHostMountUnits` without
error: the former content (or the empty one) with the unit writes to that
file applied in order. -/
theorem podToSystemdHostMountUnits_readFile (env : Env) (root : String)
    (volumes : List Volume) (fs : FS)
    (hok : (podToSystemdHostMountUnits env root volumes fs).2 = none) (p : String) :
    (podToSystemdHostMountUnits env root volumes fs).1.readFile p =
      if unitWrites env root volumes p = [] then fs.readFile p
      else some ((unitWrites env root volumes p).foldl overwrite ((fs.readFile p).getD "")) := by
  induction volumes generalizing fs with
  | nil => simp [unitWrites, podToSystemdHostMountUnits]
  | cons vol volumes ih =>
    rw [podToSystemdHostMountUnits_cons] at hok ⊢
    have m1 := MkdirAll_files fs (volumeDir root vol.Name)
    rcases hm : MkdirAll fs (volumeDir root vol.Name) with ⟨fs1, e⟩
    rw [hm] at m1 hok
    simp only at m1
    have mr : ∀ q, fs1.readFile q = fs.readFile q := fun q => by
      simp only [FS.readFile, m1]
    cases e with
    | some err => simp at hok
    | none =>
      simp only at hok ⊢
      by_cases hk : vol.Kind = "host"
      · rw [if_pos hk] at hok ⊢
        obtain ⟨_, _, n3, n4⟩ := newMountUnit_spec env root vol.Name.String
          (filepath.Join [stage1MntDir, vol.Name.String]) "9p" "trans=virtio" "default.target" fs1
        rcases hn : newMountUnit env root vol.Name.String
          (filepath.Join [stage1MntDir, vol.Name.String]) "9p" "trans=virtio"
          "default.target" fs1 with ⟨fs2, e2⟩
        rw [hn] at n3 n4 hok
        simp only at n3 n4
        cases e2 with
        | some err => simp at hok
        | none =>
          simp only at hok ⊢
          rw [ih fs2 hok]
          by_cases hp : volumeUnitFile env root vol.Name = p
          · have hw : fs2.readFile p =
                some (overwrite ((fs.readFile p).getD "") (volumeUnit env vol.Name)) := by
              rw [← hp, ← mr]
              exact n4 rfl
            have huw : unitWrites env root (vol :: volumes) p =
                volumeUnit env vol.Name :: unitWrites env root volumes p := by
              rw [unitWrites_cons, if_pos ⟨hk, hp⟩]
            rw [huw, hw, if_neg (List.cons_ne_nil _ _)]
            simp only [Option.getD_some, List.foldl_cons]
            split
            · rename_i hnil
              simp [hnil]
            · rfl
          · have huw : unitWrites env root (vol :: volumes) p = unitWrites env root volumes p := by
              rw [unitWrites_cons, if_neg (fun h => hp h.2)]
            rw [huw, n3 p (fun h => hp h.symm), mr]
      · rw [if_neg hk] at hok ⊢
        have huw : unitWrites env root (vol :: volumes) p = unitWrites env root volumes p := by
          rw [unitWrites_cons, if_neg (fun h => hk h.1)]
        rw [ih fs1 hok, huw, mr]

/-- What a run of `podToSystemdHostMountUnits` without error leaves: files stay
files, a directory made was not a file, and the unit file of every volume of
kind `host` is a file, is not a directory and could be written. -/
theorem podToSystemdHostMountUnits_ok (env : Env) (root : String) (volumes : List Volume)
    (fs : FS) (hok : (podToSystemdHostMountUnits env root volumes fs).2 = none) :
    (∀ q, fs.isFile q = true →
      (podToSystemdHostMountUnits env root volumes fs).1.isFile q = true) ∧
    (∀ d ∈ (podToSystemdHostMountUnits env root volumes fs).1.dirs,
      d ∈ fs.dirs ∨ fs.isFile d = false) ∧
    (∀ v ∈ volumes, v.Kind = "host" →
      (podToSystemdHostMountUnits env root volumes fs).1.isFile
        (volumeUnitFile env root v.Name) = true ∧
      volumeUnitFile env root v.Name ∉ (podToSystemdHostMountUnits env root volumes fs).1.dirs ∧
      (volumeUnit env v.Name = "" ∨ volumeUnitFile env root v.Name ∉ fs.faulty)) := by
  induction volumes generalizing fs with
  | nil => exact ⟨fun q hq => hq, fun d hd => Or.inl hd, by simp⟩
  | cons vol volumes ih =>
    rw [podToSystemdHostMountUnits_cons] at hok ⊢
    have m1 := MkdirAll_files fs (volumeDir root vol.Name)
    have m2 := MkdirAll_faulty fs (volumeDir root vol.Name)
    have m3 := (mkdirAll_new (volumeDir root vol.Name).length fs (volumeDir root vol.Name)).1
    rcases hm : MkdirAll fs (volumeDir root vol.Name) with ⟨fs1, e⟩
    have hm' : mkdirAll (volumeDir root vol.Name).length fs (volumeDir root vol.Name) =
        (fs1, e) := hm
    rw [hm] at m1 m2 hok
    rw [hm'] at m3
    simp only at m1 m2 m3
    have mf : ∀ q, fs1.isFile q = fs.isFile q := fun q => by
      simp only [FS.isFile, FS.readFile, m1]
    have mnew : ∀ d ∈ fs1.dirs, d ∈ fs.dirs ∨ fs.isFile d = false :=
      fun d hd => (m3 d hd).imp id (fun h => h.2)
    cases e with
    | some err => simp at hok
    | none =>
      simp only at hok ⊢
      by_cases hk : vol.Kind = "host"
      · rw [if_pos hk] at hok ⊢
        obtain ⟨n1, n2, _, _⟩ := newMountUnit_spec env root vol.Name.String
          (filepath.Join [stage1MntDir, vol.Name.String]) "9p" "trans=virtio" "default.target" fs1
        have nc := newMountUnit_ok_cond env root vol.Name.String
          (filepath.Join [stage1MntDir, vol.Name.String]) "9p" "trans=virtio" "default.target" fs1
        have nf := fun q hq => newMountUnit_isFile env root vol.Name.String
          (filepath.Join [stage1MntDir, vol.Name.String]) "9p" "trans=virtio" "default.target"
          fs1 q hq
        have nw := (newMountUnit_spec env root vol.Name.String
          (filepath.Join [stage1MntDir, vol.Name.String]) "9p" "trans=virtio" "default.target"
          fs1).2.2.2
        rcases hn : newMountUnit env root vol.Name.String
          (filepath.Join [stage1MntDir, vol.Name.String]) "9p" "trans=virtio"
          "default.target" fs1 with ⟨fs2, e2⟩
        rw [hn] at n1 n2 nc nf nw hok
        simp only at n1 n2 nc nf nw
        cases e2 with
        | some err => simp at hok
        | none =>
          simp only at hok ⊢
          obtain ⟨i1, i2, i3⟩ := ih fs2 hok
          obtain ⟨c1, c2⟩ := nc rfl
          have hfile2 : fs2.isFile (volumeUnitFile env root vol.Name) = true := by
            have := nw rfl
            simp only [FS.isFile]
            unfold volumeUnitFile
            rw [this]
            rfl
          have new2 : ∀ d ∈ (podToSystemdHostMountUnits env root volumes fs2).1.dirs,
              d ∈ fs1.dirs ∨ fs2.isFile d = false := fun d hd => by
            rcases i2 d hd with h | h
            · exact Or.inl (n1 ▸ h)
            · exact Or.inr h
          refine ⟨fun q hq => i1 q (nf q ((mf q).trans hq) rfl), fun d hd => ?_, ?_⟩
          · rcases new2 d hd with h | h
            · exact mnew d h
            · right
              by_contra hc
              have hq : fs.isFile d = true := by simpa using hc
              have := nf d ((mf d).trans hq) rfl
              rw [this] at h
              simp at h
          · intro v hv hvk
            rcases List.mem_cons.mp hv with rfl | hv
            · refine ⟨i1 _ hfile2, fun hd => ?_, ?_⟩
              · rcases new2 _ hd with h | h
                · exact c1 h
                · rw [hfile2] at h
                  simp at h
              · exact c2.imp id (fun h => m2 ▸ h)
            · obtain ⟨j1, j2, j3⟩ := i3 v hv hvk
              exact ⟨j1, j2, j3.imp id (fun h => by rw [n2, m2] at h; exact h)⟩
      · rw [if_neg hk] at hok ⊢
        obtain ⟨i1, i2, i3⟩ := ih fs1 hok
        refine ⟨fun q hq => i1 q ((mf q).trans hq), fun d hd => ?_, ?_⟩
        · rcases i2 d hd with h | h
          · exact mnew d h
          · exact Or.inr ((mf d).symm.trans h)
        · intro v hv hvk
          rcases List.mem_cons.mp hv with rfl | hv
          · exact absurd hvk hk
          · obtain ⟨j1, j2, j3⟩ := i3 v hv hvk
            exact ⟨j1, j2, j3.imp id (fun h => by rw [m2] at h; exact h)⟩

end stage1

namespace stage1

open os types unit

/-- On a state in which every volume has its directory, and every volume of kind
`host` a unit file that is no directory and can be written,
`podToSystemdHostMountUnits` returns no error and makes no directory. -/
theorem podToSystemdHostMountUnits_again (env : Env) (root : String) (volumes : List Volume)
    (fs : FS)
    (h : ∀ v ∈ volumes, volumeDir root v.Name ∈ fs.dirs ∧
      (v.Kind = "host" → fs.isFile (volumeUnitFile env root v.Name) = true ∧
        volumeUnitFile env root v.Name ∉ fs.dirs ∧
        (volumeUnit env v.Name = "" ∨ volumeUnitFile env root v.Name ∉ fs.faulty))) :
    (podToSystemdHostMountUnits env root volumes fs).2 = none ∧
    (podToSystemdHostMountUnits env root volumes fs).1.dirs = fs.dirs := by
  induction volumes generalizing fs with
  | nil => exact ⟨rfl, rfl⟩
  | cons vol volumes ih =>
    rw [podToSystemdHostMountUnits_cons, MkdirAll_of_mem fs _ (h vol (by simp)).1]
    simp only
    by_cases hk : vol.Kind = "host"
    · rw [if_pos hk]
      obtain ⟨h1, h2, h3⟩ := (h vol (by simp)).2 hk
      have hok := newMountUnit_ok_of env root vol.Name.String
        (filepath.Join [stage1MntDir, vol.Name.String]) "9p" "trans=virtio" "default.target" fs
        h2 h1 h3
      obtain ⟨n1, n2, _, _⟩ := newMountUnit_spec env root vol.Name.String
        (filepath.Join [stage1MntDir, vol.Name.String]) "9p" "trans=virtio" "default.target" fs
      have nf := fun q hq => newMountUnit_isFile env root vol.Name.String
        (filepath.Join [stage1MntDir, vol.Name.String]) "9p" "trans=virtio" "default.target"
        fs q hq hok
      rcases hn : newMountUnit env root vol.Name.String
        (filepath.Join [stage1MntDir, vol.Name.String]) "9p" "trans=virtio"
        "default.target" fs with ⟨fs2, e2⟩
      rw [hn] at hok n1 n2 nf
      simp only at hok n1 n2 nf
      subst hok
      simp only
      have := ih fs2 (fun v hv => by
        obtain ⟨a, b⟩ := h v (List.mem_cons_of_mem _ hv)
        refine ⟨n1 ▸ a, fun hvk => ?_⟩
        obtain ⟨b1, b2, b3⟩ := b hvk
        exact ⟨nf _ b1, n1 ▸ b2, b3.imp id (fun x => n2 ▸ x)⟩)
      exact ⟨this.1, this.2.trans n1⟩
    · rw [if_neg hk]
      exact ih fs (fun v hv => h v (List.mem_cons_of_mem _ hv))

/-- C15: a second run of `podToSystemdHostMountUnits` on the same root with the same
volumes, after a first run without error, returns no error, leaves the content
of every file, hence of every mount-unit file, as the first run left it, and
makes no directory. -/
theorem podToSystemdHostMountUnits_idempotent (env : Env) (root : String)
    (volumes : List Volume) (fs fs1 : FS)
    (hfirst : podToSystemdHostMountUnits env root volumes fs = (fs1, none)) :
    (podToSystemdHostMountUnits env root volumes fs1).2 = none ∧
    (∀ p, (podToSystemdHostMountUnits env root volumes fs1).1.readFile p = fs1.readFile p) ∧
    (podToSystemdHostMountUnits env root volumes fs1).1.dirs = fs1.dirs := by
  have hok : (podToSystemdHostMountUnits env root volumes fs).2 = none := by rw [hfirst]
  obtain ⟨hfaulty, _, _, i4⟩ := podToSystemdHostMountUnits_inv env root volumes fs
  obtain ⟨_, _, k3⟩ := podToSystemdHostMountUnits_ok env root volumes fs hok
  have hread := podToSystemdHostMountUnits_readFile env root volumes fs hok
  rw [hfirst] at hfaulty i4 k3 hread
  simp only at hfaulty i4 k3 hread
  obtain ⟨hdirs, _⟩ := i4 trivial
  have hagain := podToSystemdHostMountUnits_again env root volumes fs1 (fun v hv =>
    ⟨hdirs v hv, fun hk => by
      obtain ⟨a, b, c⟩ := k3 v hv hk
      exact ⟨a, b, c.imp id (fun x => hfaulty ▸ x)⟩⟩)
  refine ⟨hagain.1, fun p => ?_, hagain.2⟩
  rw [podToSystemdHostMountUnits_readFile env root volumes fs1 hagain.1 p, hread p]
  by_cases hw : unitWrites env root volumes p = []
  · simp [hw]
  · simp only [hw, if_false, Option.getD_some]
    rw [foldl_overwrite_idem]

set_option maxRecDepth 10000 in
/-- C15 at the sample pod: the second run on the wired root. -/
theorem podToSystemdHostMountUnits_idempotent_witness :
    (podToSystemdHostMountUnits sampleEnv "/pod" podVolumes wiredRoot).2 = none ∧
    (podToSystemdHostMountUnits sampleEnv "/pod" podVolumes wiredRoot).1.readFile
        "/pod/usr/lib/systemd/system/mnt-data.mount" =
      wiredRoot.readFile "/pod/usr/lib/systemd/system/mnt-data.mount" :=
  have h := podToSystemdHostMountUnits_idempotent sampleEnv "/pod" podVolumes podRoot wiredRoot
    (by decide)
  ⟨h.1, h.2.1 _⟩

end stage1

namespace stage1

open os types unit

/-- The directories after `podToSystemdHostMountUnits`: those before and paths
that were missing on the way up from the directory of a volume; and a
directory made has its parent among the directories. -/
theorem podToSystemdHostMountUnits_dirs_new (env : Env) (root : String)
    (volumes : List Volume) (fs : FS) :
    (∀ d ∈ (podToSystemdHostMountUnits env root volumes fs).1.dirs,
      d ∈ fs.dirs ∨ ∃ v ∈ volumes, Missing fs.dirs (volumeDir root v.Name) d) ∧
    (∀ d ∈ (podToSystemdHostMountUnits env root volumes fs).1.dirs, d ∉ fs.dirs →
      ∀ q, parent d = some q → q ∈ (podToSystemdHostMountUnits env root volumes fs).1.dirs) := by
  induction volumes generalizing fs with
  | nil => exact ⟨fun d hd => Or.inl hd, fun d hd hnd => absurd hd hnd⟩
  | cons vol volumes ih =>
    rw [podToSystemdHostMountUnits_cons]
    have m3 := MkdirAll_dirs_mono fs (volumeDir root vol.Name)
    have mn := mkdirAll_new (volumeDir root vol.Name).length fs (volumeDir root vol.Name)
    rcases hm : MkdirAll fs (volumeDir root vol.Name) with ⟨fs1, e⟩
    have hm' : mkdirAll (volumeDir root vol.Name).length fs (volumeDir root vol.Name) =
        (fs1, e) := hm
    rw [hm] at m3
    rw [hm'] at mn
    simp only at m3 mn
    obtain ⟨mn1, mn2⟩ := mn
    have step1 : ∀ d ∈ fs1.dirs,
        d ∈ fs.dirs ∨ ∃ v ∈ vol :: volumes, Missing fs.dirs (volumeDir root v.Name) d :=
      fun d hd => (mn1 d hd).imp id (fun h => ⟨vol, by simp, h.1⟩)
    -- what holds for a later state whose directories come from a run on the rest
    have rest : ∀ fs2 : FS, fs2.dirs = fs1.dirs →
        (∀ d ∈ (podToSystemdHostMountUnits env root volumes fs2).1.dirs,
          d ∈ fs.dirs ∨ ∃ v ∈ vol :: volumes, Missing fs.dirs (volumeDir root v.Name) d) ∧
        (∀ d ∈ (podToSystemdHostMountUnits env root volumes fs2).1.dirs, d ∉ fs.dirs →
          ∀ q, parent d = some q →
            q ∈ (podToSystemdHostMountUnits env root volumes fs2).1.dirs) := by
      intro fs2 h2
      obtain ⟨i1, i2⟩ := ih fs2
      have imono := (podToSystemdHostMountUnits_inv env root volumes fs2).2.1
      rw [h2] at i1 i2 imono
      refine ⟨fun d hd => ?_, fun d hd hnd q hq => ?_⟩
      · rcases i1 d hd with h | ⟨v, hv, hmiss⟩
        · exact step1 d h
        · exact Or.inr ⟨v, List.mem_cons_of_mem _ hv, Missing_mono _ _ m3 _ _ hmiss⟩
      · by_cases h1 : d ∈ fs1.dirs
        · exact imono q (mn2 d h1 hnd q hq)
        · exact i2 d hd h1 q hq
    cases e with
    | some err => exact ⟨step1, mn2⟩
    | none =>
      simp only
      by_cases hk : vol.Kind = "host"
      · rw [if_pos hk]
        obtain ⟨n1, _, _, _⟩ := newMountUnit_spec env root vol.Name.String
          (filepath.Join [stage1MntDir, vol.Name.String]) "9p" "trans=virtio" "default.target" fs1
        rcases hn : newMountUnit env root vol.Name.String
          (filepath.Join [stage1MntDir, vol.Name.String]) "9p" "trans=virtio"
          "default.target" fs1 with ⟨fs2, e2⟩
        rw [hn] at n1
        simp only at n1
        cases e2 with
        | some err =>
          simp only
          rw [n1]
          exact ⟨step1, mn2⟩
        | none => exact rest fs2 n1
      · rw [if_neg hk]
        exact rest fs1 rfl

/-- C20: for two volume lists that are permutations of each other, with an escaping that
gives each volume a unit name of its own, two runs of
`podToSystemdHostMountUnits` without error from the same state leave the same
directories and the same files with the same content (the names need not even
be distinct). -/
theorem podToSystemdHostMountUnits_perm (env : Env) (root : String)
    (volumes1 volumes2 : List Volume) (fs fs1 fs2 : FS) (hperm : volumes1.Perm volumes2)
    (hname : ∀ v ∈ volumes1, filepath.isName
      (env.UnitNamePathEscape ("/mnt/" ++ v.Name.String ++ ".mount")).data)
    (hinj : ∀ v ∈ volumes1, ∀ w ∈ volumes1,
      env.UnitNamePathEscape ("/mnt/" ++ v.Name.String ++ ".mount") =
        env.UnitNamePathEscape ("/mnt/" ++ w.Name.String ++ ".mount") → v.Name = w.Name)
    (hrun1 : podToSystemdHostMountUnits env root volumes1 fs = (fs1, none))
    (hrun2 : podToSystemdHostMountUnits env root volumes2 fs = (fs2, none)) :
    (∀ p, fs1.isDir p = fs2.isDir p) ∧ (∀ p, fs1.readFile p = fs2.readFile p) := by
  have hok1 : (podToSystemdHostMountUnits env root volumes1 fs).2 = none := by rw [hrun1]
  have hok2 : (podToSystemdHostMountUnits env root volumes2 fs).2 = none := by rw [hrun2]
  -- directories
  have sub : ∀ (vs ws : List Volume) (s t : FS), (∀ v ∈ vs, v ∈ ws) →
      podToSystemdHostMountUnits env root vs fs = (s, none) →
      podToSystemdHostMountUnits env root ws fs = (t, none) → ∀ d ∈ s.dirs, d ∈ t.dirs := by
    intro vs ws s t hsub hs ht d hd
    obtain ⟨a1, _⟩ := podToSystemdHostMountUnits_dirs_new env root vs fs
    obtain ⟨_, b2⟩ := podToSystemdHostMountUnits_dirs_new env root ws fs
    obtain ⟨_, bmono, _, b4⟩ := podToSystemdHostMountUnits_inv env root ws fs
    rw [hs] at a1
    rw [ht] at b2 bmono b4
    simp only at a1 b2 bmono b4
    rcases a1 d hd with h | ⟨v, hv, hmiss⟩
    · exact bmono d h
    · exact mem_of_Missing fs.dirs t.dirs b2 _ d ((b4 trivial).1 v (hsub v hv)) hmiss
  have hdirs : ∀ p, fs1.isDir p = fs2.isDir p := by
    intro p
    have h12 := sub volumes1 volumes2 fs1 fs2 (fun v hv => hperm.subset hv) hrun1 hrun2 p
    have h21 := sub volumes2 volumes1 fs2 fs1 (fun v hv => hperm.symm.subset hv) hrun2 hrun1 p
    by_cases h : p ∈ fs1.dirs
    · simp [FS.isDir, h, h12 h]
    · have : p ∉ fs2.dirs := fun h2 => h (h21 h2)
      simp [FS.isDir, h, this]
  refine ⟨hdirs, fun p => ?_⟩
  -- files
  have hfile : ∀ n : ACName, volumeUnitFile env root n = unitFile env root ("/mnt/" ++ n.String) :=
    fun n => by unfold volumeUnitFile; rw [Join_stage1MntDir]
  have hdata : ∀ v ∈ volumes1, ∀ w ∈ volumes1,
      volumeUnitFile env root v.Name = volumeUnitFile env root w.Name →
      volumeUnit env v.Name = volumeUnit env w.Name := by
    intro v hv w hw h
    rw [hfile, hfile] at h
    rw [hinj v hv w hw (unitFile_inj env root _ _ (hname v hv) (hname w hw) h)]
  have hwp : (unitWrites env root volumes1 p).Perm (unitWrites env root volumes2 p) :=
    (hperm.filter _).map _
  have r1 := podToSystemdHostMountUnits_readFile env root volumes1 fs hok1 p
  have r2 := podToSystemdHostMountUnits_readFile env root volumes2 fs hok2 p
  rw [hrun1] at r1
  rw [hrun2] at r2
  simp only at r1 r2
  rw [r1, r2]
  by_cases hw : unitWrites env root volumes1 p = []
  · have hw2 : unitWrites env root volumes2 p = [] := by
      rw [hw] at hwp
      exact hwp.symm.eq_nil
    rw [if_pos hw, if_pos hw2]
  · have hw2 : unitWrites env root volumes2 p ≠ [] := fun h => hw (by
      rw [h] at hwp
      exact hwp.eq_nil)
    rw [if_neg hw, if_neg hw2]
    obtain ⟨e0, es, hes⟩ := List.exists_cons_of_ne_nil hw
    have hall1 : ∀ e ∈ unitWrites env root volumes1 p, e = e0 := by
      have he0 : e0 ∈ unitWrites env root volumes1 p := by rw [hes]; simp
      intro e he
      unfold unitWrites at he he0
      obtain ⟨v, hv, rfl⟩ := List.mem_map.mp he
      obtain ⟨w, hw', rfl⟩ := List.mem_map.mp he0
      obtain ⟨hv1, hv2⟩ := List.mem_filter.mp hv
      obtain ⟨hw1, hw2'⟩ := List.mem_filter.mp hw'
      simp only [decide_eq_true_eq] at hv2 hw2'
      exact hdata v hv1 w hw1 (hv2.2.trans hw2'.2.symm)
    have hall2 : ∀ e ∈ unitWrites env root volumes2 p, e = e0 :=
      fun e he => hall1 e (hwp.symm.subset he)
    rw [foldl_overwrite_const _ e0 _ hw hall1, foldl_overwrite_const _ e0 _ hw2 hall2]

set_option maxRecDepth 10000 in
/-- C20 at the sample pod: the volumes in both orders. -/
theorem podToSystemdHostMountUnits_perm_witness :
    (∀ p, (podToSystemdHostMountUnits sampleEnv "/pod" [dataVolume, scratchVolume]
        podRoot).1.isDir p =
      (podToSystemdHostMountUnits sampleEnv "/pod" [scratchVolume, dataVolume]
        podRoot).1.isDir p) ∧
    (∀ p, (podToSystemdHostMountUnits sampleEnv "/pod" [dataVolume, scratchVolume]
        podRoot).1.readFile p =
      (podToSystemdHostMountUnits sampleEnv "/pod" [scratchVolume, dataVolume]
        podRoot).1.readFile p) :=
  podToSystemdHostMountUnits_perm sampleEnv "/pod" [dataVolume, scratchVolume]
    [scratchVolume, dataVolume] podRoot
    (podToSystemdHostMountUnits sampleEnv "/pod" [dataVolume, scratchVolume] podRoot).1
    (podToSystemdHostMountUnits sampleEnv "/pod" [scratchVolume, dataVolume] podRoot).1
    (List.Perm.swap _ _ _) (by decide) (by decide) (by decide) (by decide)

end stage1

namespace os

/-- Data written over a content gives the data alone exactly when the content
is not longer than the data. -/
theorem overwrite_eq_data (old data : String) :
    overwrite old data = data ↔ old.length ≤ data.length := by
  unfold overwrite
  constructor
  · intro h
    have h1 := congrArg String.data h
    simp only [String.data_append] at h1
    have h2 : old.data.drop data.length = [] := by
      have := congrArg List.length h1
      simp only [List.length_append] at this
      exact List.eq_nil_of_length_eq_zero (by omega)
    have h3 := congrArg List.length h2
    simp only [List.length_drop, List.length_nil] at h3
    show old.data.length ≤ data.length
    omega
  · intro h
    have h2 : old.data.drop data.length = [] := List.drop_of_length_le h
    rw [h2]
    exact String.append_empty data

end os

namespace stage1

open os types unit

/-- C22: `newMountUnit` opens the unit file without truncation.  After a call that
returns no error, a unit file that existed with the content `old` holds the new
serialization followed by what `old` has beyond its length; and the file holds
the new serialization exactly if and only if it was absent or its content was
not longer than the serialization. -/
theorem newMountUnit_no_truncation (env : Env)
    (root what where_ fsType options requiredBy : String) (fs : FS)
    (hok : (newMountUnit env root what where_ fsType options requiredBy fs).2 = none) :
    (∀ old, fs.readFile (unitFile env root where_) = some old →
      (newMountUnit env root what where_ fsType options requiredBy fs).1.readFile
          (unitFile env root where_) =
        some (env.Serialize (mountUnitOptions what where_ fsType options requiredBy) ++
          String.mk (old.data.drop
            (env.Serialize (mountUnitOptions what where_ fsType options requiredBy)).length))) ∧
    ((newMountUnit env root what where_ fsType options requiredBy fs).1.readFile
          (unitFile env root where_) =
        some (env.Serialize (mountUnitOptions what where_ fsType options requiredBy)) ↔
      fs.readFile (unitFile env root where_) = none ∨
      ∃ old, fs.readFile (unitFile env root where_) = some old ∧
        old.length ≤
          (env.Serialize (mountUnitOptions what where_ fsType options requiredBy)).length) := by
  have h := (newMountUnit_spec env root what where_ fsType options requiredBy fs).2.2.2 hok
  rw [h]
  constructor
  · intro old ho
    rw [ho]
    rfl
  · cases ho : fs.readFile (unitFile env root where_) with
    | none =>
      simp only [Option.getD_none, overwrite_empty_old, true_or]
    | some old =>
      simp [overwrite_eq_data]

set_option maxRecDepth 10000 in
/-- C22 on a pod root where a longer unit file of the volume `data` is left: the
tail of the old file stays behind the new unit. -/
theorem newMountUnit_no_truncation_witness :
    (newMountUnit sampleEnv "/pod" "data" "/mnt/data" "9p" "trans=virtio" "default.target"
        staleUnitRoot).1.readFile "/pod/usr/lib/systemd/system/mnt-data.mount" =
      some ("[Unit]\nDescription=Mount unit for /mnt/data\nDefaultDependencies=false\n" ++
        "[Mount]\nWhat=data\nWhere=/mnt/data\nType=9p\nOptions=trans=virtio\n" ++
        "[Install]\nRequiredBy=default.target\n" ++ "y=default.target\n") :=
  (newMountUnit_no_truncation sampleEnv "/pod" "data" "/mnt/data" "9p" "trans=virtio"
    "default.target" staleUnitRoot (by decide)).1 staleUnit (by decide)

end stage1

namespace strings

/-- No piece of a split contains the separator. -/
theorem splitChar_no_sep (sep : Char) (p : List Char) : ∀ e ∈ splitChar sep p, sep ∉ e := by
  induction p with
  | nil =>
    intro e he
    simp [splitChar] at he
    simp [he]
  | cons c cs ih =>
    intro e he
    unfold splitChar at he
    split at he
    · rcases List.mem_cons.1 he with h | h
      · simp [h]
      · exact ih e h
    · rename_i hc
      split at he
      · simp only [List.mem_singleton] at he
        subst he
        simpa using Ne.symm hc
      · rename_i e0 es h0
        rcases List.mem_cons.1 he with h | h
        · subst h
          have := ih e0 (by rw [h0]; simp)
          intro hm
          rcases List.mem_cons.1 hm with h1 | h1
          · exact hc h1.symm
          · exact this h1
        · exact ih e (by rw [h0]; simp [h])

end strings

namespace filepath

open strings

/-- An element that `Clean` scans is not empty, has no separator and is not `.`. -/
theorem elems_piece (p e : List Char) (h : e ∈ elems p) :
    e ≠ [] ∧ '/' ∉ e ∧ e ≠ ['.'] := by
  unfold elems at h
  simp only [List.mem_filter, Bool.not_eq_true', Bool.or_eq_false_iff, beq_eq_false_iff_ne,
    ne_eq] at h
  exact ⟨h.2.1, splitChar_no_sep '/' p e h.1, h.2.2⟩

/-- Such an element is the only element of itself. -/
theorem elems_of_piece (e : List Char) (h : e ≠ [] ∧ '/' ∉ e ∧ e ≠ ['.']) : elems e = [e] := by
  obtain ⟨h1, h2, h3⟩ := h
  simp [elems, splitSlash, splitChar_of_not_mem _ _ h2, h1, h3]

/-- The elements of elements joined by separators. -/
theorem elems_intercalate (out : List (List Char))
    (h : ∀ e ∈ out, e ≠ [] ∧ '/' ∉ e ∧ e ≠ ['.']) :
    elems (['/'].intercalate out) = out := by
  induction out with
  | nil => simp [List.intercalate, elems, splitSlash, splitChar]
  | cons x xs ih =>
    cases xs with
    | nil =>
      have : ['/'].intercalate [x] = x := by simp [List.intercalate]
      rw [this]
      exact elems_of_piece x (h x (by simp))
    | cons y ys =>
      have e1 : ['/'].intercalate (x :: y :: ys) = x ++ '/' :: ['/'].intercalate (y :: ys) := by
        simp [List.intercalate, List.intersperse]
      rw [e1, elems_append_sep, ih (fun e he => h e (List.mem_cons_of_mem _ he)),
        elems_of_piece x (h x (by simp))]
      rfl

/-- What `cleanStep` writes was written before or is the element processed. -/
theorem mem_cleanStep (rooted : Bool) (out : List (List Char)) (e x : List Char)
    (h : x ∈ cleanStep rooted out e) : x ∈ out ∨ x = e := by
  unfold cleanStep at h
  split at h
  · split at h
    · rename_i top rest
      split at h
      · split at h
        · exact Or.inl h
        · rcases List.mem_cons.1 h with h | h
          · exact Or.inr h
          · exact Or.inl h
      · exact Or.inl (List.mem_cons_of_mem _ h)
    · split at h
      · simp at h
      · simp only [List.mem_singleton] at h
        exact Or.inr h
  · rcases List.mem_cons.1 h with h | h
    · exact Or.inr h
    · exact Or.inl h

/-- What `Clean` has written after a run of elements was there before or is one of
them. -/
theorem mem_foldl_cleanStep (rooted : Bool) (es : List (List Char)) (out : List (List Char))
    (x : List Char) (h : x ∈ es.foldl (cleanStep rooted) out) : x ∈ out ∨ x ∈ es := by
  induction es generalizing out with
  | nil => exact Or.inl h
  | cons e es ih =>
    rcases ih _ h with h1 | h1
    · rcases mem_cleanStep _ _ _ _ h1 with h2 | h2
      · exact Or.inl h2
      · exact Or.inr (by simp [h2])
    · exact Or.inr (List.mem_cons_of_mem _ h1)

/-- The elements of a cleaned path are what `Clean` has written. -/
theorem elems_cleanChars (c : Char) (cs : List Char) :
    elems (cleanChars (c :: cs)) =
      ((elems (c :: cs)).foldl (cleanStep (decide (c = '/'))) []).reverse := by
  have hp : ∀ e ∈ ((elems (c :: cs)).foldl (cleanStep (decide (c = '/'))) []).reverse,
      e ≠ [] ∧ '/' ∉ e ∧ e ≠ ['.'] := by
    intro e he
    rcases mem_foldl_cleanStep _ _ _ _ (List.mem_reverse.1 he) with h | h
    · simp at h
    · exact elems_piece _ _ h
  unfold cleanChars
  simp only
  split
  · have : '/' :: ['/'].intercalate
        ((elems (c :: cs)).foldl (cleanStep (decide (c = '/'))) []).reverse =
        [] ++ '/' :: ['/'].intercalate
          ((elems (c :: cs)).foldl (cleanStep (decide (c = '/'))) []).reverse := rfl
    rw [this, elems_append_sep, elems_intercalate _ hp]
    rfl
  · split
    · rename_i h
      rw [h]
      rfl
    · exact elems_intercalate _ hp

/-- A cleaned path starts with a separator exactly when the path does. -/
theorem cleanChars_head (c : Char) (cs : List Char) :
    ∃ d ds, cleanChars (c :: cs) = d :: ds ∧ (d = '/' ↔ c = '/') := by
  unfold cleanChars
  simp only
  split
  · rename_i h
    exact ⟨'/', _, rfl, by simpa using h⟩
  · rename_i h
    have hc : c ≠ '/' := by simpa using h
    split
    · exact ⟨'.', [], rfl, by simp [hc]⟩
    · rename_i hne
      obtain ⟨x, xs, hx⟩ := List.exists_cons_of_ne_nil hne
      have hxp : x ≠ [] ∧ '/' ∉ x ∧ x ≠ ['.'] := by
        have hm : x ∈ ((elems (c :: cs)).foldl (cleanStep (decide (c = '/'))) []).reverse := by
          rw [hx]
          simp
        rcases mem_foldl_cleanStep _ _ _ _ (List.mem_reverse.1 hm) with h1 | h1
        · simp at h1
        · exact elems_piece _ _ h1
      obtain ⟨d, ds, hd⟩ := List.exists_cons_of_ne_nil hxp.1
      rw [hx]
      have hd2 : d ≠ '/' := by
        intro e
        apply hxp.2.1
        rw [hd, e]
        simp
      cases xs with
      | nil => exact ⟨d, ds, by simp [List.intercalate, hd], by simp [hd2, hc]⟩
      | cons y ys =>
        exact ⟨d, ds ++ '/' :: ['/'].intercalate (y :: ys),
          by simp [List.intercalate, List.intersperse, hd], by simp [hd2, hc]⟩

/-- Elements that stay below their start are written over what was there, which
is left as it is. -/
theorem foldl_cleanStep_descend (rooted : Bool) (es below x s : List (List Char))
    (hb : ∀ e ∈ below, e ≠ ['.', '.']) (h : descend below es = some x) :
    es.foldl (cleanStep rooted) (below ++ s) = x ++ s ∧ ∀ e ∈ x, e ≠ ['.', '.'] := by
  induction es generalizing below with
  | nil =>
    simp only [descend, Option.some.injEq] at h
    subst h
    exact ⟨rfl, hb⟩
  | cons e es ih =>
    unfold descend at h
    split at h
    · rename_i he
      cases below with
      | nil => simp at h
      | cons b rest =>
        simp only at h
        have hbb : b ≠ ['.', '.'] := hb b (by simp)
        have : cleanStep rooted (b :: rest ++ s) e = rest ++ s := by
          unfold cleanStep
          rw [if_pos he]
          simp [hbb]
        rw [List.foldl_cons, this]
        exact ih rest (fun e he => hb e (List.mem_cons_of_mem _ he)) h
    · rename_i he
      have : cleanStep rooted (below ++ s) e = (e :: below) ++ s := by
        unfold cleanStep
        rw [if_neg he]
        rfl
      rw [List.foldl_cons, this]
      refine ih (e :: below) (fun y hy => ?_) h
      rcases List.mem_cons.1 hy with h1 | h1
      · rw [h1]
        exact he
      · exact hb y h1

/-- Elements other than `..` are written one after the other. -/
theorem foldl_cleanStep_names (rooted : Bool) (es s : List (List Char))
    (h : ∀ e ∈ es, e ≠ ['.', '.']) : es.foldl (cleanStep rooted) s = es.reverse ++ s := by
  induction es generalizing s with
  | nil => rfl
  | cons e es ih =>
    have : cleanStep rooted s e = e :: s := by
      unfold cleanStep
      rw [if_neg (h e (by simp))]
    rw [List.foldl_cons, this, ih _ (fun y hy => h y (List.mem_cons_of_mem _ hy))]
    simp

end filepath

namespace filepath

open strings

/-- The elements of two paths joined, the first of which is not empty. -/
theorem elems_Join (a b : String) (c : Char) (cs : List Char) (ha : a.data = c :: cs) :
    elems (Join [a, b]).data =
      ((elems a.data ++ elems b.data).foldl (cleanStep (decide (c = '/'))) []).reverse := by
  have hne : a ≠ "" := by
    intro e
    rw [e] at ha
    simp at ha
  have l : Join [a, b] = Clean (a ++ "/" ++ b) := by
    show (if a = "" then _ else _) = _
    rw [if_neg hne]
    rfl
  have d1 : (a ++ "/" ++ b).data = c :: (cs ++ '/' :: b.data) := by
    simp [String.data_append, ha]
  rw [l]
  show elems (cleanChars (a ++ "/" ++ b).data) = _
  rw [d1, elems_cleanChars, ← List.cons_append, elems_append_sep, ha]

/-- A clean path is not empty, and `Clean` has written its elements as they
are. -/
theorem foldl_cleanStep_of_Clean (rel : String) (hclean : Clean rel = rel) :
    ∃ c cs, rel.data = c :: cs ∧
      (elems rel.data).foldl (cleanStep (decide (c = '/'))) [] = (elems rel.data).reverse := by
  have hd : cleanChars rel.data = rel.data := congrArg String.data hclean
  cases hr : rel.data with
  | nil =>
    rw [hr] at hd
    simp [cleanChars] at hd
  | cons c cs =>
    refine ⟨c, cs, rfl, ?_⟩
    rw [hr] at hd
    have h := elems_cleanChars c cs
    rw [hd] at h
    have h2 := congrArg List.reverse h
    rw [List.reverse_reverse] at h2
    exact h2.symm

/-- The elements of a clean path joined with a path that stays below its start:
those of the clean path, then what the other path leaves. -/
theorem elems_Join_descend (rel path : String) (x : List (List Char))
    (hclean : Clean rel = rel) (h : descend [] (elems path.data) = some x) :
    elems (Join [rel, path]).data = elems rel.data ++ x.reverse ∧
      ∀ e ∈ x, e ≠ ['.', '.'] := by
  obtain ⟨c, cs, hr, hf⟩ := foldl_cleanStep_of_Clean rel hclean
  obtain ⟨h1, h2⟩ := foldl_cleanStep_descend (decide (c = '/')) (elems path.data) [] x
    (elems rel.data).reverse (by simp) h
  refine ⟨?_, h2⟩
  rw [elems_Join rel path c cs hr, List.foldl_append, hf]
  simp only [List.nil_append] at h1
  rw [h1]
  simp

/-- A cleaned path is absolute exactly when the path is. -/
theorem IsAbs_Clean (a : String) (c : Char) (cs : List Char) (ha : a.data = c :: cs) :
    IsAbs (Clean a) = IsAbs a := by
  obtain ⟨d, ds, hd, hdc⟩ := cleanChars_head c cs
  have e1 : (Clean a).data = d :: ds := by
    show cleanChars a.data = _
    rw [ha, hd]
  unfold IsAbs
  rw [e1, ha]
  by_cases hc : c = '/'
  · simp [hc, hdc.2 hc]
  · have : d ≠ '/' := fun e => hc (hdc.1 e)
    simp [hc, this]

/-- Two paths joined, the first of which is not empty, are absolute exactly when
the first is. -/
theorem IsAbs_Join (a b : String) (c : Char) (cs : List Char) (ha : a.data = c :: cs) :
    IsAbs (Join [a, b]) = IsAbs a := by
  have hne : a ≠ "" := by
    intro e
    rw [e] at ha
    simp at ha
  have l : Join [a, b] = Clean (a ++ "/" ++ b) := by
    show (if a = "" then _ else _) = _
    rw [if_neg hne]
    rfl
  have d1 : (a ++ "/" ++ b).data = c :: (cs ++ '/' :: b.data) := by
    simp [String.data_append, ha]
  rw [l, IsAbs_Clean _ c _ d1]
  unfold IsAbs
  rw [d1, ha]
  rfl

/-- A clean path joined with a path that stays below its start lies inside the
clean path. -/
theorem inside_Join (rel path : String) (hclean : Clean rel = rel)
    (h : staysBelow path = true) : inside rel (Join [rel, path]) := by
  unfold staysBelow at h
  obtain ⟨x, hx⟩ := Option.isSome_iff_exists.1 h
  obtain ⟨c, cs, hr, _⟩ := foldl_cleanStep_of_Clean rel hclean
  refine ⟨(IsAbs_Join rel path c cs hr).symm, ?_⟩
  rw [(elems_Join_descend rel path x hclean hx).1]
  exact List.prefix_append _ _

/-- Joined to a root, such a path lies inside the clean path joined to the
root. -/
theorem inside_Join_root (root rel path : String) (hclean : Clean rel = rel)
    (h : staysBelow path = true) :
    inside (Join [root, rel]) (Join [root, Join [rel, path]]) := by
  unfold staysBelow at h
  obtain ⟨x, hx⟩ := Option.isSome_iff_exists.1 h
  obtain ⟨hw, hn⟩ := elems_Join_descend rel path x hclean hx
  obtain ⟨c, cs, hr, hf⟩ := foldl_cleanStep_of_Clean rel hclean
  have hnr : ∀ e ∈ x.reverse, e ≠ ['.', '.'] := fun e he => hn e (List.mem_reverse.1 he)
  cases hroot : root.data with
  | nil =>
    have e0 : root = "" := String.ext hroot
    have hne : rel ≠ "" := by
      intro e
      rw [e] at hr
      simp at hr
    have l1 : Join [root, rel] = rel := by
      rw [e0]
      show (if ("" : String) = "" then Join [rel] else _) = _
      rw [if_pos rfl]
      show (if rel = "" then _ else _) = _
      rw [if_neg hne]
      exact hclean
    have hjd : (Join [rel, path]).data = cleanChars (c :: (cs ++ '/' :: path.data)) := by
      have l : Join [rel, path] = Clean (rel ++ "/" ++ path) := by
        show (if rel = "" then _ else _) = _
        rw [if_neg hne]
        rfl
      rw [l]
      show cleanChars (rel ++ "/" ++ path).data = _
      congr 1
      simp [String.data_append, hr]
    obtain ⟨d, ds, hd, hdc⟩ := cleanChars_head c (cs ++ '/' :: path.data)
    have hwd : (Join [rel, path]).data = d :: ds := hjd.trans hd
    have hwne : Join [rel, path] ≠ "" := by
      intro e
      rw [e] at hwd
      simp at hwd
    have l2 : Join [root, Join [rel, path]] = Clean (Join [rel, path]) := by
      rw [e0]
      show (if ("" : String) = "" then Join [Join [rel, path]] else _) = _
      rw [if_pos rfl]
      show (if Join [rel, path] = "" then _ else _) = _
      rw [if_neg hwne]
      rfl
    have hflag : decide (d = '/') = decide (c = '/') := by
      by_cases hc : c = '/'
      · simp [hc, hdc.2 hc]
      · have : d ≠ '/' := fun e => hc (hdc.1 e)
        simp [hc, this]
    rw [l1, l2]
    refine ⟨?_, ?_⟩
    · rw [IsAbs_Clean _ d ds hwd, IsAbs_Join rel path c cs hr]
    · show elems rel.data <+: elems (cleanChars (Join [rel, path]).data)
      rw [hwd, elems_cleanChars, ← hwd, hw, hflag, List.foldl_append, hf,
        foldl_cleanStep_names _ _ _ hnr]
      simp
  | cons r rs =>
    have e2 : (elems root.data ++ (elems rel.data ++ x.reverse)).foldl
          (cleanStep (decide (r = '/'))) [] =
        x ++ (elems root.data ++ elems rel.data).foldl (cleanStep (decide (r = '/'))) [] := by
      rw [← List.append_assoc, List.foldl_append, foldl_cleanStep_names _ _ _ hnr,
        List.reverse_reverse]
    refine ⟨?_, ?_⟩
    · rw [IsAbs_Join root rel r rs hroot, IsAbs_Join root (Join [rel, path]) r rs hroot]
    · rw [elems_Join root rel r rs hroot, elems_Join root (Join [rel, path]) r rs hroot, hw, e2,
        List.reverse_append]
      exact List.prefix_append _ _

end filepath

namespace stage1

open os types unit

set_option maxRecDepth 100000 in
/-- C23: for the mount point `escapingMount`, whose path is `../../../../etc`,
`appToSystemdMountUnits` returns no error, writes a unit with `Where=/etc` and
makes the directory `/pod/etc`; neither lies inside the root file system of the
application, whose path is not the beginning of `/etc` element by element nor
character by character.  The `where` that the function hands to `newMountUnit`
as a path inside the chroot file system of the application is outside it. -/
theorem appToSystemdMountUnits_escapes :
    (appToSystemdMountUnits sampleEnv "/pod" sampleApp [escapingMount] wiredRoot).2 = none ∧
    filepath.Join [sampleEnv.RelAppRootfsPath sampleApp, escapingMount.Path] = "/etc" ∧
    (appToSystemdMountUnits sampleEnv "/pod" sampleApp [escapingMount] wiredRoot).1.readFile
        "/pod/usr/lib/systemd/system/etc.mount" =
      some ("[Unit]\nDescription=Mount unit for /etc\nDefaultDependencies=false\n" ++
        "[Mount]\nWhat=/mnt/data\nWhere=/etc\nType=bind\nOptions=bind\n" ++
        "[Install]\nRequiredBy=4f2a.service\n") ∧
    wiredRoot.isDir "/pod/etc" = false ∧
    (appToSystemdMountUnits sampleEnv "/pod" sampleApp [escapingMount] wiredRoot).1.isDir
      "/pod/etc" = true ∧
    ¬ filepath.inside (sampleEnv.RelAppRootfsPath sampleApp) "/etc" ∧
    ¬ (sampleEnv.RelAppRootfsPath sampleApp).data <+: "/etc".data ∧
    ¬ filepath.inside (filepath.Join ["/pod", sampleEnv.RelAppRootfsPath sampleApp])
      "/pod/etc" ∧
    filepath.staysBelow escapingMount.Path = false := by
  have hwhere : filepath.Join [sampleEnv.RelAppRootfsPath sampleApp, escapingMount.Path] =
      "/etc" := by
    decide
  refine ⟨by decide, hwhere, by decide, by decide, by decide, ?_, ?_, ?_, by decide⟩
  · decide
  · decide
  · decide

/-- The mount points for which the destination does stay inside: for an
application whose relative root file system path is a clean path, and a mount
point wired by `appToSystemdMountUnits` without error whose path stays below
its start (it may have `..` elements, none of which climbs above the place
where the path starts), the only `Where` of the unit written is the relative
root file system path joined with the path of the mount point; it lies inside
the relative root file system path, and the destination under the root, which
is made when nothing is there, lies inside the root file system of the
application under the root. -/
theorem appToSystemdMountUnits_inside (env : Env) (root : String) (appId : Hash)
    (pre : List MountPoint) (mp : MountPoint) (fs fs1 fs2 : FS)
    (hclean : filepath.Clean (env.RelAppRootfsPath appId) = env.RelAppRootfsPath appId)
    (hstay : filepath.staysBelow mp.Path = true)
    (hpre : appToSystemdMountUnits env root appId pre fs = (fs1, none))
    (hmp : appToSystemdMountUnits env root appId (pre ++ [mp]) fs = (fs2, none)) :
    fs2.readFile (unitFile env root (filepath.Join [env.RelAppRootfsPath appId, mp.Path])) =
      some (overwrite
        ((fs1.readFile (unitFile env root
          (filepath.Join [env.RelAppRootfsPath appId, mp.Path]))).getD "")
        (env.Serialize (mountUnitOptions ("/mnt/" ++ mp.Name.String)
          (filepath.Join [env.RelAppRootfsPath appId, mp.Path]) "bind"
          (if mp.ReadOnly then "bind,ro" else "bind") (env.ServiceUnitName appId)))) ∧
    ((mountUnitOptions ("/mnt/" ++ mp.Name.String)
        (filepath.Join [env.RelAppRootfsPath appId, mp.Path]) "bind"
        (if mp.ReadOnly then "bind,ro" else "bind") (env.ServiceUnitName appId)).filter
        fun o => o.Name = "Where") =
      [NewUnitOption "Mount" "Where" (filepath.Join [env.RelAppRootfsPath appId, mp.Path])] ∧
    filepath.inside (env.RelAppRootfsPath appId)
      (filepath.Join [env.RelAppRootfsPath appId, mp.Path]) ∧
    filepath.inside (filepath.Join [root, env.RelAppRootfsPath appId])
      (filepath.Join [root, filepath.Join [env.RelAppRootfsPath appId, mp.Path]]) ∧
    (IsNotExist (fs1.Stat (filepath.Join [root,
        filepath.Join [env.RelAppRootfsPath appId, mp.Path]])) = true →
      fs2.isDir (filepath.Join [root,
        filepath.Join [env.RelAppRootfsPath appId, mp.Path]]) = true) := by
  rw [appToSystemdMountUnits_append, hpre] at hmp
  obtain ⟨h1, h2⟩ := appToSystemdMountUnits_step env root appId mp fs1 fs2 hmp
  refine ⟨h1, ?_, filepath.inside_Join _ _ hclean hstay,
    filepath.inside_Join_root _ _ _ hclean hstay, fun hn => h2 (Or.inl hn)⟩
  unfold mountUnitOptions
  by_cases hr : env.ServiceUnitName appId = ""
  · simp [hr, NewUnitOption, List.filter]
  · simp [hr, NewUnitOption, List.filter]

set_option maxRecDepth 100000 in
/-- The sample application and the mount point `dottedMount`, whose path
`/var/../srv/data` has a `..` that stays inside: the unit has
`Where=/opt/stage2/4f2a/rootfs/srv/data`, inside the root file system of the
application, and the directory made lies inside it under the pod root. -/
theorem appToSystemdMountUnits_inside_dotted :
    (appToSystemdMountUnits sampleEnv "/pod" sampleApp ([] ++ [dottedMount])
        wiredRoot).1.readFile
        "/pod/usr/lib/systemd/system/opt-stage2-4f2a-rootfs-srv-data.mount" =
      some ("[Unit]\nDescription=Mount unit for /opt/stage2/4f2a/rootfs/srv/data\n" ++
        "DefaultDependencies=false\n[Mount]\nWhat=/mnt/data\n" ++
        "Where=/opt/stage2/4f2a/rootfs/srv/data\nType=bind\nOptions=bind,ro\n" ++
        "[Install]\nRequiredBy=4f2a.service\n") ∧
    filepath.inside "/opt/stage2/4f2a/rootfs" "/opt/stage2/4f2a/rootfs/srv/data" ∧
    filepath.inside "/pod/opt/stage2/4f2a/rootfs" "/pod/opt/stage2/4f2a/rootfs/srv/data" ∧
    (appToSystemdMountUnits sampleEnv "/pod" sampleApp ([] ++ [dottedMount]) wiredRoot).1.isDir
      "/pod/opt/stage2/4f2a/rootfs/srv/data" = true :=
  have h := appToSystemdMountUnits_inside sampleEnv "/pod" sampleApp [] dottedMount wiredRoot
    wiredRoot
    (appToSystemdMountUnits sampleEnv "/pod" sampleApp ([] ++ [dottedMount]) wiredRoot).1
    (by decide) (by decide) rfl (by decide)
  ⟨h.1, h.2.2.1, h.2.2.2.1, h.2.2.2.2 (by decide)⟩

end stage1

namespace tests

set_option maxRecDepth 100000 in
/-- C21: at the template of `TestNetTemplates`, the encoding has the keys `name` and
`type` and leaves `IpMasq` and `IsGateway` out, as the tags of `networkTemplateT`
say; it is not the encoding the test expects, and the test fails. -/
theorem Marshal_ptp0Template :
    Marshal ptp0Template =
      ("\x7b\"name\":\"ptp0\",\"type\":\"ptp\"," ++
        "\"Ipam\":\x7b\"Type\":\"host-local\",\"subnet\":\"11.11.3.0/24\"," ++
        "\"routes\":[\x7b\"dst\":\"0.0.0.0/0\"\x7d]\x7d\x7d", none) ∧
    (Marshal ptp0Template).1 ≠ expected ∧
    TestNetTemplates ≠ none := by
  decide

end tests

namespace stage1

open os types unit

/-- A run of `appToSystemdMountUnits` without error is the turn of the first mount
point, without error, followed by the run on the others. -/
theorem appToSystemdMountUnits_head (env : Env) (root : String) (appId : Hash)
    (mp : MountPoint) (mps : List MountPoint) (fs fs1 : FS)
    (h : appToSystemdMountUnits env root appId (mp :: mps) fs = (fs1, none)) :
    ∃ fs2, appToSystemdMountUnits env root appId [mp] fs = (fs2, none) ∧
      appToSystemdMountUnits env root appId mps fs2 = (fs1, none) := by
  have ha := appToSystemdMountUnits_append env root appId [mp] mps fs
  rw [List.singleton_append, h] at ha
  rcases hs : appToSystemdMountUnits env root appId [mp] fs with ⟨fs2, e⟩
  rw [hs] at ha
  cases e with
  | some err => simp at ha
  | none => exact ⟨fs2, rfl, ha.symm⟩

/-- A file stays a file through a run of `appToSystemdMountUnits` without error. -/
theorem appToSystemdMountUnits_isFile (env : Env) (root : String) (appId : Hash)
    (mps : List MountPoint) (fs fs1 : FS) (q : String)
    (h : appToSystemdMountUnits env root appId mps fs = (fs1, none))
    (hq : fs.isFile q = true) : fs1.isFile q = true := by
  induction mps generalizing fs with
  | nil =>
    have : (fs, (none : Option GoError)) = (fs1, none) := h
    rw [← (Prod.mk.inj this).1]
    exact hq
  | cons mp mps ih =>
    obtain ⟨fs2, h1, h2⟩ := appToSystemdMountUnits_head env root appId mp mps fs fs1 h
    refine ih fs2 h2 ?_
    by_cases hu : q = unitFile env root (filepath.Join [env.RelAppRootfsPath appId, mp.Path])
    · rw [hu]
      simp [FS.isFile, (appToSystemdMountUnits_step env root appId mp fs fs2 h1).1]
    · have hf := (appToSystemdMountUnits_frame env root appId [mp] fs).2 q
        (fun m hm => by rw [List.mem_singleton.1 hm]; exact hu)
      rw [h1] at hf
      simp only [FS.isFile, hf]
      exact hq

/-- After a run of `appToSystemdMountUnits` without error the unit file of every
mount point is there. -/
theorem appToSystemdMountUnits_units_written (env : Env) (root : String) (appId : Hash)
    (mps : List MountPoint) (fs fs1 : FS)
    (h : appToSystemdMountUnits env root appId mps fs = (fs1, none)) :
    ∀ m ∈ mps, fs1.isFile
      (unitFile env root (filepath.Join [env.RelAppRootfsPath appId, m.Path])) = true := by
  induction mps generalizing fs with
  | nil => simp
  | cons mp mps ih =>
    obtain ⟨fs2, h1, h2⟩ := appToSystemdMountUnits_head env root appId mp mps fs fs1 h
    intro m hm
    rcases List.mem_cons.1 hm with hm | hm
    · subst hm
      refine appToSystemdMountUnits_isFile env root appId mps fs2 fs1 _ h2 ?_
      simp [FS.isFile, (appToSystemdMountUnits_step env root appId m fs fs2 h1).1]
    · exact ih fs2 h2 m hm

/-- C11 (amended): for an application with a mount point for whose shared directory
`<root>/mnt/<name>` `os.Stat` reports that it does not exist, once the mount
points declared before it have been wired without error
`appToSystemdMountUnits` fails with the configuration error, and the state it
leaves is the state `fs1` in which that mount point was reached: nothing is
written for it or for a later mount point, and nothing is rolled back.  The
unit files of the earlier mount points are there, every other file is as it was
before the run, and when there is no earlier mount point the state is
untouched. -/
theorem appToSystemdMountUnits_missing_no_artifacts (env : Env) (root : String) (appId : Hash)
    (pre post : List MountPoint) (mp : MountPoint) (fs fs1 : FS)
    (hpre : appToSystemdMountUnits env root appId pre fs = (fs1, none))
    (hmiss : IsNotExist (fs1.Stat (filepath.Join [root, "/mnt/" ++ mp.Name.String])) = true) :
    appToSystemdMountUnits env root appId (pre ++ mp :: post) fs =
      (fs1, some (.errorf ("app requires a volume that is not defined in Pod (try --volume=" ++
        mp.Name.String ++ ",kind=empty)!"))) ∧
    (∀ m ∈ pre, fs1.isFile
      (unitFile env root (filepath.Join [env.RelAppRootfsPath appId, m.Path])) = true) ∧
    (∀ q, (∀ m ∈ pre,
        q ≠ unitFile env root (filepath.Join [env.RelAppRootfsPath appId, m.Path])) →
      fs1.readFile q = fs.readFile q) ∧
    (pre = [] → fs1 = fs) := by
  refine ⟨?_, appToSystemdMountUnits_units_written env root appId pre fs fs1 hpre,
    fun q hq => ?_, fun hnil => ?_⟩
  · rw [appToSystemdMountUnits_append, hpre]
    exact appToSystemdMountUnits_missing env root appId mp post fs1 hmiss
  · have := (appToSystemdMountUnits_frame env root appId pre fs).2 q hq
    rw [hpre] at this
    exact this
  · subst hnil
    have : (fs, (none : Option GoError)) = (fs1, none) := hpre
    exact (Prod.mk.inj this).1.symm

set_option maxRecDepth 100000 in
/-- C11 (amended) at the sample application, which declares the mount of `data`, then
the mount of the undefined volume `logs`, then the mount of `scratch`: the
error, the state left is the one after the mount of `data`, and the unit of
`data`, which was not there before, is in it. -/
theorem appToSystemdMountUnits_missing_no_artifacts_witness :
    appToSystemdMountUnits sampleEnv "/pod" sampleApp
        ([dataMount] ++ logsMount :: [scratchMount]) wiredRoot =
      ((appToSystemdMountUnits sampleEnv "/pod" sampleApp [dataMount] wiredRoot).1,
        some (.errorf ("app requires a volume that is not defined in Pod (try --volume=" ++
          "logs" ++ ",kind=empty)!"))) ∧
    wiredRoot.isFile "/pod/usr/lib/systemd/system/opt-stage2-4f2a-rootfs-var-data.mount" =
      false ∧
    (appToSystemdMountUnits sampleEnv "/pod" sampleApp [dataMount] wiredRoot).1.isFile
      "/pod/usr/lib/systemd/system/opt-stage2-4f2a-rootfs-var-data.mount" = true :=
  have h := appToSystemdMountUnits_missing_no_artifacts sampleEnv "/pod" sampleApp [dataMount]
    [scratchMount] logsMount wiredRoot
    (appToSystemdMountUnits sampleEnv "/pod" sampleApp [dataMount] wiredRoot).1
    (by decide) (by decide)
  ⟨h.1, by decide, h.2.1 dataMount (by decide)⟩

end stage1

end Rkt
